import Mathlib

/-!
sqlanywhere: named-parameter rewriter and statement execution.

A shallow embedding of `args.go` (the rewriter `splitNamed`) and of
`stmt.go` (`statement.exec` with its parameter binding), followed by the
properties established about them.

SQL text is modelled as the rune sequence the code itself works on
(`[]rune(sql)`), i.e. a `List Char`; a Go string that is valid UTF-8 is
the same thing as its rune sequence, and `string(runes)` is the inverse
conversion.
-/

namespace SqlAnywhere

/-! ## args.go -/

/-- Zero value of a Go `rune` variable (`var prior rune`). -/
def zeroRune : Char := Char.ofNat 0

/-- Constant `quote`: the single quote, U+0027. -/
def quote : Char := Char.ofNat 39

/-- Constant `escape`: the backslash, U+005C. -/
def escape : Char := Char.ofNat 92

/-- Constant `param`: the colon. -/
def param : Char := ':'

/-- Constant `placeholder`: the question mark. -/
def placeholder : Char := '?'

/-- Function `isArg` of args.go. -/
def isArg (b : Char) : Bool :=
  (decide (b ≥ '0') && decide (b ≤ '9')) ||
  (decide (b ≥ 'A') && decide (b ≤ 'Z')) ||
  (decide (b ≥ 'a') && decide (b ≤ 'z')) ||
  b == '_'

/-- Struct `arg`: the half-open rune range `[start, stop)` of one named
parameter, marker included (`stop` is the Go field `end`). -/
structure arg where
  start : Nat
  stop : Nat
deriving DecidableEq, Repr

/-- Struct `split`. -/
structure split where
  sql : List Char
  args : List arg
deriving DecidableEq, Repr

/-- The variables of `splitNamed` that live across loop iterations:
`s.args`, the pointer `a` (`none` is nil) and `quoted`. -/
structure scan where
  args : List arg
  a : Option arg
  quoted : Bool
deriving DecidableEq, Repr

/-- Indexing `s.sql[i]`; every use below is guarded to be in range. -/
def runeAt (sql : List Char) (i : Nat) : Char := sql.getD i zeroRune

/-- One iteration of `for i, c := range s.sql` in `splitNamed`. The body
only runs with `1 ≤ len(s.sql)`, so `len(s.sql)-1` does not go negative. -/
def loopBody (sql : List Char) (i : Nat) (c : Char) (st : scan) : scan :=
  let prior := if i > 0 then runeAt sql (i - 1) else zeroRune
  let quoted := if c == quote && prior != escape then !st.quoted else st.quoted
  if quoted then
    { st with quoted := quoted }
  else
    let next := if i < sql.length - 1 then runeAt sql (i + 1) else zeroRune
    if c == param && isArg next then
      { args := st.args, a := some { start := i, stop := 0 }, quoted := quoted }
    else
      match st.a with
      | some a =>
        if !isArg next then
          { args := st.args ++ [{ a with stop := i + 1 }], a := none, quoted := quoted }
        else
          { st with quoted := quoted }
      | none => { st with quoted := quoted }

/-- The `range` loop of `splitNamed`: `i` is the index of the head of the
remaining runes. -/
def rangeLoop (sql : List Char) : Nat → List Char → scan → scan
  | _, [], st => st
  | i, c :: rest, st => rangeLoop sql (i + 1) rest (loopBody sql i c st)

/-- Slice expression `s.sql[lo:hi]`. -/
def slice (sql : List Char) (lo hi : Nat) : List Char := (sql.take hi).drop lo

/-- The loop of `collapse`: the builder `b` and the cursor `from`. -/
def collapseLoop (sql : List Char) : List arg → Nat → List Char → Nat × List Char
  | [], frm, b => (frm, b)
  | a :: rest, frm, b =>
    collapseLoop sql rest a.stop (b ++ slice sql frm a.start ++ [placeholder])

/-- Method `collapse` of args.go. -/
def split.collapse (s : split) : List Char :=
  let r := collapseLoop s.sql s.args 0 []
  if r.1 < s.sql.length then r.2 ++ s.sql.drop r.1 else r.2

/-- Method `arguments` of args.go. -/
def split.arguments (s : split) : List (List Char) :=
  s.args.map fun a => slice s.sql (a.start + 1) a.stop

/-- Function `splitNamed` of args.go. -/
def splitNamed (sql : List Char) : List Char × List (List Char) :=
  let st := rangeLoop sql 0 sql { args := [], a := none, quoted := false }
  let s : split := { sql := sql, args := st.args }
  (s.collapse, s.arguments)

/-- Writes the text `sql` from index `frm` on with every range of `args`
replaced by `v` applied to the name the range holds (the range without
its marker); text between the ranges is copied. -/
def substituteRanges (v : List Char → List Char) (sql : List Char) : List arg → Nat → List Char
  | [], frm => sql.drop frm
  | a :: rest, frm =>
    slice sql frm a.start ++ v (slice sql (a.start + 1) a.stop)
      ++ substituteRanges v sql rest a.stop

/-- The ranges `s.args` that `splitNamed` recognises in a text. -/
def recognised (sql : List Char) : List arg :=
  (rangeLoop sql 0 sql { args := [], a := none, quoted := false }).args

/-- Naive manual substitution, following the words of the specification:
each recognised `:name` token of `sql` is replaced, at its original
position, by `v name`. -/
def substituteNamed (v : List Char → List Char) (sql : List Char) : List Char :=
  substituteRanges v sql (recognised sql) 0

/-- Positional substitution, following the words of the specification:
the i-th `?` of `out`, left to right, is replaced by `v` of the i-th
name; a `?` beyond the last name is left as it is. -/
def substitutePlaceholders (v : List Char → List Char) : List Char → List (List Char) → List Char
  | [], _ => []
  | c :: out, names =>
    if c = placeholder then
      match names with
      | [] => c :: substitutePlaceholders v out []
      | n :: ns => v n ++ substitutePlaceholders v out ns
    else c :: substitutePlaceholders v out names

/-! ### Reference semantics of the rewriter, used in the proofs -/

/-- A piece of rewritten SQL: a rune copied verbatim, or a named
parameter (the name without its marker). -/
inductive Tok where
  | lit (c : Char)
  | name (n : List Char)
deriving DecidableEq, Repr

/-- Body of the loop of `splitNamed` with the neighbouring runes passed
explicitly instead of being read from `s.sql`. -/
def stepRunes (prior c next : Char) (i : Nat) (st : scan) : scan :=
  let quoted := if c == quote && prior != escape then !st.quoted else st.quoted
  if quoted then
    { st with quoted := quoted }
  else
    if c == param && isArg next then
      { args := st.args, a := some { start := i, stop := 0 }, quoted := quoted }
    else
      match st.a with
      | some a =>
        if !isArg next then
          { args := st.args ++ [{ a with stop := i + 1 }], a := none, quoted := quoted }
        else
          { st with quoted := quoted }
      | none => { st with quoted := quoted }

/-- The token sequence the rewriter recognises in a text, reading it
left to right from the quoting state `quoted` with `prior` the rune just
before the text. -/
def tokens (quoted : Bool) (prior : Char) : List Char → List Tok
  | [] => []
  | c :: rest =>
    if (if c == quote && prior != escape then !quoted else quoted) then
      Tok.lit c :: tokens (if c == quote && prior != escape then !quoted else quoted) c rest
    else if c == param && isArg (rest.headD zeroRune) then
      Tok.name (rest.takeWhile isArg) ::
        tokens false ((rest.takeWhile isArg).getLastD zeroRune) (rest.dropWhile isArg)
    else
      Tok.lit c :: tokens false c rest
termination_by s => s.length
decreasing_by
  all_goals simp_wf
  all_goals
    have := (List.dropWhile_sublist (l := rest) isArg).length_le
    omega

/-- Rune ranges of the named parameters of a token sequence that starts
at index `i` of the text. -/
def tokArgs : Nat → List Tok → List arg
  | _, [] => []
  | i, Tok.lit _ :: ts => tokArgs (i + 1) ts
  | i, Tok.name n :: ts =>
    { start := i, stop := i + 1 + n.length } :: tokArgs (i + 1 + n.length) ts

/-- The text a token sequence was read from. -/
def tokText : List Tok → List Char
  | [] => []
  | Tok.lit c :: ts => c :: tokText ts
  | Tok.name n :: ts => param :: n ++ tokText ts

/-- The text of a token sequence with every named parameter `n`
written as `f n`. -/
def render (f : List Char → List Char) : List Tok → List Char
  | [] => []
  | Tok.lit c :: ts => c :: render f ts
  | Tok.name n :: ts => f n ++ render f ts

/-- The names of a token sequence, in order. -/
def tokNames : List Tok → List (List Char)
  | [] => []
  | Tok.lit _ :: ts => tokNames ts
  | Tok.name n :: ts => n :: tokNames ts

/-- The token sequence of a whole text. -/
def tokensOf (s : List Char) : List Tok := tokens false zeroRune s

/-- The text made of a blank and a marked name, for each name in turn. -/
def markedNames (ns : List (List Char)) : List Char :=
  (ns.map (fun n => ' ' :: param :: n)).flatten

/-! ## time.go -/

/-- The broken-down wall clock of a Go `time.Time` in its own location,
as read by `t.Date()` and by `t.Format`. -/
structure GoTime where
  year : Int
  month : Nat
  day : Nat
  hour : Nat
  minute : Nat
  second : Nat
  nanosecond : Nat
deriving DecidableEq, Repr

/-- Decimal digits of `n`, zero-padded on the left to `width` digits. -/
def padDigits (n width : Nat) : List Char :=
  let ds := Nat.toDigits 10 n
  List.replicate (width - ds.length) '0' ++ ds

/-- Go `appendInt` of package time: a sign for a negative number, then
the digits zero-padded to `width`. -/
def appendInt (x : Int) (width : Nat) : List Char :=
  if x < 0 then '-' :: padDigits x.natAbs width else padDigits x.natAbs width

/-- What Go `appendNano` writes for the layout element `.9` (one digit
`9`): nothing when the nanoseconds are zero; otherwise the dot and the
first of the nine fractional digits, then trailing zeros and a trailing
dot are cut. -/
def appendNano (nanosec : Nat) : List Char :=
  if nanosec = 0 then []
  else
    let b := '.' :: (padDigits nanosec 9).take 1
    let b := (b.reverse.dropWhile (fun c => c == '0')).reverse
    if b.getLast? = some '.' then b.dropLast else b

/-- Go `t.Format(Time)` with `Time = "15:04:05.9"`. -/
def formatTime (t : GoTime) : List Char :=
  padDigits t.hour 2 ++ [':'] ++ padDigits t.minute 2 ++ [':'] ++ padDigits t.second 2
    ++ appendNano t.nanosecond

/-- Go `t.Format(DateTime)` with `DateTime = "2006-01-02 15:04:05.9"`. -/
def formatDateTime (t : GoTime) : List Char :=
  appendInt t.year 4 ++ ['-'] ++ padDigits t.month 2 ++ ['-'] ++ padDigits t.day 2
    ++ [' '] ++ formatTime t

/-- Function `timeToString` of time.go. -/
def timeToString (t : GoTime) : List Char :=
  if t.year == 0 && t.month == 1 && t.day == 1 then formatTime t else formatDateTime t

/-! ## driver_error.go, connection.go -/

/-- Constant `DriverErrorCodeEOF`. -/
def DriverErrorCodeEOF : Int := 100

/-- The error values the code returns: `io.EOF`, a `*DriverError`, the
error built by `fmt.Errorf` in `exec` (with the operands of its `%d` and
`%T` verbs), `driver.ErrBadConn`, an error made by `errors.New` or
`fmt.Errorf` from a text (`errorf`, the text fully rendered), and one
made by `fmt.Errorf` with a non-nil error as the operand of its `%v`
(`wrap`). -/
inductive GoError where
  | EOF
  | DriverError (pfx : String) (message : List Nat) (code : Int)
  | noBinding (index : Int) (typeName : String)
  | ErrBadConn
  | errorf (text : String)
  | wrap (format : String) (err : GoError)
deriving DecidableEq, Repr

/-- The text of `fmt.Errorf("did not create param at index %d: no binding
for value type: %T", index, value)`. -/
def noBindingText (index : Int) (typeName : String) : String :=
  "did not create param at index " ++ toString index
    ++ ": no binding for value type: " ++ typeName

/-- Native type codes of the client library (`a_sqlany_data_type`). -/
inductive DataType where
  | A_INVALID_TYPE | A_BINARY | A_STRING | A_DOUBLE | A_VAL64 | A_UVAL64
  | A_VAL32 | A_UVAL32 | A_VAL16 | A_UVAL16 | A_VAL8 | A_UVAL8
deriving DecidableEq, Repr

/-- A block of C memory together with what it holds: `id` stands for the
pointer, `bytes` for the pointee (for a `size_t` cell, its one value). -/
structure Block where
  id : Nat
  bytes : List Nat
deriving DecidableEq, Repr

/-- The fields of `a_sqlany_bind_param.value` that `exec` writes; a
pointer field is `none` when NULL. `is_null` points at `YES` (`some
true`) or `NO` (`some false`). -/
structure BindParam where
  buffer : Option Block
  length : Option Block
  type : DataType
  is_null : Option Bool
deriving DecidableEq, Repr

/-- What `new(C.a_sqlany_bind_param)` gives: all fields zero. -/
def BindParam.new : BindParam :=
  { buffer := none, length := none, type := DataType.A_INVALID_TYPE, is_null := none }

/-- Calls that leave Go: the primitives of the client library used by
`exec` and `lasterr`, and the C allocator. -/
inductive Event where
  | describe_bind_param (cindex : Nat)
  | bind_param (cindex : Nat) (param : BindParam)
  | execute
  | error
  | clear_error
  | alloc (id : Nat)
  | free (id : Nat)
  | free_stmt (stmt : Option Nat)
  | reset (stmt : Option Nat)
  | num_cols (stmt : Option Nat)
  | fetch_next (stmt : Option Nat)
  | get_column (stmt : Option Nat) (index : Nat)
  | init_ex
  | fini_ex (context : Option Nat)
  | new_connection_ex (context : Option Nat)
  | connect (con : Option Nat) (name : List Nat)
  | disconnect (con : Option Nat)
  | free_connection (con : Option Nat)
  | execute_immediate (con : Option Nat) (sql : List Nat)
  | execute_direct (con : Option Nat) (sql : List Nat)
  | prepare (con : Option Nat) (sql : List Nat)
  | commit (con : Option Nat)
  | rollback (con : Option Nat)
  | get_next_result (stmt : Option Nat)
  | fetch_absolute (stmt : Option Nat) (row : Nat)
  | cancel (con : Option Nat)
deriving DecidableEq, Repr

/-- What `sqlany_get_column` leaves in the `a_sqlany_data_value` handed
to it, as far as the Go code reads it: `*value.is_null`, the bytes
`value.buffer` points at (`none` for a NULL pointer) and `*value.length`. -/
structure DataValue where
  is_null : Int
  buffer : Option (List Nat)
  length : Nat
deriving DecidableEq, Repr

/-- The client library as seen from Go: the C return value of a call,
which may depend on everything that happened before (for a call that
returns a handle, the handle, 0 being NULL), what `sqlany_error` writes
into the buffer handed to it, what `sqlany_get_column` writes into the
data value handed to it, and whether cgo reports an `errno` for that
call. -/
structure Foreign where
  ret : List Event → Event → Int
  errbuf : List Event → List Nat → List Nat
  column : List Event → DataValue := fun _ => { is_null := 0, buffer := some [], length := 0 }
  errno : List Event → Option Int := fun _ => none

/-- Struct `connection`; `ptr` is the foreign handle (`none` is nil). -/
structure connection where
  ptr : Option Nat := some 1
  errbuf : List Nat
  valid : Bool
deriving DecidableEq, Repr

/-- Everything outside the statement that `exec` reads or changes: the
calls made so far, the next fresh C block and the connection. -/
structure Runtime where
  trace : List Event
  nextBlock : Nat
  con : connection
deriving DecidableEq, Repr

/-- A call of a primitive: its return value, and the call recorded. -/
def call (F : Foreign) (rt : Runtime) (e : Event) : Int × Runtime :=
  (F.ret rt.trace e, { rt with trace := rt.trace ++ [e] })

/-- `C.calloc`, `C.CBytes` or `C.CString`: a fresh block. -/
def alloc (rt : Runtime) : Nat × Runtime :=
  (rt.nextBlock, { rt with trace := rt.trace ++ [Event.alloc rt.nextBlock],
                           nextBlock := rt.nextBlock + 1 })

/-- Method `lasterr` of connection.go; `sqlany_clear_error` is deferred,
so it is the last call. -/
def lasterr (F : Foreign) (pfx : String) (rt : Runtime) : Option GoError × Runtime :=
  let buf := F.errbuf rt.trace rt.con.errbuf
  let (code, rt) := call F rt Event.error
  let rt := { rt with con := { rt.con with errbuf := buf } }
  let rt := (call F rt Event.clear_error).2
  (if code == 0 then none
   else if code == DriverErrorCodeEOF then some GoError.EOF
   else some (GoError.DriverError pfx (buf.takeWhile (fun b => b != 0)) code), rt)

/-! ## stmt.go -/

/-- A `driver.Value` as the type switch of `exec` tells them apart; a
float is given by its IEEE bits (`math.Float64bits`), and `other` stands
for a value of any further type, with its `%T` name. -/
inductive Value where
  | null
  | bool (v : Bool)
  | int64 (v : Int)
  | float64 (bits : Nat)
  | string (v : List Char)
  | bytes (v : List Nat)
  | time (v : GoTime)
  | other (typeName : String)
deriving DecidableEq, Repr

/-- Struct `driver.NamedValue`. -/
structure NamedValue where
  Name : List Char
  Ordinal : Int
  Value : Value
deriving DecidableEq, Repr

/-- Struct `statement`; `ptr` is the foreign handle (`none` is nil). -/
structure statement where
  ptr : Option Nat
  args : List (List Char)
  params : List BindParam
  closeStatementOnRowsClose : Bool
  freed : Bool
deriving DecidableEq, Repr

/-- The loop of `indexOfArgName`, at index `i` of `stmt.args`. -/
def indexOfArgNameFrom (name : List Char) : Nat → List (List Char) → Int
  | _, [] => -1
  | i, arg :: rest => if arg == name then (i : Int) + 1 else indexOfArgNameFrom name (i + 1) rest

/-- Method `indexOfArgName` of stmt.go. -/
def statement.indexOfArgName (stmt : statement) (name : List Char) : Int :=
  indexOfArgNameFrom name 0 stmt.args

/-- Lines 82-93 of `exec`: the ordinals of the caller's slice after the
first loop. Iteration `i` reads and writes `args[i]` only. -/
def statement.resolveOrdinals (stmt : statement) (args : List NamedValue) : List NamedValue :=
  if stmt.args.length > 0 then
    args.map fun v =>
      if v.Name != [] then
        let ordinal := stmt.indexOfArgName v.Name
        if ordinal > 0 then { v with Ordinal := ordinal } else v
      else v
  else args

/-- Method `freeParams` of stmt.go: the `C.free` calls, in order. -/
def freeCalls : List BindParam → List Event
  | [] => []
  | p :: rest =>
    (match p.length with | some b => [Event.free b.id] | none => [])
      ++ (match p.buffer with | some b => [Event.free b.id] | none => [])
      ++ freeCalls rest

/-- Method `freeParams` of stmt.go. -/
def statement.freeParams (stmt : statement) (rt : Runtime) : statement × Runtime :=
  ({ stmt with params := [] }, { rt with trace := rt.trace ++ freeCalls stmt.params })

/-- A Go `int` after an operation: wrapped to 64 bits, two's complement. -/
def wrapInt64 (x : Int) : Int := (x + 2 ^ 63) % 2 ^ 64 - 2 ^ 63

/-- Expression `namedValue.Ordinal - 1`. -/
def paramIndex (v : NamedValue) : Int := wrapInt64 (v.Ordinal - 1)

/-- Conversion `C.sacapi_u32(index)`. -/
def cindex (v : NamedValue) : Nat := (paramIndex v % 2 ^ 32).toNat

/-- The eight bytes `binary.LittleEndian.PutUint64` writes. -/
def putUint64 (x : Nat) : List Nat :=
  (List.range 8).map fun i => (x / 256 ^ i) % 256

/-- The UTF-8 bytes of a Go string. -/
def utf8 (s : List Char) : List Nat :=
  s.flatMap fun c => (String.utf8EncodeChar c).map UInt8.toNat

/-- The cases of the type switch of `exec` other than `default`: the
type code, the value stored in `*param.value.length` and the bytes of
the payload block (`C.CString` adds the terminating zero). `none` is the
`default` case. -/
def encode : Value → Option (DataType × Nat × List Nat)
  | Value.bool v => some (DataType.A_VAL8, 1, [if v then 1 else 0])
  | Value.int64 v => some (DataType.A_VAL64, 8, putUint64 (v % 2 ^ 64).toNat)
  | Value.float64 bits => some (DataType.A_DOUBLE, 8, putUint64 bits)
  | Value.string v => some (DataType.A_STRING, (utf8 v).length, utf8 v ++ [0])
  | Value.bytes v => some (DataType.A_BINARY, v.length, v)
  | Value.time v =>
    some (DataType.A_STRING, (utf8 (timeToString v)).length, utf8 (timeToString v) ++ [0])
  | Value.null => none
  | Value.other _ => none

/-- What the verb `%T` prints for a value. -/
def Value.typeName : Value → String
  | Value.null => "<nil>"
  | Value.bool _ => "bool"
  | Value.int64 _ => "int64"
  | Value.float64 _ => "float64"
  | Value.string _ => "string"
  | Value.bytes _ => "[]uint8"
  | Value.time _ => "time.Time"
  | Value.other typeName => typeName

/-- How one iteration of the bind loop of `exec` ends: with a `return`
of the given error (nil is `none`), or by going on to the next input. -/
inductive Flow where
  | returned (err : Option GoError)
  | next
deriving DecidableEq, Repr

/-- One iteration of `for _, namedValue := range args` in `exec`.
`stmt.params` holds pointers, so the writes to `param` that follow the
`append` are seen through it; the parameter is appended here as it
stands when the iteration ends. The foreign describe is taken to leave
the `value` fields of the fresh parameter untouched. -/
def bindOne (F : Foreign) (namedValue : NamedValue) (stmt : statement) (rt : Runtime) :
    Flow × statement × Runtime :=
  let index := paramIndex namedValue
  let ci := cindex namedValue
  let param := BindParam.new
  let (r, rt) := call F rt (Event.describe_bind_param ci)
  if r == 0 then
    let (err, rt) := lasterr F "did not describe bind param: " rt
    (Flow.returned err, stmt, rt)
  else
    match namedValue.Value with
    | Value.null =>
      let param := { param with is_null := some true }
      let (r, rt) := call F rt (Event.bind_param ci param)
      if r == 0 then
        let (err, rt) := lasterr F ("did not bind parameter at index " ++ toString ci) rt
        (Flow.returned err, stmt, rt)
      else
        (Flow.returned none, stmt, rt)
    | value =>
      let param := { param with is_null := some false }
      let (lengthId, rt) := alloc rt
      match encode value with
      | some (ty, len, payload) =>
        let (bufferId, rt) := alloc rt
        let param := { param with
          type := ty
          length := some { id := lengthId, bytes := [len] }
          buffer := some { id := bufferId, bytes := payload } }
        let stmt := { stmt with params := stmt.params ++ [param] }
        let (r, rt) := call F rt (Event.bind_param ci param)
        if r == 0 then
          let (err, rt) := lasterr F ("did not bind parameter at index " ++ toString index) rt
          (Flow.returned err, stmt, rt)
        else
          (Flow.next, stmt, rt)
      | none =>
        let param := { param with length := some { id := lengthId, bytes := [0] } }
        let stmt := { stmt with params := stmt.params ++ [param] }
        (Flow.returned (some (GoError.noBinding index value.typeName)), stmt, rt)

/-- The loop `for _, namedValue := range args` of `exec`. -/
def bindLoop (F : Foreign) : List NamedValue → statement → Runtime → Flow × statement × Runtime
  | [], stmt, rt => (Flow.next, stmt, rt)
  | v :: rest, stmt, rt =>
    match bindOne F v stmt rt with
    | (Flow.returned err, stmt, rt) => (Flow.returned err, stmt, rt)
    | (Flow.next, stmt, rt) => bindLoop F rest stmt rt

/-- What `exec` leaves behind: its return value, the statement, the
runtime and the caller's slice. -/
structure ExecResult where
  err : Option GoError
  stmt : statement
  rt : Runtime
  args : List NamedValue
deriving DecidableEq, Repr

/-- Method `exec` of stmt.go. The deferred `freeParams` runs after the
return value has been computed. -/
def statement.exec (F : Foreign) (stmt : statement) (rt : Runtime) (args : List NamedValue) :
    ExecResult :=
  let args := stmt.resolveOrdinals args
  let (err, stmt, rt) :=
    match bindLoop F args stmt rt with
    | (Flow.returned err, stmt, rt) => (err, stmt, rt)
    | (Flow.next, stmt, rt) =>
      let (r, rt) := call F rt Event.execute
      if r == 0 then
        let (err, rt) := lasterr F "did not exec" rt
        (err, stmt, rt)
      else (none, stmt, rt)
  let (stmt, rt) := stmt.freeParams rt
  { err := err, stmt := stmt, rt := rt, args := args }

/-! ## stmt.go: Close and reset -/

/-- A handle returned by the client library: nil when the C return
value is 0. -/
def handleOf (r : Int) : Option Nat := if r == 0 then none else some r.natAbs

/-- A deferred or direct `C.free` of a block. -/
def cfree (rt : Runtime) (id : Nat) : Runtime :=
  { rt with trace := rt.trace ++ [Event.free id] }

/-- Method `Close` of stmt.go, for a non-nil receiver. -/
def statement.Close (F : Foreign) (stmt : statement) (rt : Runtime) :
    Option GoError × statement × Runtime :=
  if stmt.freed then (none, stmt, rt)
  else if stmt.ptr == none then (some (GoError.errorf "stmt.ptr is nil"), stmt, rt)
  else
    let rt := (call F rt (Event.free_stmt stmt.ptr)).2
    (none, { stmt with freed := true }, rt)

/-- Method `reset` of stmt.go. -/
def statement.reset (F : Foreign) (stmt : statement) (rt : Runtime) : Option GoError × Runtime :=
  let (r, rt) := call F rt (Event.reset stmt.ptr)
  if r == 0 then lasterr F "did not reset statement" rt else (none, rt)

/-- `Close` called `n` times on a statement, with the results in order. -/
def statement.closeTimes (F : Foreign) :
    Nat → statement → Runtime → List (Option GoError) × statement × Runtime
  | 0, stmt, rt => ([], stmt, rt)
  | n + 1, stmt, rt =>
    let (err, stmt, rt) := stmt.Close F rt
    let (errs, stmt, rt) := statement.closeTimes F n stmt rt
    (err :: errs, stmt, rt)

/-! ## rows.go -/

/-- Native column types of the client library (`DT_...`); `other` is
any further type code. -/
inductive NativeType where
  | DT_NOTYPE | DT_DATE | DT_TIME | DT_TIMESTAMP | DT_VARCHAR | DT_FIXCHAR
  | DT_LONGVARCHAR | DT_STRING | DT_DOUBLE | DT_FLOAT | DT_DECIMAL | DT_INT
  | DT_SMALLINT | DT_BINARY | DT_LONGBINARY | DT_TINYINT | DT_BIGINT | DT_UNSINT
  | DT_UNSSMALLINT | DT_UNSBIGINT | DT_BIT | DT_LONGNVARCHAR
  | other (code : Nat)
deriving DecidableEq, Repr

/-- The field of `a_sqlany_column_info` that column decoding reads. -/
structure column_info where
  native_type : NativeType
deriving DecidableEq, Repr

/-- Struct `rows`. `stmt` stands for the pointer to the statement (`none`
is nil); a change made through it is written back into `stmt`. The field
`ctx` is not read by `Close` and `column`. -/
structure rows where
  stmt : Option statement
  columns : List column_info
  names : List (List Nat)
deriving DecidableEq, Repr

/-- Method `Close` of rows.go. The results of `reset` and of the
statement's `Close` are dropped. -/
def rows.Close (F : Foreign) (r : rows) (rt : Runtime) : Option GoError × rows × Runtime :=
  match r.stmt with
  | none => (none, r, rt)
  | some stmt =>
    let rt := (stmt.reset F rt).2
    if stmt.closeStatementOnRowsClose then
      let (_, stmt, rt) := stmt.Close F rt
      (none, { r with stmt := some stmt }, rt)
    else
      (none, r, rt)

/-- A `driver.Value` as held by a destination slot of `Next`: nil, or a
value of one of the Go types column decoding produces. Floats are given
by their IEEE bits. -/
inductive Cell where
  | nil
  | float64 (bits : Nat)
  | float32 (bits : Nat)
  | string (v : List Nat)
  | int16 (v : Int)
  | int32 (v : Int)
  | int64 (v : Int)
  | uint8 (v : Nat)
  | uint16 (v : Nat)
  | uint32 (v : Nat)
  | uint64 (v : Nat)
  | bool (v : Bool)
  | bytes (v : List Nat)
  | time (v : GoTime)
deriving DecidableEq, Repr

/-- How a function call ends: it returns, or it panics with a value. -/
inductive Ret (α : Type) where
  | returned (a : α)
  | panicked (text : String) (err : Option GoError)
deriving DecidableEq, Repr

/-- Constant `DateTime` of time.go. -/
def DateTime : String := "2006-01-02 15:04:05.9"

/-- Constant `Date` of time.go. -/
def Date : String := "2006-01-02"

/-- Constant `Time` of time.go. -/
def Time : String := "15:04:05.9"

/-- The parts of the Go library that column decoding calls: the
conversion `float32(x)` of a float64 (on IEEE bits) and `time.Parse`,
which gives the zero time together with an error when it fails. -/
structure GoLib where
  toFloat32 : Nat → Nat
  parse : String → List Nat → GoTime × Option GoError

/-- The unsigned number held by bytes in little-endian order. -/
def leNat : List Nat → Nat
  | [] => 0
  | b :: rest => b % 256 + 256 * leNat rest

/-- Reading an unsigned integer of `n` bytes at the start of a buffer. -/
def readUnsigned (n : Nat) (buffer : List Nat) : Nat := leNat (buffer.take n)

/-- Reading a signed (two's complement) integer of `n` bytes at the
start of a buffer. -/
def readSigned (n : Nat) (buffer : List Nat) : Int :=
  if readUnsigned n buffer < 2 ^ (8 * n - 1) then (readUnsigned n buffer : Int)
  else (readUnsigned n buffer : Int) - 2 ^ (8 * n)

/-- `C.GoStringN(value.buffer, C.int(*value.length))` and `C.GoBytes`:
the first `length` bytes of the buffer. -/
def goStringN (buffer : List Nat) (length : Nat) : List Nat := buffer.take length

/-- The text of `fmt.Errorf("value buffer is nil at index %v", i)`. -/
def nilBufferText (i : Nat) : String := "value buffer is nil at index " ++ toString i

/-- The type switch of `column`: the value stored in the slot and the
error, from the declared type and the bytes of the buffer. -/
def decodeColumn (L : GoLib) (t : NativeType) (buffer : List Nat) (length : Nat) :
    Cell × Option GoError :=
  match t with
  | NativeType.DT_DOUBLE => (Cell.float64 (readUnsigned 8 buffer), none)
  | NativeType.DT_FLOAT => (Cell.float32 (L.toFloat32 (readUnsigned 8 buffer)), none)
  | NativeType.DT_DECIMAL => (Cell.string (goStringN buffer length), none)
  | NativeType.DT_SMALLINT => (Cell.int16 (readSigned 2 buffer), none)
  | NativeType.DT_INT => (Cell.int32 (readSigned 4 buffer), none)
  | NativeType.DT_BIGINT => (Cell.int64 (readSigned 8 buffer), none)
  | NativeType.DT_TINYINT => (Cell.uint8 (readUnsigned 1 buffer), none)
  | NativeType.DT_UNSSMALLINT => (Cell.uint16 (readUnsigned 2 buffer), none)
  | NativeType.DT_UNSINT => (Cell.uint32 (readUnsigned 4 buffer), none)
  | NativeType.DT_UNSBIGINT => (Cell.uint64 (readUnsigned 8 buffer), none)
  | NativeType.DT_BIT => (Cell.bool (readUnsigned 1 buffer != 0), none)
  | NativeType.DT_VARCHAR | NativeType.DT_FIXCHAR | NativeType.DT_LONGVARCHAR
  | NativeType.DT_STRING | NativeType.DT_LONGNVARCHAR =>
    (Cell.string (goStringN buffer length), none)
  | NativeType.DT_BINARY | NativeType.DT_LONGBINARY =>
    (Cell.bytes (goStringN buffer length), none)
  | NativeType.DT_DATE =>
    let p := L.parse Date (goStringN buffer length)
    (Cell.time p.1, p.2)
  | NativeType.DT_TIME =>
    let p := L.parse Time (goStringN buffer length)
    (Cell.time p.1, p.2)
  | NativeType.DT_TIMESTAMP =>
    let p := L.parse DateTime (goStringN buffer length)
    (Cell.time p.1, p.2)
  | NativeType.DT_NOTYPE => (Cell.nil, none)
  | NativeType.other code =>
    (Cell.nil, some (GoError.errorf ("unexpected type " ++ toString code ++ ": "
      ++ String.mk ((goStringN buffer length).map Char.ofNat))))

/-- Method `column` of rows.go: the error returned and the content of
the slot `*v` afterwards, `v` being its content before. A nil `r.stmt`
and an index beyond `r.columns` make the Go code panic. The buffer is
taken to hold the bytes the declared type is read from. -/
def rows.column (F : Foreign) (L : GoLib) (r : rows) (i : Nat) (v : Cell) (rt : Runtime) :
    Ret (Option GoError × Cell) × Runtime :=
  match r.stmt with
  | none => (Ret.panicked "nil pointer dereference" none, rt)
  | some stmt =>
    let value := F.column rt.trace
    let errno := F.errno rt.trace
    let (result, rt) := call F rt (Event.get_column stmt.ptr (i % 2 ^ 32))
    if result == 0 then
      let (err, rt) := lasterr F "no data remains to be copied" rt
      (Ret.returned (err, v), rt)
    else if result == -1 then
      let (err, rt) := lasterr F "failed to get column value" rt
      (Ret.returned (err, v), rt)
    else
      match errno with
      | some e => (Ret.returned (some (GoError.errorf ("errorno was " ++ toString e)), v), rt)
      | none =>
        if value.is_null == 1 then
          (Ret.returned (none, v), rt)
        else
          match value.buffer with
          | none => (Ret.returned (some (GoError.errorf (nilBufferText i)), v), rt)
          | some buffer =>
            match r.columns.get? i with
            | none => (Ret.panicked "index out of range" none, rt)
            | some info =>
              let d := decodeColumn L info.native_type buffer value.length
              (Ret.returned (d.2, d.1), rt)

/-! ## connection.go -/

/-- Method `IsValid` of connection.go. -/
def connection.IsValid (con : connection) : Bool := con.valid && con.ptr != none

/-- Method `Ping` of connection.go. -/
def connection.Ping (con : connection) : Option GoError :=
  if !con.IsValid then some GoError.ErrBadConn else none

/-- Method `ResetSession` of connection.go; a nil receiver is `none`. -/
def ResetSession (con : Option connection) : Option GoError :=
  match con with
  | none => some GoError.ErrBadConn
  | some con => if !con.valid then some GoError.ErrBadConn else none

/-- Method `execImmediate` of connection.go; `sql` is the Go string as
bytes. The C string is freed by the deferred `C.free`. -/
def execImmediate (F : Foreign) (sql : List Nat) (rt : Runtime) : Option GoError × Runtime :=
  let (str, rt) := alloc rt
  let (r, rt) := call F rt (Event.execute_immediate rt.con.ptr sql)
  let (err, rt) := if r == 0 then lasterr F "did not execute" rt else (none, rt)
  (err, cfree rt str)

/-- Method `execDirect` of connection.go. -/
def execDirect (F : Foreign) (query : List Char) (rt : Runtime) :
    (Option statement × Option GoError) × Runtime :=
  let (str, rt) := alloc rt
  let (r, rt) := call F rt (Event.execute_direct rt.con.ptr (utf8 query))
  match handleOf r with
  | none =>
    let (err, rt) := lasterr F "did not execute direct" rt
    ((none, err), cfree rt str)
  | some ptr =>
    ((some { ptr := some ptr, args := [], params := [],
             closeStatementOnRowsClose := true, freed := false }, none), cfree rt str)

/-- Method `prepare` of connection.go (and `Prepare`, which calls it). -/
def prepare (F : Foreign) (query : List Char) (rt : Runtime) :
    (Option statement × Option GoError) × Runtime :=
  if rt.con.ptr == none then ((none, some (GoError.errorf "con.ptr is nil")), rt)
  else
    let queryWithoutNamedParameters := (splitNamed query).1
    let args := (splitNamed query).2
    let (sql, rt) := alloc rt
    let (r, rt) := call F rt (Event.prepare rt.con.ptr (utf8 queryWithoutNamedParameters))
    match handleOf r with
    | none =>
      let (err, rt) := lasterr F "did not prepare statement" rt
      ((none, err), cfree rt sql)
    | some ptr =>
      ((some { ptr := some ptr, args := args, params := [],
               closeStatementOnRowsClose := false, freed := false }, none), cfree rt sql)

/-- The statement text built by `option`. -/
def optionQuery (property : String) : String :=
  "SELECT CONNECTION_PROPERTY('" ++ property ++ "')"

/-- Method `option` of connection.go: the value read (a Go string, as
bytes) and the error. The deferred calls run last first: the statement
is freed, then the C string. -/
def option (F : Foreign) (property : String) (rt : Runtime) :
    (List Nat × Option GoError) × Runtime :=
  let sql := optionQuery property
  let (str, rt) := alloc rt
  let (r, rt) := call F rt (Event.execute_direct rt.con.ptr (utf8 sql.toList))
  match handleOf r with
  | none =>
    let (err, rt) := lasterr F sql rt
    (([], err), cfree rt str)
  | some stmt =>
    let (ncols, rt) := call F rt (Event.num_cols (some stmt))
    if ncols != 1 then
      let (err, rt) := lasterr F "" rt
      let rt := (call F rt (Event.free_stmt (some stmt))).2
      (([], some (match err with
        | some e => GoError.wrap "did not read connection option, ncols != 1: %v" e
        | none => GoError.errorf "did not read connection option, ncols != 1: <nil>")),
        cfree rt str)
    else
      let (fetched, rt) := call F rt (Event.fetch_next (some stmt))
      if fetched == 0 then
        let (err, rt) := lasterr F sql rt
        let rt := (call F rt (Event.free_stmt (some stmt))).2
        (([], err), cfree rt str)
      else
        let val := F.column rt.trace
        let (got, rt) := call F rt (Event.get_column (some stmt) 0)
        if got == 0 then
          let (err, rt) := lasterr F sql rt
          let rt := (call F rt (Event.free_stmt (some stmt))).2
          (([], err), cfree rt str)
        else
          let result := goStringN (val.buffer.getD []) val.length
          let rt := (call F rt (Event.free_stmt (some stmt))).2
          if result == [] then
            (([], some (GoError.errorf ("no result for connection property '" ++ property
              ++ "': check the property name"))), cfree rt str)
          else
            ((result, none), cfree rt str)

/-! ## txn.go -/

/-- Struct `driver.TxOptions`; `Isolation` is the number of the level. -/
structure TxOptions where
  Isolation : Int
  ReadOnly : Bool
deriving DecidableEq, Repr

/-- Struct `tx`; a `driverIsolationLevel` is a Go string, as bytes. -/
structure tx where
  opts : TxOptions
  lastIsolation : List Nat
deriving DecidableEq, Repr

/-- The constants `sql.LevelDefault` to `sql.LevelLinearizable`. -/
def LevelDefault : Int := 0
def LevelReadUncommitted : Int := 1
def LevelReadCommitted : Int := 2
def LevelWriteCommitted : Int := 3
def LevelRepeatableRead : Int := 4
def LevelSnapshot : Int := 5
def LevelSerializable : Int := 6
def LevelLinearizable : Int := 7

/-- The map `isolationLevels` of txn.go; `none` for a key that is absent. -/
def isolationLevels (level : Int) : Option (List Nat) :=
  if level = LevelDefault then some (utf8 "0".toList)
  else if level = LevelReadUncommitted then some (utf8 "0".toList)
  else if level = LevelReadCommitted then some (utf8 "1".toList)
  else if level = LevelRepeatableRead then some (utf8 "2".toList)
  else if level = LevelSnapshot then some (utf8 "snapshot".toList)
  else if level = LevelSerializable then some (utf8 "3".toList)
  else none

/-- The statement that sets the isolation level of the session. -/
def setIsolationSQL (isolation : List Nat) : List Nat :=
  utf8 "SET TEMPORARY OPTION isolation_level = ".toList ++ isolation

/-- The statement `BeginTx` issues first. -/
def beginSQL : List Nat := utf8 "BEGIN TRANSACTION".toList

/-- The text of the error of `setIsolation` for a level that is not in
the map. -/
def unsupportedIsolationText (level : Int) : String :=
  "unsupported transaction option: isolation level: " ++ toString level

/-- Method `setIsolation` of connection.go: the previous level and the
error. -/
def setIsolation (F : Foreign) (level : Int) (rt : Runtime) :
    (Option (List Nat) × Option GoError) × Runtime :=
  match isolationLevels level with
  | none => ((none, some (GoError.errorf (unsupportedIsolationText level))), rt)
  | some isolation =>
    let ((previous, err), rt) := option F "isolation_level" rt
    match err with
    | some e => ((none, some e), rt)
    | none =>
      let (err, rt) := execImmediate F (setIsolationSQL isolation) rt
      match err with
      | some e => ((none, some e), rt)
      | none => ((some previous, none), rt)

/-- Method `BeginTx` of connection.go. -/
def BeginTx (F : Foreign) (opts : TxOptions) (rt : Runtime) :
    (Option tx × Option GoError) × Runtime :=
  if opts.ReadOnly then
    ((none, some (GoError.errorf "unsupported transaction option: read only")), rt)
  else
    let (err, rt) := execImmediate F beginSQL rt
    match err with
    | some e => ((none, some e), rt)
    | none =>
      let ((lastIsolation, err), rt) := setIsolation F opts.Isolation rt
      match err, lastIsolation with
      | some e, _ => ((none, some e), rt)
      | none, some was => ((some { opts := opts, lastIsolation := was }, none), rt)
      | none, none => ((none, none), rt)

/-- Method `restoreIsolationLevel` of txn.go. -/
def tx.restoreIsolationLevel (F : Foreign) (t : tx) (rt : Runtime) : Option GoError × Runtime :=
  let (err, rt) := execImmediate F (setIsolationSQL t.lastIsolation) rt
  (err.map (GoError.wrap "did not set isolation level: %v"), rt)

/-- Method `Commit` of txn.go; the deferred restoration runs after the
return value is fixed, and its result is dropped. -/
def tx.Commit (F : Foreign) (t : tx) (rt : Runtime) : Option GoError × Runtime :=
  let (r, rt) := call F rt (Event.commit rt.con.ptr)
  let (err, rt) := if r == 0 then lasterr F "did not commit" rt else (none, rt)
  (err, (t.restoreIsolationLevel F rt).2)

/-- Method `Rollback` of txn.go. It panics with the error `lasterr`
finds pending on entry; the deferred function runs the restoration also
then, and only logs what the restoration returns. -/
def tx.Rollback (F : Foreign) (t : tx) (rt : Runtime) : Ret (Option GoError) × Runtime :=
  let (pending, rt) := lasterr F "last err" rt
  match pending with
  | some e => (Ret.panicked "" (some e), (t.restoreIsolationLevel F rt).2)
  | none =>
    let (r, rt) := call F rt (Event.rollback rt.con.ptr)
    let (err, rt) := if r == 0 then lasterr F "did not rollback" rt else (none, rt)
    (Ret.returned err, (t.restoreIsolationLevel F rt).2)

/-! ## driver.go -/

/-- Struct `Driver` (the registry `sacapi`); `connections` is a `uint`,
`ptr` the API context (`none` is nil). -/
structure Driver where
  connections : Nat
  ptr : Option Nat
deriving DecidableEq, Repr

/-- Struct `connector`. -/
structure connector where
  name : List Char
deriving DecidableEq, Repr

/-- Constant `SACAPI_ERROR_SIZE` of the client library header. -/
def SACAPI_ERROR_SIZE : Nat := 256

/-- Method `OpenConnector` of driver.go. -/
def Driver.OpenConnector (F : Foreign) (d : Driver) (name : List Char) (rt : Runtime) :
    (Option connector × Option GoError) × Driver × Runtime :=
  if d.ptr == none then
    let (lang, rt) := alloc rt
    let (r, rt) := call F rt Event.init_ex
    let d := { d with ptr := handleOf r }
    if d.ptr == none then
      ((none, some (GoError.errorf
        "did not initialise api, requested version %d, max version %d")), d, cfree rt lang)
    else
      ((some { name := name }, none), d, cfree rt lang)
  else
    ((some { name := name }, none), d, rt)

/-- A `uint` after `--`: wrapped to 64 bits, so that zero becomes
`2 ^ 64 - 1`. -/
def uintDec (n : Nat) : Nat := if n = 0 then 2 ^ 64 - 1 else (n - 1) % 2 ^ 64

/-- A `uint` after `++`: wrapped to 64 bits. -/
def uintInc (n : Nat) : Nat := (n + 1) % 2 ^ 64

/-- Method `connectionClosed` of driver.go; the counter is a `uint`. -/
def Driver.connectionClosed (F : Foreign) (d : Driver) (rt : Runtime) : Driver × Runtime :=
  let d := { d with connections := uintDec d.connections }
  if d.connections = 0 then
    ({ d with ptr := none }, (call F rt (Event.fini_ex d.ptr)).2)
  else (d, rt)

/-- Method `connect` of connection.go, on the connection `rt.con`, when
the function handed to `awaitFunc` runs to its end and its result is the
one returned. -/
def connection.connect (F : Foreign) (name : List Char) (rt : Runtime) :
    Option GoError × Runtime :=
  let (str, rt) := alloc rt
  let (r, rt) := call F rt (Event.connect rt.con.ptr (utf8 name))
  if r == 0 then
    let (err, rt) := lasterr F "did not connect" rt
    let rt := (call F rt (Event.free_connection rt.con.ptr)).2
    let rt := { rt with con := { rt.con with valid := false } }
    (err, cfree rt str)
  else
    let rt := { rt with con := { rt.con with valid := true } }
    (none, cfree rt str)

/-- Method `Connect` of driver.go. The connection made is returned and
is also `rt.con` afterwards. -/
def connector.Connect (F : Foreign) (c : connector) (d : Driver) (rt : Runtime) :
    (Option connection × Option GoError) × Driver × Runtime :=
  let (r, rt) := call F rt (Event.new_connection_ex d.ptr)
  match handleOf r with
  | none => ((none, some (GoError.errorf "did not create a new connection")), d, rt)
  | some ptr =>
    let rt := { rt with con :=
      { ptr := some ptr, errbuf := List.replicate SACAPI_ERROR_SIZE 0, valid := false } }
    let (err, rt) := connection.connect F c.name rt
    let d := if err == none then { d with connections := uintInc d.connections } else d
    ((some rt.con, err), d, rt)

/-- Method `Close` of connection.go, on the connection `rt.con`. -/
def connection.Close (F : Foreign) (d : Driver) (rt : Runtime) :
    Option GoError × Driver × Runtime :=
  let (r, rt) := call F rt (Event.disconnect rt.con.ptr)
  let (err, rt) := if r != 0 then lasterr F "disconnect" rt else (none, rt)
  let rt := (call F rt (Event.free_connection rt.con.ptr)).2
  let rt := { rt with con := { rt.con with valid := false } }
  (err, (d.connectionClosed F rt).1, (d.connectionClosed F rt).2)

/-- The calls made between two runtimes: what was added to the trace. -/
def eventsSince (rt rt2 : Runtime) : List Event := rt2.trace.drop rt.trace.length

/-- The runtime with the validity flag of its connection set to `b`. -/
def Runtime.withValid (rt : Runtime) (b : Bool) : Runtime :=
  { rt with con := { rt.con with valid := b } }

/-- A Close on a statement, or on a rows cursor that references it. -/
inductive CloseOp where
  | stmtClose
  | rowsClose
deriving DecidableEq, Repr

/-- A sequence of Close calls on a statement and on rows cursors that
reference it, in order. -/
def runCloses (F : Foreign) : List CloseOp → statement → Runtime → statement × Runtime
  | [], stmt, rt => (stmt, rt)
  | CloseOp.stmtClose :: ops, stmt, rt =>
    let r := stmt.Close F rt
    runCloses F ops r.2.1 r.2.2
  | CloseOp.rowsClose :: ops, stmt, rt =>
    let r := rows.Close F { stmt := some stmt, columns := [], names := [] } rt
    runCloses F ops (r.2.1.stmt.getD stmt) r.2.2

/-- `Close` on each connection of a list in turn. -/
def closeAll (F : Foreign) : List connection → Driver → Runtime → Driver × Runtime
  | [], d, rt => (d, rt)
  | con :: rest, d, rt =>
    let r := connection.Close F d { rt with con := con }
    closeAll F rest r.2.1 r.2.2

/-- `Connect` through one connector `n` times, with the connections made. -/
def connectTimes (F : Foreign) (c : connector) :
    Nat → Driver → Runtime → List (Option connection × Option GoError) × Driver × Runtime
  | 0, d, rt => ([], d, rt)
  | n + 1, d, rt =>
    let r := c.Connect F d rt
    let rs := connectTimes F c n r.2.1 r.2.2
    (r.1 :: rs.1, rs.2.1, rs.2.2)

/-- A client library every call of which reports failure (0), with the
error code -308 pending on the connection. -/
def Foreign.failing : Foreign :=
  { ret := fun _ e => match e with
      | Event.error => -308
      | _ => 0,
    errbuf := fun _ b => b }

/-- A client library every call of which reports success, while the
error code -308 is pending on the connection. -/
def Foreign.pending : Foreign :=
  { ret := fun _ e => match e with
      | Event.error => -308
      | _ => 1,
    errbuf := fun _ b => b }

/-- A client library every call of which reports success and whose
fetched values all carry the null marker. -/
def Foreign.nulls : Foreign :=
  { ret := fun _ _ => 1, errbuf := fun _ b => b,
    column := fun _ => { is_null := 1, buffer := none, length := 0 } }

/-- A registry in which nothing has happened yet. -/
def Driver.initial : Driver := { connections := 0, ptr := none }

/-- The calls `exec` makes, in order: what it adds to the trace. -/
def execEvents (F : Foreign) (stmt : statement) (rt : Runtime) (args : List NamedValue) :
    List Event :=
  (stmt.exec F rt args).rt.trace.drop rt.trace.length

/-- The positions passed to `sqlany_describe_bind_param`, in call order. -/
def describePositions (evs : List Event) : List Nat :=
  evs.filterMap fun e => match e with
    | Event.describe_bind_param i => some i
    | _ => none

/-- The positions passed to `sqlany_bind_param`, in call order. -/
def bindPositions (evs : List Event) : List Nat :=
  evs.filterMap fun e => match e with
    | Event.bind_param i _ => some i
    | _ => none

/-- The C blocks allocated, in call order. -/
def allocated (evs : List Event) : List Nat :=
  evs.filterMap fun e => match e with
    | Event.alloc i => some i
    | _ => none

/-- The C blocks passed to `C.free`, in call order. -/
def released (evs : List Event) : List Nat :=
  evs.filterMap fun e => match e with
    | Event.free i => some i
    | _ => none

/-- What a part of `exec` adds to the trace (`evs`) and to the tracked
parameters (`ps`), going from `rt`, `stmt` to `rt2`, `stmt2`: no execute,
no free, fresh blocks only, and the tracked parameters hold exactly the
blocks allocated. -/
structure Adds (rt : Runtime) (stmt : statement) (stmt2 : statement) (rt2 : Runtime)
    (evs : List Event) (ps : List BindParam) : Prop where
  trace : rt2.trace = rt.trace ++ evs
  params : stmt2.params = stmt.params ++ ps
  noExecute : Event.execute ∉ evs
  noFree : released evs = []
  fresh : allocated evs = List.range' rt.nextBlock (allocated evs).length
  nextBlock : rt2.nextBlock = rt.nextBlock + (allocated evs).length
  frees : freeCalls ps = (allocated evs).map Event.free

/-- A client library all of whose describe and bind calls succeed. -/
def Foreign.bindsSucceed (F : Foreign) : Prop :=
  ∀ (tr : List Event) (i : Nat),
    F.ret tr (Event.describe_bind_param i) ≠ 0 ∧ ∀ p, F.ret tr (Event.bind_param i p) ≠ 0

/-- The effective ordinal of an input, following the words of the
specification: one plus the index of the first occurrence of its name
among the statement's parameter names when the name is non-empty and
occurs there, the ordinal supplied by the caller otherwise. -/
def effectiveOrdinal (names : List (List Char)) (v : NamedValue) : Int :=
  if v.Name ≠ [] ∧ v.Name ∈ names then 1 + ((names.indexOf v.Name : Nat) : Int) else v.Ordinal

/-- A client library every call of which reports success (non-zero). -/
def Foreign.succeeding : Foreign := { ret := fun _ _ => 1, errbuf := fun _ b => b }

/-- A runtime in which nothing has happened yet. -/
def Runtime.initial : Runtime :=
  { trace := [], nextBlock := 0, con := { errbuf := [], valid := true } }

/-- The statement prepared by `TestQueryNamedParam`: its parameter names
are those `splitNamed` returns for the query of the test. -/
def personStatement : statement :=
  { ptr := some 1,
    args := (splitNamed
      "select name, age from person where name = :name and age = :age".toList).2,
    params := [], closeStatementOnRowsClose := false, freed := false }

/-- Whether a call is the teardown of the API context. -/
def Event.isFini : Event → Bool
  | Event.fini_ex _ => true
  | _ => false

/-- A client library whose `sqlany_new_connection_ex` and
`sqlany_connect` calls all succeed. -/
def Foreign.connectsSucceed (F : Foreign) : Prop :=
  ∀ (tr : List Event),
    (∀ ctx, F.ret tr (Event.new_connection_ex ctx) ≠ 0) ∧
    (∀ p name, F.ret tr (Event.connect p name) ≠ 0)

/-- From the uninitialised registry: `OpenConnector`, a `Connect`
through the connector, the `Close` of that connection, and a second
`Connect` through the same connector. -/
def reconnect (F : Foreign) (name : List Char) : Driver × Runtime :=
  let o := Driver.initial.OpenConnector F name Runtime.initial
  let c : connector := o.1.1.getD { name := name }
  let first := c.Connect F o.2.1 o.2.2
  let closed := connection.Close F first.2.1 first.2.2
  let second := c.Connect F closed.2.1 closed.2.2
  (second.2.1, second.2.2)

/-- A client library every call of which reports success, with no error
pending on the connection (error code 0). -/
def Foreign.healthy : Foreign :=
  { ret := fun _ e => match e with
      | Event.error => 0
      | _ => 1,
    errbuf := fun _ b => b }

/-! ## rows.go: fetch and NextResultSet -/

/-- Method `fetch` of rows.go. `ctxErr` is what `r.ctx.Err()` returns
when it is called (`none` is nil). A nil `r.stmt` makes the Go code
panic. -/
def rows.fetch (F : Foreign) (r : rows) (ctxErr : Option GoError) (rt : Runtime) :
    Ret (Option GoError) × Runtime :=
  match r.stmt with
  | none => (Ret.panicked "nil pointer dereference" none, rt)
  | some stmt =>
    let (fetched, rt) := call F rt (Event.fetch_next stmt.ptr)
    if fetched == 1 then (Ret.returned none, rt)
    else if ctxErr.isSome then (Ret.returned (some GoError.EOF), rt)
    else
      let (err, rt) := lasterr F "did not fetch next" rt
      match err with
      | some (GoError.DriverError pfx message code) =>
        if code == 100 then (Ret.returned (some GoError.EOF), rt)
        else (Ret.returned (some (GoError.DriverError pfx message code)), rt)
      | some e => (Ret.returned (some e), rt)
      | none => (Ret.returned (some GoError.EOF), rt)

/-- Method `NextResultSet` of rows.go. -/
def rows.NextResultSet (F : Foreign) (r : rows) (rt : Runtime) :
    Ret (Option GoError) × Runtime :=
  match r.stmt with
  | none => (Ret.panicked "nil pointer dereference" none, rt)
  | some stmt =>
    let (advanced, rt) := call F rt (Event.get_next_result stmt.ptr)
    if advanced == 1 then (Ret.returned none, rt)
    else
      let (err, rt) := lasterr F "did not advance to next result set:" rt
      match err with
      | some (GoError.DriverError pfx message code) =>
        if code == 105 then (Ret.returned (some GoError.EOF), rt)
        else (Ret.returned (some (GoError.DriverError pfx message code)), rt)
      | e => (Ret.returned e, rt)

/-! ## connection.go: queryInt, and result.go -/

/-- Method `queryInt` of connection.go; `con` is the receiver (`none` is
nil), which is the connection the runtime then works on. The deferred
calls run last first: the statement is freed, then the C string.
`binary.LittleEndian.Uint32` panics on fewer than four bytes, and the
deferred calls still run. -/
def queryInt (F : Foreign) (con : Option connection) (query : List Char) (rt : Runtime) :
    Ret (Int × Option GoError) × Runtime :=
  match con with
  | none => (Ret.returned (-1, some (GoError.errorf "connection is nil")), rt)
  | some c =>
    let rt := { rt with con := c }
    if rt.con.ptr == none then
      (Ret.returned (-1, some (GoError.errorf "connection is nil")), rt)
    else
      let (q, rt) := alloc rt
      let (r, rt) := call F rt (Event.execute_direct rt.con.ptr (utf8 query))
      match handleOf r with
      | none =>
        let (err, rt) := lasterr F "did not exec" rt
        (Ret.returned (-1, err), cfree rt q)
      | some s =>
        let (fetched, rt) := call F rt (Event.fetch_absolute (some s) 1)
        if fetched == 0 then
          let (err, rt) := lasterr F "did not fetch" rt
          let rt := (call F rt (Event.free_stmt (some s))).2
          (Ret.returned (-1, err), cfree rt q)
        else
          let value := F.column rt.trace
          let (got, rt) := call F rt (Event.get_column (some s) 0)
          if got == 0 then
            let (err, rt) := lasterr F "did not get value" rt
            let rt := (call F rt (Event.free_stmt (some s))).2
            (Ret.returned (-1, err), cfree rt q)
          else
            let buf := goStringN (value.buffer.getD []) value.length
            let rt := (call F rt (Event.free_stmt (some s))).2
            if buf.length < 4 then (Ret.panicked "index out of range" none, cfree rt q)
            else (Ret.returned ((readUnsigned 4 buf : Int), none), cfree rt q)

/-- Struct `result`. Of the statement `r.stmt` (`none` is nil) only its
field `con` is kept. -/
structure result where
  stmt : Option (Option connection)
  con : Option connection
deriving DecidableEq, Repr

/-- Method `connection` of result.go. -/
def result.connection (r : result) : Option connection :=
  match r.stmt with
  | some (some con) => some con
  | _ => r.con

/-- Method `LastInsertId` of result.go. -/
def result.LastInsertId (F : Foreign) (r : result) (rt : Runtime) :
    Ret (Int × Option GoError) × Runtime :=
  queryInt F r.connection "select @@identity".toList rt

/-- Method `RowsAffected` of result.go. -/
def result.RowsAffected (F : Foreign) (r : result) (rt : Runtime) :
    Ret (Int × Option GoError) × Runtime :=
  queryInt F r.connection "select @@rowcount".toList rt

/-! ## connection.go: awaitFunc -/

/-- A function value `func() error` while it runs: it has returned an
error (`none` is nil), or it makes one more step on the runtime and goes
on; what it goes on with may depend on the runtime before the step. -/
inductive Task where
  | ret (err : Option GoError)
  | step (act : Runtime → Runtime) (next : Runtime → Task)

/-- A function value run to its end without interruption. -/
def Task.run : Task → Runtime → Option GoError × Runtime
  | Task.ret err, rt => (err, rt)
  | Task.step act next, rt => (next rt).run (act rt)

/-- The number of steps a function value makes when run to its end. -/
def Task.steps : Task → Runtime → Nat
  | Task.ret _, _ => 0
  | Task.step act next, rt => (next rt).steps (act rt) + 1

/-- A `context.Context` as `awaitFunc` reads it: whether `ctx.Done()` is
a channel (not nil), and what `ctx.Err()` returns now; it is non-nil
exactly when that channel is closed. -/
structure Context where
  cancellable : Bool
  err : Option GoError
deriving DecidableEq, Repr

/-- The goroutine started by `awaitFunc`: not started, inside `run()`,
blocked in the send `done <- ...` with the result of `run()`, or past
the send. -/
inductive Routine where
  | idle
  | running (t : Task)
  | sending (err : Option GoError)
  | finished

/-- Whether the goroutine has been started and is not past its send. -/
def Routine.live : Routine → Bool
  | Routine.running _ => true
  | Routine.sending _ => true
  | _ => false

/-- Whether the goroutine has never been started. -/
def Routine.isIdle : Routine → Bool
  | Routine.idle => true
  | _ => false

/-- Whether the goroutine is past its send. -/
def Routine.isFinished : Routine → Bool
  | Routine.finished => true
  | _ => false

/-- Where the caller stands in `awaitFunc`: before the test of
`ctx.Done()`, before the test of `ctx.Err()`, before the `go` statement,
in the `select`, in the case `<-ctx.Done()` before `con.cancel()`, in the
receive `discardErr := <-done`, or returned with an error. -/
inductive Pc where
  | entry
  | checkErr
  | spawn
  | select
  | cancel
  | drain
  | returned (err : Option GoError)
deriving DecidableEq, Repr

/-- The state of one call of `awaitFunc`: the caller, the goroutine, the
context, the runtime both work on, and two counters: how often `run` has
been invoked and how often `awaitFunc` has called `con.cancel()`. -/
structure Await where
  pc : Pc
  routine : Routine
  ctx : Context
  rt : Runtime
  invoked : Nat
  cancels : Nat

/-- Who moves next: the caller of `awaitFunc` (with the case it takes in
the `select` when both are ready), the goroutine, or whoever cancels the
context (or lets it expire) with the error `err`. -/
inductive Actor where
  | caller (preferDone : Bool)
  | goroutine
  | cancelCtx (err : GoError)
deriving DecidableEq, Repr

/-- Whether a move is one of the caller. -/
def Actor.isCaller : Actor → Bool
  | Actor.caller _ => true
  | _ => false

/-- The state in which `awaitFunc` is entered. -/
def Await.start (ctx : Context) (rt : Runtime) : Await :=
  { pc := Pc.entry, routine := Routine.idle, ctx := ctx, rt := rt, invoked := 0, cancels := 0 }

/-- One move in a call `con.awaitFunc(ctx, run)` of connection.go. The
channel `done` is unbuffered: the goroutine stays in its send until the
caller receives. A move of someone who cannot move leaves the state as
it is. -/
def Await.step (F : Foreign) (run : Task) (a : Actor) (s : Await) : Await :=
  match a with
  | Actor.cancelCtx e =>
    if s.ctx.cancellable && s.ctx.err.isNone then
      { s with ctx := { s.ctx with err := some e } }
    else s
  | Actor.goroutine =>
    match s.routine with
    | Routine.running (Task.ret err) => { s with routine := Routine.sending err }
    | Routine.running (Task.step act next) =>
      { s with routine := Routine.running (next s.rt), rt := act s.rt }
    | _ => s
  | Actor.caller preferDone =>
    match s.pc with
    | Pc.entry =>
      if !s.ctx.cancellable then
        { s with pc := Pc.returned (run.run s.rt).1, rt := (run.run s.rt).2,
                 invoked := s.invoked + 1 }
      else { s with pc := Pc.checkErr }
    | Pc.checkErr =>
      match s.ctx.err with
      | some e => { s with pc := Pc.returned (some e) }
      | none => { s with pc := Pc.spawn }
    | Pc.spawn =>
      { s with pc := Pc.select, routine := Routine.running run, invoked := s.invoked + 1 }
    | Pc.select =>
      match s.routine, s.ctx.err with
      | Routine.sending err, none =>
        { s with pc := Pc.returned err, routine := Routine.finished }
      | Routine.sending err, some _ =>
        if preferDone then { s with pc := Pc.returned err, routine := Routine.finished }
        else { s with pc := Pc.cancel }
      | _, some _ => { s with pc := Pc.cancel }
      | _, none => s
    | Pc.cancel =>
      { s with pc := Pc.drain, rt := (call F s.rt (Event.cancel s.rt.con.ptr)).2,
               cancels := s.cancels + 1 }
    | Pc.drain =>
      match s.routine with
      | Routine.sending _ => { s with pc := Pc.returned s.ctx.err, routine := Routine.finished }
      | _ => s
    | Pc.returned _ => s

/-- Moves made one after the other from a state. -/
def Await.steps (F : Foreign) (run : Task) : List Actor → Await → Await
  | [], s => s
  | a :: rest, s => Await.steps F run rest (s.step F run a)

/-- Method `awaitFunc` of connection.go under a schedule: the state
reached from the entry by the moves of `sched`. -/
def awaitFunc (F : Foreign) (run : Task) (sched : List Actor) (ctx : Context) (rt : Runtime) :
    Await :=
  Await.steps F run sched (Await.start ctx rt)

/-- The function value handed to `awaitFunc` by `execImmediateContext`:
`execImmediate`, a step for each call that leaves Go and one for
`lasterr`. -/
def execImmediateTask (F : Foreign) (sql : List Nat) : Task :=
  Task.step (fun rt => (alloc rt).2) fun rt0 =>
  Task.step (fun rt => (call F rt (Event.execute_immediate rt.con.ptr sql)).2) fun rt1 =>
    if F.ret rt1.trace (Event.execute_immediate rt1.con.ptr sql) == 0 then
      Task.step (fun rt => (lasterr F "did not execute" rt).2) fun rt2 =>
      Task.step (fun rt => cfree rt rt0.nextBlock) fun _ =>
      Task.ret (lasterr F "did not execute" rt2).1
    else
      Task.step (fun rt => cfree rt rt0.nextBlock) fun _ => Task.ret none

/-- Method `execImmediateContext` of connection.go under a schedule. -/
def execImmediateContext (F : Foreign) (sql : List Nat) (sched : List Actor) (ctx : Context)
    (rt : Runtime) : Await :=
  awaitFunc F (execImmediateTask F sql) sched ctx rt

/-- A client library every call of which reports failure (0), with the
error code 100 pending on the connection. -/
def Foreign.exhausted : Foreign :=
  { ret := fun _ e => match e with
      | Event.error => 100
      | _ => 0,
    errbuf := fun _ b => b }

/-- A client library every call of which reports success and whose
fetched values are the eight bytes of `2 ^ 32` in little-endian order. -/
def Foreign.wide : Foreign :=
  { ret := fun _ _ => 1, errbuf := fun _ b => b,
    column := fun _ => { is_null := 0, buffer := some [0, 0, 0, 0, 1, 0, 0, 0], length := 8 } }

/-- The error of a cancelled context, `context.Canceled`. -/
def Canceled : GoError := GoError.errorf "context canceled"

/-- Whether the caller has returned from `awaitFunc`. -/
def Pc.isReturned : Pc → Bool
  | Pc.returned _ => true
  | _ => false

/-- What holds of every state of a call of `awaitFunc`, by the place
of the caller: before the `go` statement nothing has run; from the
`select` on the goroutine is there and `run` has been invoked once;
`con.cancel()` has been called once from the receive `<-done` on, with
the context finished; and after the return the goroutine is not live. -/
def Await.Inv (s : Await) : Prop :=
  match s.pc with
  | Pc.entry => s.routine.isIdle = true ∧ s.cancels = 0 ∧ s.invoked = 0
  | Pc.checkErr =>
    s.routine.isIdle = true ∧ s.cancels = 0 ∧ s.invoked = 0 ∧ s.ctx.cancellable = true
  | Pc.spawn =>
    s.routine.isIdle = true ∧ s.cancels = 0 ∧ s.invoked = 0 ∧ s.ctx.cancellable = true
  | Pc.select => s.routine.live = true ∧ s.cancels = 0 ∧ s.invoked = 1
  | Pc.cancel =>
    s.routine.live = true ∧ s.cancels = 0 ∧ s.invoked = 1 ∧ s.ctx.err.isSome = true
  | Pc.drain =>
    s.routine.live = true ∧ s.cancels = 1 ∧ s.invoked = 1 ∧ s.ctx.err.isSome = true
  | Pc.returned e =>
    s.routine.live = false ∧ s.cancels ≤ 1 ∧ s.invoked ≤ 1 ∧
    (s.cancels = 1 →
      s.routine.isFinished = true ∧ e = s.ctx.err ∧ s.ctx.err.isSome = true ∧ s.invoked = 1)

/-- A schedule in which the cancellation wins the race: the caller goes
up to the `select`, the goroutine makes its first step, the context is
cancelled, the caller takes the case `<-ctx.Done()` and calls
`con.cancel()`, the goroutine runs to its send, and the caller receives. -/
def cancelledSchedule : List Actor :=
  [Actor.caller true, Actor.caller true, Actor.caller true, Actor.goroutine,
   Actor.cancelCtx Canceled, Actor.caller false, Actor.caller false,
   Actor.goroutine, Actor.goroutine, Actor.goroutine, Actor.caller false]

/-- The runes of a text at which the loop of `splitNamed` finds `quoted`
set after the test of the quote and goes on to the next rune: the quoted
regions of the text, each from its opening quote up to its closing one,
one after the other. `quoted` is the flag before the text and `prior`
the rune just before it. -/
def quotedRunes (quoted : Bool) (prior : Char) : List Char → List Char
  | [] => []
  | c :: rest =>
    if (if c == quote && prior != escape then !quoted else quoted) then
      c :: quotedRunes (if c == quote && prior != escape then !quoted else quoted) c rest
    else
      quotedRunes (if c == quote && prior != escape then !quoted else quoted) c rest

/-! # Proofs -/

/-! ## Lemmas on the rewriter -/

theorem getD_append_length {α : Type} (l r : List α) (b z : α) :
    (l ++ b :: r).getD l.length z = b := by
  induction l with
  | nil => rfl
  | cons x l ih => simpa using ih

theorem loopBody_eq (pre rest : List Char) (c : Char) (st : scan) :
    loopBody (pre ++ c :: rest) pre.length c st
      = stepRunes (pre.getLastD zeroRune) c (rest.headD zeroRune) pre.length st := by
  have hprior : (if pre.length > 0 then runeAt (pre ++ c :: rest) (pre.length - 1) else zeroRune)
      = pre.getLastD zeroRune := by
    rcases List.eq_nil_or_concat pre with h | ⟨l, b, h⟩
    · subst h; simp
    · subst h
      have h1 := getD_append_length l (c :: rest) b zeroRune
      simpa [runeAt, List.concat_eq_append] using h1
  have hnext : (if pre.length < (pre ++ c :: rest).length - 1
        then runeAt (pre ++ c :: rest) (pre.length + 1) else zeroRune)
      = rest.headD zeroRune := by
    cases rest with
    | nil => simp
    | cons d r =>
      have h1 := getD_append_length (pre ++ [c]) r d zeroRune
      simpa [runeAt] using h1
  unfold loopBody stepRunes
  simp only [hprior, hnext]

theorem isArg_ne_quote {c : Char} (h : isArg c = true) : c ≠ quote := by
  rintro rfl; revert h; decide

theorem isArg_ne_param {c : Char} (h : isArg c = true) : c ≠ param := by
  rintro rfl; revert h; decide

theorem isArg_zeroRune : isArg zeroRune = false := by decide

theorem rangeLoop_cons (sql : List Char) (i : Nat) (c : Char) (rest : List Char) (st : scan) :
    rangeLoop sql i (c :: rest) st = rangeLoop sql (i + 1) rest (loopBody sql i c st) := rfl

/-- While a name is being read the loop only waits for its last rune. -/
theorem rangeLoop_name (name : List Char) :
    ∀ (pre r : List Char) (args : List arg) (start : Nat),
      name ≠ [] → (∀ c ∈ name, isArg c = true) → isArg (r.headD zeroRune) = false →
      rangeLoop (pre ++ (name ++ r)) pre.length (name ++ r)
          { args := args, a := some { start := start, stop := 0 }, quoted := false }
        = rangeLoop (pre ++ (name ++ r)) (pre.length + name.length) r
          { args := args ++ [{ start := start, stop := pre.length + name.length }],
            a := none, quoted := false } := by
  induction name with
  | nil => intro _ _ _ _ h; exact absurd rfl h
  | cons d ns ih =>
    intro pre r args start _ hall hr
    have hd : isArg d = true := hall d (List.mem_cons_self _ _)
    have hq : (d == quote) = false := by simpa using isArg_ne_quote hd
    have hp : (d == param) = false := by simpa using isArg_ne_param hd
    cases ns with
    | nil =>
      have hr2 : isArg (r.head?.getD zeroRune) = false := by simpa using hr
      simp only [List.nil_append, List.cons_append, rangeLoop, List.length_singleton]
      rw [loopBody_eq]
      simp [stepRunes, hq, hp, hr2]
    | cons e ns =>
      have he : isArg e = true := hall e (by simp)
      have hstep : loopBody (pre ++ d :: ((e :: ns) ++ r)) pre.length d
            { args := args, a := some { start := start, stop := 0 }, quoted := false }
          = { args := args, a := some { start := start, stop := 0 }, quoted := false } := by
        rw [loopBody_eq]
        simp [stepRunes, hq, hp, he]
      have ih2 := ih (pre ++ [d]) r args start (by simp)
        (fun c hc => hall c (List.mem_cons_of_mem _ hc)) hr
      have e1 : pre ++ [d] ++ ((e :: ns) ++ r) = pre ++ d :: ((e :: ns) ++ r) := by simp
      have e2 : (pre ++ [d]).length = pre.length + 1 := by simp
      have e3 : pre.length + 1 + (e :: ns).length = pre.length + (d :: e :: ns).length := by
        simp only [List.length_cons]; omega
      rw [e1, e2, e3] at ih2
      rw [List.cons_append, rangeLoop_cons, hstep]
      exact ih2

theorem tokens_nil (q : Bool) (p : Char) : tokens q p [] = [] := by
  rw [tokens]

theorem tokens_cons (q : Bool) (p c : Char) (rest : List Char) :
    tokens q p (c :: rest) =
      if (if c == quote && p != escape then !q else q) then
        Tok.lit c :: tokens (if c == quote && p != escape then !q else q) c rest
      else if c == param && isArg (rest.headD zeroRune) then
        Tok.name (rest.takeWhile isArg) ::
          tokens false ((rest.takeWhile isArg).getLastD zeroRune) (rest.dropWhile isArg)
      else
        Tok.lit c :: tokens false c rest := by
  rw [tokens]

theorem headD_dropWhile_isArg (l : List Char) :
    isArg ((l.dropWhile isArg).headD zeroRune) = false := by
  induction l with
  | nil => exact isArg_zeroRune
  | cons x l ih =>
    by_cases hx : isArg x = true
    · simpa [List.dropWhile, hx] using ih
    · simp only [Bool.not_eq_true] at hx
      simp [List.dropWhile, hx]

theorem takeWhile_ne_nil_of_head {l : List Char} (h : isArg (l.headD zeroRune) = true) :
    l.takeWhile isArg ≠ [] := by
  cases l with
  | nil => simp [isArg_zeroRune] at h
  | cons x l =>
    have hx : isArg x = true := by simpa using h
    simp [List.takeWhile, hx]

theorem getLastD_append_of_ne_nil {α : Type} (l m : List α) (z : α) (h : m ≠ []) :
    (l ++ m).getLastD z = m.getLastD z := by
  rcases List.eq_nil_or_concat m with h1 | ⟨m1, b, h1⟩
  · exact absurd h1 h
  · subst h1
    rw [List.concat_eq_append, ← List.append_assoc, List.getLastD_concat, List.getLastD_concat]

/-- The ranges collected by the loop of `splitNamed` are those of the
token sequence of the text. -/
theorem rangeLoop_args (n : Nat) :
    ∀ (rest pre : List Char) (st : scan), rest.length ≤ n → st.a = none →
      (rangeLoop (pre ++ rest) pre.length rest st).args
        = st.args ++ tokArgs pre.length (tokens st.quoted (pre.getLastD zeroRune) rest) := by
  induction n with
  | zero =>
    intro rest pre st hlen _
    have : rest = [] := List.length_eq_zero.mp (Nat.le_zero.mp hlen)
    subst this
    simp [rangeLoop, tokens_nil, tokArgs]
  | succ n ih =>
    intro rest pre st hlen ha
    obtain ⟨args, a, quoted⟩ := st
    simp only at ha
    subst ha
    cases rest with
    | nil => simp [rangeLoop, tokens_nil, tokArgs]
    | cons c rest =>
      have hlen2 : rest.length ≤ n := by simpa using hlen
      have hpre : pre ++ c :: rest = (pre ++ [c]) ++ rest := by simp
      have hlast : (pre ++ [c]).getLastD zeroRune = c := List.getLastD_concat _ _ _
      have hl1 : (pre ++ [c]).length = pre.length + 1 := by simp
      rw [rangeLoop_cons, loopBody_eq, tokens_cons]
      simp only [stepRunes]
      by_cases hq : (if c == quote && pre.getLastD zeroRune != escape then !quoted else quoted) = true
      · rw [if_pos hq, if_pos hq]
        have := ih rest (pre ++ [c])
          { args := args, a := none,
            quoted := if c == quote && pre.getLastD zeroRune != escape then !quoted else quoted }
          hlen2 rfl
        rw [hlast, hl1, ← hpre] at this
        rw [this]
        simp [tokArgs, hq]
      · rw [if_neg hq, if_neg hq]
        have hqf : (if c == quote && pre.getLastD zeroRune != escape then !quoted else quoted)
            = false := by simpa using hq
        by_cases hp : (c == param && isArg (rest.headD zeroRune)) = true
        · rw [if_pos hp, if_pos hp]
          have hhead : isArg (rest.headD zeroRune) = true := by
            simp only [Bool.and_eq_true] at hp; exact hp.2
          have hne := takeWhile_ne_nil_of_head hhead
          have hsplit : rest.takeWhile isArg ++ rest.dropWhile isArg = rest :=
            List.takeWhile_append_dropWhile isArg rest
          have hall : ∀ x ∈ rest.takeWhile isArg, isArg x = true :=
            fun x hx => List.mem_takeWhile_imp hx
          have h1 := rangeLoop_name (rest.takeWhile isArg) (pre ++ [c]) (rest.dropWhile isArg)
            args pre.length hne hall (headD_dropWhile_isArg rest)
          rw [hsplit, ← hpre, hl1] at h1
          rw [hqf, h1]
          have hlen3 : (rest.dropWhile isArg).length ≤ n :=
            Nat.le_trans (List.dropWhile_sublist (l := rest) isArg).length_le hlen2
          have h2 := ih (rest.dropWhile isArg) (pre ++ [c] ++ rest.takeWhile isArg)
            { args := args ++ [{ start := pre.length,
                                 stop := pre.length + 1 + (rest.takeWhile isArg).length }],
              a := none, quoted := false } hlen3 rfl
          rw [List.append_assoc, hsplit, ← hpre, getLastD_append_of_ne_nil _ _ _ hne] at h2
          have hl2 : (pre ++ [c] ++ rest.takeWhile isArg).length
              = pre.length + 1 + (rest.takeWhile isArg).length := by
            simp only [List.length_append, List.length_singleton]
          have hpre2 : pre ++ c :: rest
              = pre ++ [c] ++ rest.takeWhile isArg ++ rest.dropWhile isArg := by
            rw [List.append_assoc, hsplit, ← hpre]
          rw [hpre2, hl2] at h2
          rw [hpre2, h2]
          simp [tokArgs]
        · rw [if_neg hp, if_neg hp]
          have := ih rest (pre ++ [c]) { args := args, a := none, quoted := false } hlen2 rfl
          rw [hlast, hl1, ← hpre] at this
          simp only [hqf]
          rw [this]
          simp [tokArgs]

theorem slice_append_left (pre r : List Char) (frm : Nat) :
    slice (pre ++ r) frm pre.length = pre.drop frm := by
  simp [slice]

theorem slice_name (pre n r : List Char) (c : Char) :
    slice (pre ++ (c :: n ++ r)) (pre.length + 1) (pre.length + 1 + n.length) = n := by
  have h : pre ++ (c :: n ++ r) = (pre ++ [c] ++ n) ++ r := by simp
  have hl : pre.length + 1 + n.length = (pre ++ [c] ++ n).length := by
    simp only [List.length_append, List.length_singleton]
  have hl2 : pre.length + 1 = (pre ++ [c]).length := by simp
  unfold slice
  rw [h, hl, List.take_left, hl2, List.drop_left]

theorem collapseLoop_eq (sql : List Char) (args : List arg) :
    ∀ (frm : Nat) (b : List Char),
      (if (collapseLoop sql args frm b).1 < sql.length
        then (collapseLoop sql args frm b).2 ++ sql.drop (collapseLoop sql args frm b).1
        else (collapseLoop sql args frm b).2)
      = b ++ substituteRanges (fun _ => [placeholder]) sql args frm := by
  induction args with
  | nil =>
    intro frm b
    simp only [collapseLoop, substituteRanges]
    split
    · rfl
    · rw [List.drop_of_length_le (by omega)]; simp
  | cons a rest ih =>
    intro frm b
    simp only [collapseLoop, substituteRanges]
    rw [ih]
    simp

theorem collapse_eq (sql : List Char) (args : List arg) :
    split.collapse { sql := sql, args := args }
      = substituteRanges (fun _ => [placeholder]) sql args 0 := by
  have := collapseLoop_eq sql args 0 []
  simpa [split.collapse] using this

theorem substituteRanges_tokArgs (v : List Char → List Char) (toks : List Tok) :
    ∀ (pre : List Char) (frm : Nat), frm ≤ pre.length →
      substituteRanges v (pre ++ tokText toks) (tokArgs pre.length toks) frm
        = pre.drop frm ++ render v toks := by
  induction toks with
  | nil =>
    intro pre frm _
    simp [tokText, tokArgs, substituteRanges, render]
  | cons t ts ih =>
    intro pre frm hfrm
    cases t with
    | lit c =>
      have h := ih (pre ++ [c]) frm (by simp; omega)
      have e1 : pre ++ [c] ++ tokText ts = pre ++ tokText (Tok.lit c :: ts) := by
        simp [tokText]
      have e2 : (pre ++ [c]).length = pre.length + 1 := by simp
      rw [e1, e2] at h
      simp only [tokArgs, render]
      rw [h, List.drop_append_of_le_length hfrm]
      simp
    | name n =>
      have h := ih (pre ++ param :: n) (pre ++ param :: n).length (Nat.le_refl _)
      have e1 : pre ++ param :: n ++ tokText ts = pre ++ tokText (Tok.name n :: ts) := by
        simp [tokText]
      have e2 : (pre ++ param :: n).length = pre.length + 1 + n.length := by
        simp only [List.length_append, List.length_cons]; omega
      rw [List.drop_length, e1, e2] at h
      simp only [tokArgs, render, substituteRanges]
      rw [h, slice_append_left]
      have e3 : tokText (Tok.name n :: ts) = param :: n ++ tokText ts := rfl
      rw [e3, slice_name]
      simp

theorem arguments_tokArgs (toks : List Tok) :
    ∀ (pre : List Char),
      (tokArgs pre.length toks).map
          (fun a => slice (pre ++ tokText toks) (a.start + 1) a.stop)
        = tokNames toks := by
  induction toks with
  | nil => intro pre; simp [tokArgs, tokNames]
  | cons t ts ih =>
    intro pre
    cases t with
    | lit c =>
      have h := ih (pre ++ [c])
      have e1 : pre ++ [c] ++ tokText ts = pre ++ tokText (Tok.lit c :: ts) := by
        simp [tokText]
      have e2 : (pre ++ [c]).length = pre.length + 1 := by simp
      rw [e1, e2] at h
      simpa [tokArgs, tokNames] using h
    | name n =>
      have h := ih (pre ++ param :: n)
      have e1 : pre ++ param :: n ++ tokText ts = pre ++ tokText (Tok.name n :: ts) := by
        simp [tokText]
      have e2 : (pre ++ param :: n).length = pre.length + 1 + n.length := by
        simp only [List.length_append, List.length_cons]; omega
      rw [e1, e2] at h
      simp only [tokArgs, tokNames, List.map_cons]
      rw [h]
      have e3 : tokText (Tok.name n :: ts) = param :: n ++ tokText ts := rfl
      rw [e3, slice_name]

/-- Reading the tokens of a text and writing them back gives the text. -/
theorem tokText_tokens (n : Nat) :
    ∀ (s : List Char) (q : Bool) (p : Char), s.length ≤ n → tokText (tokens q p s) = s := by
  induction n with
  | zero =>
    intro s q p h
    have : s = [] := List.length_eq_zero.mp (Nat.le_zero.mp h)
    subst this
    simp [tokens_nil, tokText]
  | succ n ih =>
    intro s q p h
    cases s with
    | nil => simp [tokens_nil, tokText]
    | cons c rest =>
      have hlen : rest.length ≤ n := by simpa using h
      rw [tokens_cons]
      by_cases hq : (if c == quote && p != escape then !q else q) = true
      · rw [if_pos hq]
        simp only [tokText]
        rw [ih rest _ _ hlen]
      · rw [if_neg hq]
        by_cases hp : (c == param && isArg (rest.headD zeroRune)) = true
        · rw [if_pos hp]
          have hc : c = param := by
            simp only [Bool.and_eq_true, beq_iff_eq] at hp; exact hp.1
          have hlen3 : (rest.dropWhile isArg).length ≤ n :=
            Nat.le_trans (List.dropWhile_sublist (l := rest) isArg).length_le hlen
          simp only [tokText]
          rw [ih _ _ _ hlen3, hc, List.cons_append, List.takeWhile_append_dropWhile]
        · rw [if_neg hp]
          simp only [tokText]
          rw [ih rest _ _ hlen]

theorem recognised_eq (s : List Char) : recognised s = tokArgs 0 (tokensOf s) := by
  have := rangeLoop_args s.length s [] { args := [], a := none, quoted := false }
    (Nat.le_refl _) rfl
  simpa [recognised, tokensOf] using this

theorem substituteNamed_eq (v : List Char → List Char) (s : List Char) :
    substituteNamed v s = render v (tokensOf s) := by
  have h := substituteRanges_tokArgs v (tokensOf s) [] 0 (Nat.le_refl _)
  have hf : tokText (tokensOf s) = s := tokText_tokens s.length s _ _ (Nat.le_refl _)
  simp only [List.nil_append, List.length_nil, List.drop_nil, hf] at h
  rw [substituteNamed, recognised_eq, h]

/-- What `splitNamed` computes, in terms of the token sequence. -/
theorem splitNamed_eq (s : List Char) :
    splitNamed s
      = (render (fun _ => [placeholder]) (tokensOf s), tokNames (tokensOf s)) := by
  have hf : tokText (tokensOf s) = s := tokText_tokens s.length s _ _ (Nat.le_refl _)
  have hr : (rangeLoop s 0 s { args := [], a := none, quoted := false }).args
      = tokArgs 0 (tokensOf s) := recognised_eq s
  have h1 := substituteRanges_tokArgs (fun _ => [placeholder]) (tokensOf s) [] 0 (Nat.le_refl _)
  have h2 := arguments_tokArgs (tokensOf s) []
  simp only [List.nil_append, List.length_nil, List.drop_nil, hf] at h1 h2
  unfold splitNamed
  simp only [hr, collapse_eq, h1, split.arguments, h2]

/-! ### How the token sequence decomposes over a text -/

theorem tokens_prior_congr (q : Bool) (p1 p2 : Char) (s : List Char)
    (h : (p1 != escape) = (p2 != escape)) : tokens q p1 s = tokens q p2 s := by
  cases s with
  | nil => rw [tokens_nil, tokens_nil]
  | cons c rest => rw [tokens_cons, tokens_cons, h]

theorem isArg_ne_escape {c : Char} (h : isArg c = true) : c ≠ escape := by
  rintro rfl; revert h; decide

theorem takeWhile_append_head (p y : List Char) (hy : isArg (y.headD zeroRune) = false) :
    (p ++ y).takeWhile isArg = p.takeWhile isArg ∧
    (p ++ y).dropWhile isArg = p.dropWhile isArg ++ y := by
  induction p with
  | nil =>
    cases y with
    | nil => simp
    | cons d y =>
      have hd : isArg d = false := by simpa using hy
      simp [List.takeWhile, List.dropWhile, hd]
  | cons x p ih =>
    by_cases hx : isArg x = true
    · simp [List.takeWhile, List.dropWhile, hx, ih.1, ih.2]
    · simp only [Bool.not_eq_true] at hx
      simp [List.takeWhile, List.dropWhile, hx]

theorem getLastD_of_ne_nil {α : Type} (l : List α) (a b : α) (h : l ≠ []) :
    l.getLastD a = l.getLastD b := by
  cases l with
  | nil => exact absurd rfl h
  | cons x l => rfl

theorem isArg_getLastD {n : List Char} (hne : n ≠ []) (hall : ∀ x ∈ n, isArg x = true) :
    isArg (n.getLastD zeroRune) = true := by
  have hm : n.getLastD zeroRune ∈ n := by
    rcases List.eq_nil_or_concat n with h | ⟨l, b, h⟩
    · exact absurd h hne
    · subst h; simp [List.concat_eq_append]
  exact hall _ hm

/-- A rune that is neither a toggling quote nor the start of a parameter
is copied. -/
theorem tokens_lit (prior c : Char) (rest : List Char) (hq : c ≠ quote)
    (hp : (c == param && isArg (rest.headD zeroRune)) = false) :
    tokens false prior (c :: rest) = Tok.lit c :: tokens false c rest := by
  have hq2 : (c == quote) = false := by simpa using hq
  rw [tokens_cons]
  simp only [hq2, Bool.false_and, hp]
  simp

/-- A marker followed by a name that runs up to `r`. -/
theorem tokens_name (prior : Char) (n r : List Char) (hne : n ≠ [])
    (hall : ∀ x ∈ n, isArg x = true) (hr : isArg (r.headD zeroRune) = false) :
    tokens false prior (param :: (n ++ r)) = Tok.name n :: tokens false zeroRune r := by
  have h := takeWhile_append_head n r hr
  have htw : n.takeWhile isArg = n := List.takeWhile_eq_self_iff.mpr hall
  have hdw : n.dropWhile isArg = [] := List.dropWhile_eq_nil_iff.mpr hall
  rw [htw] at h
  rw [hdw, List.nil_append] at h
  have hhead : isArg ((n ++ r).headD zeroRune) = true := by
    cases n with
    | nil => exact absurd rfl hne
    | cons x n => simpa using hall x (List.mem_cons_self _ _)
  have hpq : (param == quote) = false := by decide
  rw [tokens_cons]
  simp only [hpq, Bool.false_and, hhead, h.1, h.2]
  have hx := isArg_ne_escape (isArg_getLastD hne hall)
  have hcong : (n.getLastD zeroRune != escape) = (zeroRune != escape) := by
    have h0 : (zeroRune != escape) = true := by decide
    rw [h0]; simpa using hx
  rw [tokens_prior_congr false _ _ r hcong]
  simp

/-- Outside quotes, a text without quote that is followed by a
non-identifier rune is read on its own. -/
theorem tokens_append_unquoted (k : Nat) :
    ∀ (p : List Char), p.length ≤ k → quote ∉ p → ∀ (prior : Char) (y : List Char),
      isArg (y.headD zeroRune) = false →
      tokens false prior (p ++ y)
        = tokens false prior p ++ tokens false (p.getLastD prior) y := by
  induction k with
  | zero =>
    intro p hlen _ prior y _
    have : p = [] := List.length_eq_zero.mp (Nat.le_zero.mp hlen)
    subst this
    simp [tokens_nil]
  | succ k ih =>
    intro p hlen hnq prior y hy
    cases p with
    | nil => simp [tokens_nil]
    | cons c p =>
      have hlen2 : p.length ≤ k := by simpa using hlen
      have hc : c ≠ quote := fun h => hnq (by simp [h])
      have hnq2 : quote ∉ p := fun h => hnq (List.mem_cons_of_mem _ h)
      have hc2 : (c == quote) = false := by simpa using hc
      have hhead : isArg ((p ++ y).headD zeroRune) = isArg (p.headD zeroRune) := by
        cases p with
        | nil => simpa [isArg_zeroRune] using hy
        | cons d p => simp
      rw [List.cons_append, tokens_cons, tokens_cons, List.getLastD_cons]
      simp only [hc2, Bool.false_and, hhead]
      by_cases hp : (c == param && isArg (p.headD zeroRune)) = true
      · have hsplit := takeWhile_append_head p y hy
        have hne := takeWhile_ne_nil_of_head
          (by simp only [Bool.and_eq_true] at hp; exact hp.2 : isArg (p.headD zeroRune) = true)
        have hlen3 : (p.dropWhile isArg).length ≤ k :=
          Nat.le_trans (List.dropWhile_sublist (l := p) isArg).length_le hlen2
        have hnq3 : quote ∉ p.dropWhile isArg :=
          fun h => hnq2 ((List.dropWhile_sublist (l := p) isArg).subset h)
        have h := ih (p.dropWhile isArg) hlen3 hnq3
          ((p.takeWhile isArg).getLastD zeroRune) y hy
        have hlast : (p.dropWhile isArg).getLastD ((p.takeWhile isArg).getLastD zeroRune)
            = p.getLastD c := by
          by_cases hd : p.dropWhile isArg = []
          · have hp2 : p.takeWhile isArg = p := by
              have := List.takeWhile_append_dropWhile isArg p
              rw [hd, List.append_nil] at this; exact this
            rw [hd, hp2]
            have hpne : p ≠ [] := by rw [← hp2]; exact hne
            simpa using getLastD_of_ne_nil p zeroRune c hpne
          · have := getLastD_append_of_ne_nil (p.takeWhile isArg) (p.dropWhile isArg) c hd
            rw [List.takeWhile_append_dropWhile] at this
            rw [this]
            exact getLastD_of_ne_nil _ _ _ hd
        simp only [if_pos hp, hsplit.1, hsplit.2]
        rw [h, hlast]
        simp
      · simp only [if_neg hp]
        rw [ih p hlen2 hnq2 c y hy]
        simp

theorem render_append (f : List Char → List Char) (a b : List Tok) :
    render f (a ++ b) = render f a ++ render f b := by
  induction a with
  | nil => rfl
  | cons t ts ih => cases t <;> simp [render, ih]

theorem tokNames_append (a b : List Tok) : tokNames (a ++ b) = tokNames a ++ tokNames b := by
  induction a with
  | nil => rfl
  | cons t ts ih => cases t <;> simp [tokNames, ih]

theorem render_lits (f : List Char → List Char) (s : List Char) :
    render f (s.map Tok.lit) = s := by
  induction s with
  | nil => rfl
  | cons c s ih => simp [render, ih]

theorem tokNames_lits (s : List Char) : tokNames (s.map Tok.lit) = [] := by
  induction s with
  | nil => rfl
  | cons c s ih => simp [tokNames, ih]

/-- Inside a literal whose quotes are all escaped every rune is copied. -/
theorem tokens_quoted (body : List Char) :
    ∀ (prior : Char) (y : List Char),
      List.Chain (fun a b => b = quote → a = escape) prior body →
      tokens true prior (body ++ y)
        = body.map Tok.lit ++ tokens true (body.getLastD prior) y := by
  induction body with
  | nil => intro prior y _; rfl
  | cons c body ih =>
    intro prior y h
    rw [List.chain_cons] at h
    have hq : (c == quote && prior != escape) = false := by
      by_cases hc : c = quote
      · simp [h.1 hc]
      · simp [hc]
    rw [List.cons_append, tokens_cons]
    simp only [hq, Bool.false_eq_true, if_false, if_true]
    rw [ih c y h.2, List.getLastD_cons]
    simp

/-- A text in which no marker is followed by an identifier rune is copied
rune by rune, in whatever quoting state it is read. -/
theorem tokens_no_marker (s : List Char) :
    ∀ (q : Bool) (prior : Char),
      List.Chain' (fun a b => a = param → isArg b = false) s →
      tokens q prior s = s.map Tok.lit := by
  induction s with
  | nil => intro q prior _; rw [tokens_nil]; rfl
  | cons c rest ih =>
    intro q prior h
    have hrest : List.Chain' (fun a b => a = param → isArg b = false) rest := h.tail
    have hp : (c == param && isArg (rest.headD zeroRune)) = false := by
      by_cases hc : c = param
      · cases rest with
        | nil => simp [isArg_zeroRune]
        | cons d r =>
          have := (List.chain'_cons.mp h).1 hc
          simp [this]
      · simp [hc]
    rw [tokens_cons]
    simp only [hp, Bool.false_eq_true, if_false]
    by_cases hq : (if c == quote && prior != escape then !q else q) = true
    · simp only [if_pos hq]
      rw [ih _ c hrest]; rfl
    · simp only [if_neg hq]
      rw [ih _ c hrest]; rfl

theorem lit_mem_tokText {c : Char} (toks : List Tok) (h : Tok.lit c ∈ toks) :
    c ∈ tokText toks := by
  induction toks with
  | nil => simp at h
  | cons t ts ih =>
    cases t with
    | lit d =>
      rcases List.mem_cons.mp h with h1 | h1
      · cases h1; simp [tokText]
      · simp [tokText, ih h1]
    | name n =>
      rcases List.mem_cons.mp h with h1 | h1
      · cases h1
      · simp [tokText, ih h1]

theorem substitutePlaceholders_render (v : List Char → List Char) (toks : List Tok)
    (h : ∀ c, Tok.lit c ∈ toks → c ≠ placeholder) :
    substitutePlaceholders v (render (fun _ => [placeholder]) toks) (tokNames toks)
      = render v toks := by
  induction toks with
  | nil => rfl
  | cons t ts ih =>
    have ih2 := ih (fun c hc => h c (List.mem_cons_of_mem _ hc))
    cases t with
    | lit c =>
      have hc : c ≠ placeholder := h c (List.mem_cons_self _ _)
      simp [render, tokNames, substitutePlaceholders, hc, ih2]
    | name n =>
      simp [render, tokNames, substitutePlaceholders, ih2]

theorem tokText_tokensOf (s : List Char) : tokText (tokensOf s) = s :=
  tokText_tokens s.length s _ _ (Nat.le_refl _)

theorem render_marker (toks : List Tok) :
    render (fun n => param :: n) toks = tokText toks := by
  induction toks with
  | nil => rfl
  | cons t ts ih => cases t <;> simp [render, tokText, ih]

theorem getLastD_ne_escape {l : List Char} {z : Char} (hz : z ≠ escape)
    (h : l.getLast? ≠ some escape) : l.getLastD z ≠ escape := by
  rw [List.getLastD_eq_getLast?]
  cases hl : l.getLast? with
  | none => simpa using hz
  | some x =>
    rw [hl] at h
    simpa using h

theorem chain'_of_not_mem (l : List Char) (h : param ∉ l) :
    List.Chain' (fun a b => a = param → isArg b = false) l := by
  induction l with
  | nil => exact List.chain'_nil
  | cons a l ih =>
    cases l with
    | nil => exact List.chain'_singleton a
    | cons b l =>
      refine List.chain'_cons.mpr ⟨fun ha => ?_, ih (fun hm => h (List.mem_cons_of_mem _ hm))⟩
      exact absurd (by simp [ha]) h

theorem chain'_of_index (R : Char → Char → Prop) (l : List Char)
    (h : ∀ i a b, l[i]? = some a → l[i + 1]? = some b → R a b) : List.Chain' R l := by
  induction l with
  | nil => exact List.chain'_nil
  | cons a l ih =>
    cases l with
    | nil => exact List.chain'_singleton a
    | cons b l =>
      refine List.chain'_cons.mpr ⟨h 0 a b (by simp) (by simp), ih (fun i x y hx hy => ?_)⟩
      exact h (i + 1) x y (by simpa using hx) (by simpa using hy)

theorem headD_isArg_false {r : List Char} (hr : ∀ d ∈ r.head?, isArg d = false) :
    isArg (r.headD zeroRune) = false := by
  cases r with
  | nil => exact isArg_zeroRune
  | cons d r => simpa using hr d (by simp)

theorem tokens_open_quote (prior : Char) (y : List Char) (h : prior ≠ escape) :
    tokens false prior (quote :: y) = Tok.lit quote :: tokens true quote y := by
  have h1 : (prior != escape) = true := by simpa using h
  rw [tokens_cons]
  simp only [beq_self_eq_true, h1, Bool.and_self, Bool.not_false, if_true]

theorem tokens_close_quote (prior : Char) (y : List Char) (h : prior ≠ escape) :
    tokens true prior (quote :: y) = Tok.lit quote :: tokens false quote y := by
  have h1 : (prior != escape) = true := by simpa using h
  have hqp : (quote == param) = false := by decide
  rw [tokens_cons]
  simp only [beq_self_eq_true, h1, Bool.and_self, Bool.not_true, if_true, hqp, Bool.false_and,
    Bool.false_eq_true, if_false]

/-- Token sequence of a text with one quoted literal between `p` and `t`. -/
theorem tokensOf_quoted_literal (p body t : List Char)
    (hp : quote ∉ p) (hpe : p.getLast? ≠ some escape)
    (hb0 : body.head? ≠ some quote) (hbe : body.getLast? ≠ some escape)
    (hbq : body.Chain' (fun a b => b = quote → a = escape)) :
    tokensOf (p ++ [quote] ++ body ++ [quote] ++ t)
      = tokensOf p ++ Tok.lit quote :: (body.map Tok.lit ++ Tok.lit quote :: tokensOf t) := by
  have hz : zeroRune ≠ escape := by decide
  have hqe : quote ≠ escape := by decide
  have hqa : isArg ((quote :: (body ++ quote :: t)).headD zeroRune) = false := by
    simp only [List.headD_cons]; decide
  have e : p ++ [quote] ++ body ++ [quote] ++ t = p ++ quote :: (body ++ quote :: t) := by simp
  have h1 := getLastD_ne_escape hz hpe
  have h2 := getLastD_ne_escape hqe hbe
  have hchain : List.Chain (fun a b => b = quote → a = escape) quote body := by
    cases body with
    | nil => exact List.Chain.nil
    | cons c b =>
      refine List.Chain.cons (fun hc => ?_) hbq
      exact absurd (by simp [hc]) hb0
  have hcong : tokens false quote t = tokens false zeroRune t :=
    tokens_prior_congr false _ _ t (by decide)
  unfold tokensOf
  rw [e, tokens_append_unquoted p.length p (Nat.le_refl _) hp zeroRune _ hqa,
    tokens_open_quote _ _ h1, tokens_quoted body quote _ hchain,
    tokens_close_quote _ _ h2, hcong]

/-- Token sequence of a text with one parameter between `p` and `r`. -/
theorem tokensOf_param (p n r : List Char)
    (hp1 : param ∉ p) (hp2 : quote ∉ p) (hn : n ≠ [])
    (hall : ∀ c ∈ n, isArg c = true) (hr : ∀ d ∈ r.head?, isArg d = false) :
    tokensOf (p ++ [param] ++ n ++ r) = p.map Tok.lit ++ Tok.name n :: tokensOf r := by
  have e : p ++ [param] ++ n ++ r = p ++ param :: (n ++ r) := by simp
  have hpa : isArg ((param :: (n ++ r)).headD zeroRune) = false := by
    simp only [List.headD_cons]; decide
  unfold tokensOf
  rw [e, tokens_append_unquoted p.length p (Nat.le_refl _) hp2 zeroRune _ hpa,
    tokens_no_marker p false zeroRune (chain'_of_not_mem p hp1),
    tokens_name _ n r hn hall (headD_isArg_false hr)]

theorem tokens_markedNames (ns : List (List Char))
    (h : ∀ n ∈ ns, n ≠ [] ∧ ∀ c ∈ n, isArg c = true) :
    ∀ prior : Char,
      tokens false prior (markedNames ns)
        = (ns.map (fun n => [Tok.lit ' ', Tok.name n])).flatten := by
  induction ns with
  | nil => intro prior; simp [markedNames, tokens_nil]
  | cons n ns ih =>
    intro prior
    have hn := h n (List.mem_cons_self _ _)
    have hrest : isArg ((markedNames ns).headD zeroRune) = false := by
      cases ns with
      | nil => exact isArg_zeroRune
      | cons m ms => simp only [markedNames, List.map_cons, List.flatten_cons,
          List.cons_append, List.headD_cons]; decide
    have e : markedNames (n :: ns) = ' ' :: param :: (n ++ markedNames ns) := by
      simp [markedNames]
    have hsp : (' ' == param && isArg ((param :: (n ++ markedNames ns)).headD zeroRune))
        = false := by simp only [List.headD_cons]; decide
    rw [e, tokens_lit prior ' ' _ (by decide) hsp,
      tokens_name _ n _ hn.1 hn.2 hrest, ih (fun m hm => h m (List.mem_cons_of_mem _ hm))]
    simp

/-- Every name of a token sequence read from a text is non-empty and
made of identifier runes. -/
theorem tokNames_tokens_valid (n : Nat) :
    ∀ (s : List Char) (q : Bool) (p : Char), s.length ≤ n →
      ∀ name ∈ tokNames (tokens q p s), name ≠ [] ∧ ∀ c ∈ name, isArg c = true := by
  induction n with
  | zero =>
    intro s q p h
    have : s = [] := List.length_eq_zero.mp (Nat.le_zero.mp h)
    subst this
    simp [tokens_nil, tokNames]
  | succ n ih =>
    intro s q p h
    cases s with
    | nil => simp [tokens_nil, tokNames]
    | cons c rest =>
      have hlen : rest.length ≤ n := by simpa using h
      rw [tokens_cons]
      by_cases hq : (if c == quote && p != escape then !q else q) = true
      · rw [if_pos hq]
        simp only [tokNames]
        exact ih rest _ _ hlen
      · rw [if_neg hq]
        by_cases hp : (c == param && isArg (rest.headD zeroRune)) = true
        · rw [if_pos hp]
          have hhead : isArg (rest.headD zeroRune) = true := by
            simp only [Bool.and_eq_true] at hp; exact hp.2
          have hlen3 : (rest.dropWhile isArg).length ≤ n :=
            Nat.le_trans (List.dropWhile_sublist (l := rest) isArg).length_le hlen
          simp only [tokNames]
          intro name hname
          rcases List.mem_cons.mp hname with h1 | h1
          · subst h1
            exact ⟨takeWhile_ne_nil_of_head hhead, fun x hx => List.mem_takeWhile_imp hx⟩
          · exact ih _ _ _ hlen3 name h1
        · rw [if_neg hp]
          simp only [tokNames]
          exact ih rest _ _ hlen

theorem tokArgs_bounds (toks : List Tok) :
    ∀ (i : Nat), ∀ a ∈ tokArgs i toks,
      i ≤ a.start ∧ a.start < a.stop ∧ a.stop ≤ i + (tokText toks).length := by
  induction toks with
  | nil => intro i a h; simp [tokArgs] at h
  | cons t ts ih =>
    intro i a h
    cases t with
    | lit c =>
      simp only [tokArgs] at h
      have := ih (i + 1) a h
      simp only [tokText, List.length_cons]
      omega
    | name n =>
      simp only [tokArgs] at h
      simp only [tokText, List.length_cons, List.length_append]
      rcases List.mem_cons.mp h with h1 | h1
      · subst h1
        simp only
        omega
      · have := ih (i + 1 + n.length) a h1
        omega

theorem tokArgs_sorted (toks : List Tok) :
    ∀ (i : Nat), List.Pairwise (fun a b => a.stop ≤ b.start) (tokArgs i toks) := by
  induction toks with
  | nil => intro i; simp [tokArgs]
  | cons t ts ih =>
    intro i
    cases t with
    | lit c => simpa [tokArgs] using ih (i + 1)
    | name n =>
      simp only [tokArgs]
      refine List.pairwise_cons.mpr ⟨fun b hb => ?_, ih _⟩
      exact (tokArgs_bounds ts _ b hb).1

/-- The ranges `splitNamed` collects are non-empty, lie within the text
and follow each other without overlap, so that no slice expression of
`collapse` and `arguments` is out of range. -/
theorem recognised_in_range (s : List Char) :
    (∀ a ∈ recognised s, a.start < a.stop ∧ a.stop ≤ s.length) ∧
    List.Pairwise (fun a b => a.stop ≤ b.start) (recognised s) := by
  rw [recognised_eq]
  refine ⟨fun a ha => ?_, tokArgs_sorted _ 0⟩
  have := tokArgs_bounds (tokensOf s) 0 a ha
  rw [tokText_tokensOf] at this
  omega

set_option maxRecDepth 100000 in
/-- Cases of the table of `TestNamedSQL`. -/
theorem splitNamed_test_table :
    splitNamed "".toList = ("".toList, []) ∧
    splitNamed "hello".toList = ("hello".toList, []) ∧
    splitNamed "select * from a where name = :name".toList
      = ("select * from a where name = ?".toList, ["name".toList]) ∧
    splitNamed "select * from b where name = ':name'".toList
      = ("select * from b where name = ':name'".toList, []) ∧
    splitNamed "select * from e where name = '\n:name' and age = :age".toList
      = ("select * from e where name = '\n:name' and age = ?".toList, ["age".toList]) ∧
    splitNamed "select * from g where name = :name\nand secondname = :name".toList
      = ("select * from g where name = ?\nand secondname = ?".toList,
         ["name".toList, "name".toList]) ∧
    splitNamed "name = :name and content = 'o\\'rielly:xxx' and age = :age".toList
      = ("name = ? and content = 'o\\'rielly:xxx' and age = ?".toList,
         ["name".toList, "age".toList]) ∧
    splitNamed "select * from i where name = :name:age".toList
      = ("select * from i where name = ??".toList, ["name".toList, "age".toList]) ∧
    splitNamed "select * from k where name = : x".toList
      = ("select * from k where name = : x".toList, []) ∧
    splitNamed ":".toList = (":".toList, []) ∧
    splitNamed ":one".toList = ("?".toList, ["one".toList]) ∧
    splitNamed "age = :age_5 or numbers = false".toList
      = ("age = ? or numbers = false".toList, ["age_5".toList]) ∧
    splitNamed "select 1 from p where age = :st''uff\\n".toList
      = ("select 1 from p where age = ?''uff\\n".toList, ["st".toList]) := by
  decide

/-! ## Lemmas on exec -/

@[simp] theorem call_fst (F : Foreign) (rt : Runtime) (e : Event) :
    (call F rt e).1 = F.ret rt.trace e := rfl
@[simp] theorem call_trace (F : Foreign) (rt : Runtime) (e : Event) :
    (call F rt e).2.trace = rt.trace ++ [e] := rfl
@[simp] theorem call_nextBlock (F : Foreign) (rt : Runtime) (e : Event) :
    (call F rt e).2.nextBlock = rt.nextBlock := rfl
@[simp] theorem lasterr_trace (F : Foreign) (pfx : String) (rt : Runtime) :
    (lasterr F pfx rt).2.trace = rt.trace ++ [Event.error, Event.clear_error] := by
  simp [lasterr, call]
@[simp] theorem lasterr_nextBlock (F : Foreign) (pfx : String) (rt : Runtime) :
    (lasterr F pfx rt).2.nextBlock = rt.nextBlock := rfl
@[simp] theorem alloc_fst (rt : Runtime) : (alloc rt).1 = rt.nextBlock := rfl
@[simp] theorem alloc_trace (rt : Runtime) :
    (alloc rt).2.trace = rt.trace ++ [Event.alloc rt.nextBlock] := rfl
@[simp] theorem alloc_nextBlock (rt : Runtime) : (alloc rt).2.nextBlock = rt.nextBlock + 1 := rfl

/-- The iteration for an input whose describe fails. -/
theorem bindOne_describe_failed (F : Foreign) (v : NamedValue) (stmt : statement) (rt : Runtime)
    (h : F.ret rt.trace (Event.describe_bind_param (cindex v)) = 0) :
    bindOne F v stmt rt =
      (Flow.returned (lasterr F "did not describe bind param: "
          (call F rt (Event.describe_bind_param (cindex v))).2).1, stmt,
        (lasterr F "did not describe bind param: "
          (call F rt (Event.describe_bind_param (cindex v))).2).2) := by
  simp [bindOne, h]

theorem bindOne_null (F : Foreign) (v : NamedValue) (stmt : statement) (rt : Runtime)
    (h : F.ret rt.trace (Event.describe_bind_param (cindex v)) ≠ 0)
    (hv : v.Value = Value.null) :
    bindOne F v stmt rt =
      let rt1 := (call F rt (Event.describe_bind_param (cindex v))).2
      let p := { BindParam.new with is_null := some true }
      let rt2 := (call F rt1 (Event.bind_param (cindex v) p)).2
      if F.ret rt1.trace (Event.bind_param (cindex v) p) = 0 then
        (Flow.returned (lasterr F ("did not bind parameter at index " ++ toString (cindex v)) rt2).1,
          stmt, (lasterr F ("did not bind parameter at index " ++ toString (cindex v)) rt2).2)
      else (Flow.returned none, stmt, rt2) := by
  simp [bindOne, h, hv]

theorem bindOne_default (F : Foreign) (v : NamedValue) (stmt : statement) (rt : Runtime)
    (h : F.ret rt.trace (Event.describe_bind_param (cindex v)) ≠ 0)
    (hv : v.Value ≠ Value.null) (henc : encode v.Value = none) :
    bindOne F v stmt rt =
      let rt1 := (call F rt (Event.describe_bind_param (cindex v))).2
      (Flow.returned (some (GoError.noBinding (paramIndex v) v.Value.typeName)),
        { stmt with params := stmt.params ++
            [{ BindParam.new with is_null := some false,
                                  length := some { id := rt1.nextBlock, bytes := [0] } }] },
        (alloc rt1).2) := by
  cases hval : v.Value <;> simp [hval, encode] at hv henc
  simp [bindOne, h, hval, encode]

theorem bindOne_supported (F : Foreign) (v : NamedValue) (stmt : statement) (rt : Runtime)
    (h : F.ret rt.trace (Event.describe_bind_param (cindex v)) ≠ 0)
    (ty : DataType) (len : Nat) (payload : List Nat)
    (henc : encode v.Value = some (ty, len, payload)) :
    bindOne F v stmt rt =
      let rt1 := (call F rt (Event.describe_bind_param (cindex v))).2
      let rt3 := (alloc (alloc rt1).2).2
      let p : BindParam :=
        { buffer := some { id := rt1.nextBlock + 1, bytes := payload },
          length := some { id := rt1.nextBlock, bytes := [len] },
          type := ty, is_null := some false }
      let stmt1 := { stmt with params := stmt.params ++ [p] }
      let rt4 := (call F rt3 (Event.bind_param (cindex v) p)).2
      if F.ret rt3.trace (Event.bind_param (cindex v) p) = 0 then
        (Flow.returned (lasterr F ("did not bind parameter at index " ++ toString (paramIndex v)) rt4).1,
          stmt1, (lasterr F ("did not bind parameter at index " ++ toString (paramIndex v)) rt4).2)
      else (Flow.next, stmt1, rt4) := by
  cases hval : v.Value <;> rw [hval] at henc <;> simp only [encode] at henc <;> cases henc <;>
    simp [bindOne, h, hval, encode, BindParam.new]

/-- What one iteration of the bind loop adds. -/
theorem bindOne_adds (F : Foreign) (v : NamedValue) (stmt : statement) (rt : Runtime) :
    ∃ evs ps, Adds rt stmt (bindOne F v stmt rt).2.1 (bindOne F v stmt rt).2.2 evs ps ∧
      describePositions evs = [cindex v] ∧
      bindPositions evs <+: [cindex v] ∧
      ((bindOne F v stmt rt).1 = Flow.next → bindPositions evs = [cindex v]) ∧
      (encode v.Value = none → v.Value ≠ Value.null → bindPositions evs = []) := by
  by_cases h : F.ret rt.trace (Event.describe_bind_param (cindex v)) = 0
  · rw [bindOne_describe_failed F v stmt rt h]
    refine ⟨[Event.describe_bind_param (cindex v), Event.error, Event.clear_error], [],
      ⟨by simp, by simp, by simp, by simp [released], by simp [allocated],
        by simp [allocated], by simp [freeCalls, allocated]⟩,
      by simp [describePositions], by simp [bindPositions], by simp, by simp [bindPositions]⟩
  · by_cases hn : v.Value = Value.null
    · rw [bindOne_null F v stmt rt h hn]
      simp only []
      split
      · refine ⟨[Event.describe_bind_param (cindex v),
            Event.bind_param (cindex v) { BindParam.new with is_null := some true },
            Event.error, Event.clear_error], [],
          ⟨by simp, by simp, by simp, by simp [released], by simp [allocated],
            by simp [allocated], by simp [freeCalls, allocated]⟩,
          by simp [describePositions], by simp [bindPositions], by simp,
          fun _ h2 => absurd hn h2⟩
      · refine ⟨[Event.describe_bind_param (cindex v),
            Event.bind_param (cindex v) { BindParam.new with is_null := some true }], [],
          ⟨by simp, by simp, by simp, by simp [released], by simp [allocated],
            by simp [allocated], by simp [freeCalls, allocated]⟩,
          by simp [describePositions], by simp [bindPositions], by simp,
          fun _ h2 => absurd hn h2⟩
    · cases henc : encode v.Value with
      | none =>
        rw [bindOne_default F v stmt rt h hn henc]
        refine ⟨[Event.describe_bind_param (cindex v), Event.alloc rt.nextBlock],
          [{ BindParam.new with is_null := some false,
                                length := some { id := rt.nextBlock, bytes := [0] } }],
          ⟨by simp, by simp, by simp, by simp [released], by simp [allocated, List.range'],
            by simp [allocated], by simp [freeCalls, allocated, BindParam.new]⟩,
          by simp [describePositions], by simp [bindPositions], by simp,
          by simp [bindPositions]⟩
      | some triple =>
        obtain ⟨ty, len, payload⟩ := triple
        rw [bindOne_supported F v stmt rt h ty len payload henc]
        simp only []
        split
        · refine ⟨[Event.describe_bind_param (cindex v), Event.alloc rt.nextBlock,
              Event.alloc (rt.nextBlock + 1),
              Event.bind_param (cindex v)
                { buffer := some { id := rt.nextBlock + 1, bytes := payload },
                  length := some { id := rt.nextBlock, bytes := [len] },
                  type := ty, is_null := some false },
              Event.error, Event.clear_error],
            [{ buffer := some { id := rt.nextBlock + 1, bytes := payload },
               length := some { id := rt.nextBlock, bytes := [len] },
               type := ty, is_null := some false }],
            ⟨by simp, by simp, by simp, by simp [released], by simp [allocated, List.range'],
              by simp [allocated], by simp [freeCalls, allocated]⟩,
            by simp [describePositions], by simp [bindPositions], by simp, by simp⟩
        · refine ⟨[Event.describe_bind_param (cindex v), Event.alloc rt.nextBlock,
              Event.alloc (rt.nextBlock + 1),
              Event.bind_param (cindex v)
                { buffer := some { id := rt.nextBlock + 1, bytes := payload },
                  length := some { id := rt.nextBlock, bytes := [len] },
                  type := ty, is_null := some false }],
            [{ buffer := some { id := rt.nextBlock + 1, bytes := payload },
               length := some { id := rt.nextBlock, bytes := [len] },
               type := ty, is_null := some false }],
            ⟨by simp, by simp, by simp, by simp [released], by simp [allocated, List.range'],
              by simp [allocated], by simp [freeCalls, allocated]⟩,
            by simp [describePositions], by simp [bindPositions], by simp [bindPositions],
            by simp⟩

theorem bindOne_returned_of_default (F : Foreign) (v : NamedValue) (stmt : statement)
    (rt : Runtime) (henc : encode v.Value = none) :
    ∃ e, (bindOne F v stmt rt).1 = Flow.returned e := by
  by_cases h : F.ret rt.trace (Event.describe_bind_param (cindex v)) = 0
  · rw [bindOne_describe_failed F v stmt rt h]; exact ⟨_, rfl⟩
  · by_cases hn : v.Value = Value.null
    · rw [bindOne_null F v stmt rt h hn]
      simp only []
      split <;> exact ⟨_, rfl⟩
    · rw [bindOne_default F v stmt rt h hn henc]; exact ⟨_, rfl⟩

theorem freeCalls_append (a b : List BindParam) :
    freeCalls (a ++ b) = freeCalls a ++ freeCalls b := by
  induction a with
  | nil => rfl
  | cons p a ih => simp [freeCalls, ih]

theorem allocated_append (a b : List Event) : allocated (a ++ b) = allocated a ++ allocated b := by
  simp [allocated]

theorem released_append (a b : List Event) : released (a ++ b) = released a ++ released b := by
  simp [released]

theorem describePositions_append (a b : List Event) :
    describePositions (a ++ b) = describePositions a ++ describePositions b := by
  simp [describePositions]

theorem bindPositions_append (a b : List Event) :
    bindPositions (a ++ b) = bindPositions a ++ bindPositions b := by
  simp [bindPositions]

theorem Adds.refl (rt : Runtime) (stmt : statement) : Adds rt stmt stmt rt [] [] :=
  ⟨by simp, by simp, by simp, rfl, rfl, rfl, rfl⟩

theorem Adds.trans {rt r1 r2 : Runtime} {stmt s1 s2 : statement} {e1 e2 : List Event}
    {p1 p2 : List BindParam} (h1 : Adds rt stmt s1 r1 e1 p1) (h2 : Adds r1 s1 s2 r2 e2 p2) :
    Adds rt stmt s2 r2 (e1 ++ e2) (p1 ++ p2) := by
  refine ⟨?_, ?_, ?_, ?_, ?_, ?_, ?_⟩
  · rw [h2.trace, h1.trace, List.append_assoc]
  · rw [h2.params, h1.params, List.append_assoc]
  · intro h
    rcases List.mem_append.mp h with h | h
    · exact h1.noExecute h
    · exact h2.noExecute h
  · rw [released_append, h1.noFree, h2.noFree]; rfl
  · have f1 := h1.fresh
    have f2 := h2.fresh
    rw [h1.nextBlock] at f2
    rw [allocated_append, List.length_append]
    conv_lhs => rw [f1, f2]
    rw [List.range'_append_1, Nat.add_comm]
  · rw [h2.nextBlock, h1.nextBlock, allocated_append, List.length_append, Nat.add_assoc]
  · rw [freeCalls_append, h1.frees, h2.frees, allocated_append, List.map_append]

theorem bindLoop_nil (F : Foreign) (stmt : statement) (rt : Runtime) :
    bindLoop F [] stmt rt = (Flow.next, stmt, rt) := rfl

theorem bindLoop_cons_returned (F : Foreign) (v : NamedValue) (rest : List NamedValue)
    (stmt : statement) (rt : Runtime) (e : Option GoError)
    (h : (bindOne F v stmt rt).1 = Flow.returned e) :
    bindLoop F (v :: rest) stmt rt = bindOne F v stmt rt := by
  rcases hb : bindOne F v stmt rt with ⟨flow, s1, r1⟩
  rw [hb] at h
  simp only at h
  subst h
  simp [bindLoop, hb]

theorem bindLoop_cons_next (F : Foreign) (v : NamedValue) (rest : List NamedValue)
    (stmt : statement) (rt : Runtime) (h : (bindOne F v stmt rt).1 = Flow.next) :
    bindLoop F (v :: rest) stmt rt
      = bindLoop F rest (bindOne F v stmt rt).2.1 (bindOne F v stmt rt).2.2 := by
  rcases hb : bindOne F v stmt rt with ⟨flow, s1, r1⟩
  rw [hb] at h
  simp only at h
  subst h
  simp [bindLoop, hb]

theorem flow_cases (f : Flow) : f = Flow.next ∨ ∃ e, f = Flow.returned e := by
  cases f with
  | returned e => exact Or.inr ⟨e, rfl⟩
  | next => exact Or.inl rfl

/-- What the bind loop adds: the positions described are an initial
segment of the inputs in the order given, and those bound an initial
segment of those described. -/
theorem bindLoop_adds (F : Foreign) (args : List NamedValue) :
    ∀ (stmt : statement) (rt : Runtime),
      ∃ evs ps, Adds rt stmt (bindLoop F args stmt rt).2.1 (bindLoop F args stmt rt).2.2 evs ps ∧
        describePositions evs <+: args.map cindex ∧
        bindPositions evs <+: describePositions evs ∧
        ((bindLoop F args stmt rt).1 = Flow.next →
          describePositions evs = args.map cindex ∧ bindPositions evs = args.map cindex) := by
  induction args with
  | nil =>
    intro stmt rt
    exact ⟨[], [], Adds.refl rt stmt, by simp [describePositions], by simp [bindPositions, describePositions],
      fun _ => ⟨rfl, rfl⟩⟩
  | cons v rest ih =>
    intro stmt rt
    obtain ⟨e1, p1, hadd, hd, hb, hnext, _⟩ := bindOne_adds F v stmt rt
    rcases flow_cases (bindOne F v stmt rt).1 with hf | ⟨e, hf⟩
    · rw [bindLoop_cons_next F v rest stmt rt hf]
      obtain ⟨e2, p2, hadd2, hd2, hb2, hnext2⟩ :=
        ih (bindOne F v stmt rt).2.1 (bindOne F v stmt rt).2.2
      refine ⟨e1 ++ e2, p1 ++ p2, hadd.trans hadd2, ?_, ?_, ?_⟩
      · rw [describePositions_append, hd]
        exact (List.prefix_cons_inj _).mpr hd2
      · rw [describePositions_append, bindPositions_append, hd, hnext hf]
        exact (List.prefix_cons_inj _).mpr hb2
      · intro h
        obtain ⟨h1, h2⟩ := hnext2 h
        rw [describePositions_append, bindPositions_append, hd, hnext hf, h1, h2]
        exact ⟨rfl, rfl⟩
    · rw [bindLoop_cons_returned F v rest stmt rt e hf]
      refine ⟨e1, p1, hadd, ?_, ?_, ?_⟩
      · rw [hd]; simp
      · rw [hd]; exact hb
      · intro h; rw [hf] at h; cases h

theorem exec_of_returned (F : Foreign) (stmt : statement) (rt : Runtime)
    (args : List NamedValue) (e : Option GoError)
    (h : (bindLoop F (stmt.resolveOrdinals args) stmt rt).1 = Flow.returned e) :
    stmt.exec F rt args =
      { err := e,
        stmt := { (bindLoop F (stmt.resolveOrdinals args) stmt rt).2.1 with params := [] },
        rt := { (bindLoop F (stmt.resolveOrdinals args) stmt rt).2.2 with
          trace := (bindLoop F (stmt.resolveOrdinals args) stmt rt).2.2.trace
            ++ freeCalls (bindLoop F (stmt.resolveOrdinals args) stmt rt).2.1.params },
        args := stmt.resolveOrdinals args } := by
  rcases hb : bindLoop F (stmt.resolveOrdinals args) stmt rt with ⟨flow, s1, r1⟩
  rw [hb] at h
  simp only at h
  subst h
  simp [statement.exec, hb, statement.freeParams]

theorem exec_of_next (F : Foreign) (stmt : statement) (rt : Runtime)
    (args : List NamedValue)
    (h : (bindLoop F (stmt.resolveOrdinals args) stmt rt).1 = Flow.next) :
    stmt.exec F rt args =
      if F.ret (bindLoop F (stmt.resolveOrdinals args) stmt rt).2.2.trace Event.execute = 0 then
        { err := (lasterr F "did not exec"
            (call F (bindLoop F (stmt.resolveOrdinals args) stmt rt).2.2 Event.execute).2).1,
          stmt := { (bindLoop F (stmt.resolveOrdinals args) stmt rt).2.1 with params := [] },
          rt := { (lasterr F "did not exec"
              (call F (bindLoop F (stmt.resolveOrdinals args) stmt rt).2.2 Event.execute).2).2 with
            trace := (bindLoop F (stmt.resolveOrdinals args) stmt rt).2.2.trace
              ++ [Event.execute, Event.error, Event.clear_error]
              ++ freeCalls (bindLoop F (stmt.resolveOrdinals args) stmt rt).2.1.params },
          args := stmt.resolveOrdinals args }
      else
        { err := none,
          stmt := { (bindLoop F (stmt.resolveOrdinals args) stmt rt).2.1 with params := [] },
          rt := { (bindLoop F (stmt.resolveOrdinals args) stmt rt).2.2 with
            trace := (bindLoop F (stmt.resolveOrdinals args) stmt rt).2.2.trace
              ++ [Event.execute]
              ++ freeCalls (bindLoop F (stmt.resolveOrdinals args) stmt rt).2.1.params },
          args := stmt.resolveOrdinals args } := by
  rcases hb : bindLoop F (stmt.resolveOrdinals args) stmt rt with ⟨flow, s1, r1⟩
  rw [hb] at h
  simp only at h
  subst h
  by_cases hr : F.ret r1.trace Event.execute = 0
  · simp [statement.exec, hb, statement.freeParams, hr, call, lasterr]
  · simp [statement.exec, hb, statement.freeParams, hr, call]

/-- The calls of one `exec`: those of the bind loop, then those of the
execute step (none when the loop returned), then the frees. -/
theorem execEvents_eq (F : Foreign) (stmt : statement) (rt : Runtime) (args : List NamedValue) :
    ∃ evs ps mid,
      Adds rt stmt (bindLoop F (stmt.resolveOrdinals args) stmt rt).2.1
        (bindLoop F (stmt.resolveOrdinals args) stmt rt).2.2 evs ps ∧
      execEvents F stmt rt args = evs ++ mid ++ freeCalls (stmt.params ++ ps) ∧
      (stmt.exec F rt args).stmt.params = [] ∧
      describePositions evs <+: (stmt.resolveOrdinals args).map cindex ∧
      bindPositions evs <+: describePositions evs ∧
      (mid = [] ∨ mid = [Event.execute] ∨ mid = [Event.execute, Event.error, Event.clear_error]) ∧
      (∀ e, (bindLoop F (stmt.resolveOrdinals args) stmt rt).1 = Flow.returned e →
        mid = [] ∧ (stmt.exec F rt args).err = e) := by
  obtain ⟨evs, ps, hadd, hd, hb, _⟩ := bindLoop_adds F (stmt.resolveOrdinals args) stmt rt
  rcases flow_cases (bindLoop F (stmt.resolveOrdinals args) stmt rt).1 with hf | ⟨e, hf⟩
  · by_cases hr : F.ret (bindLoop F (stmt.resolveOrdinals args) stmt rt).2.2.trace
        Event.execute = 0
    · refine ⟨evs, ps, [Event.execute, Event.error, Event.clear_error], hadd, ?_, ?_, hd, hb,
        Or.inr (Or.inr rfl), ?_⟩
      · rw [execEvents, exec_of_next F stmt rt args hf, if_pos hr]
        simp only []
        rw [hadd.trace, hadd.params]
        simp
      · rw [exec_of_next F stmt rt args hf, if_pos hr]
      · intro e he; rw [hf] at he; cases he
    · refine ⟨evs, ps, [Event.execute], hadd, ?_, ?_, hd, hb, Or.inr (Or.inl rfl), ?_⟩
      · rw [execEvents, exec_of_next F stmt rt args hf, if_neg hr]
        simp only []
        rw [hadd.trace, hadd.params]
        simp
      · rw [exec_of_next F stmt rt args hf, if_neg hr]
      · intro e he; rw [hf] at he; cases he
  · refine ⟨evs, ps, [], hadd, ?_, ?_, hd, hb, Or.inl rfl, ?_⟩
    · rw [execEvents, exec_of_returned F stmt rt args e hf]
      simp only []
      rw [hadd.trace, hadd.params]
      simp
    · rw [exec_of_returned F stmt rt args e hf]
    · intro e2 he
      rw [hf] at he
      cases he
      exact ⟨rfl, by rw [exec_of_returned F stmt rt args e hf]⟩

theorem indexOfArgNameFrom_eq (name : List Char) (l : List (List Char)) :
    ∀ i : Nat, indexOfArgNameFrom name i l
      = if name ∈ l then ((i + l.indexOf name + 1 : Nat) : Int) else -1 := by
  induction l with
  | nil => intro i; simp [indexOfArgNameFrom]
  | cons a l ih =>
    intro i
    by_cases h : a = name
    · subst h
      simp [indexOfArgNameFrom, List.indexOf_cons]
    · have h2 : ¬ name = a := fun e => h e.symm
      have h3 : (a == name) = false := by simpa using h
      simp only [indexOfArgNameFrom, h3, List.indexOf_cons, List.mem_cons, h2, false_or,
        Bool.false_eq_true, if_false, cond_false]
      rw [ih (i + 1)]
      by_cases hm : name ∈ l
      · simp only [hm, if_true]; congr 1; omega
      · simp [hm]

theorem indexOf_length_pos_of_mem {name : List Char} {l : List (List Char)} (h : name ∈ l) :
    0 < l.length := by
  cases l with
  | nil => simp at h
  | cons a l => simp

theorem resolveOrdinals_append (stmt : statement) (a b : List NamedValue) :
    stmt.resolveOrdinals (a ++ b) = stmt.resolveOrdinals a ++ stmt.resolveOrdinals b := by
  unfold statement.resolveOrdinals
  split <;> simp

theorem wrapInt64_eq (z : Int) (h1 : -2 ^ 63 ≤ z) (h2 : z < 2 ^ 63) : wrapInt64 z = z := by
  unfold wrapInt64
  norm_num at h1 h2 ⊢
  omega

theorem bindOne_next_of_ok (F : Foreign) (hF : F.bindsSucceed) (v : NamedValue)
    (stmt : statement) (rt : Runtime) (h : (encode v.Value).isSome = true) :
    (bindOne F v stmt rt).1 = Flow.next := by
  obtain ⟨⟨ty, len, payload⟩, henc⟩ := Option.isSome_iff_exists.mp h
  rw [bindOne_supported F v stmt rt (hF rt.trace (cindex v)).1 ty len payload henc]
  simp only []
  rw [if_neg ((hF _ (cindex v)).2 _)]

theorem bindLoop_next_of_ok (F : Foreign) (hF : F.bindsSucceed) (args : List NamedValue) :
    ∀ (stmt : statement) (rt : Runtime), (∀ v ∈ args, (encode v.Value).isSome = true) →
      (bindLoop F args stmt rt).1 = Flow.next := by
  induction args with
  | nil => intro _ _ _; rfl
  | cons v rest ih =>
    intro stmt rt h
    rw [bindLoop_cons_next F v rest stmt rt
      (bindOne_next_of_ok F hF v stmt rt (h v (List.mem_cons_self _ _)))]
    exact ih _ _ (fun w hw => h w (List.mem_cons_of_mem _ hw))

theorem resolveOrdinals_map (stmt : statement) (args : List NamedValue) :
    stmt.resolveOrdinals args
      = args.map (fun v => { v with Ordinal := effectiveOrdinal stmt.args v }) := by
  unfold statement.resolveOrdinals
  by_cases hlen : stmt.args.length > 0
  · rw [if_pos hlen]
    refine List.map_congr_left (fun v _ => ?_)
    obtain ⟨name, ord, val⟩ := v
    by_cases hn : name = []
    · simp [hn, effectiveOrdinal]
    · have hn2 : (name != []) = true := by simpa using hn
      simp only [hn2, if_true, statement.indexOfArgName, indexOfArgNameFrom_eq]
      by_cases hm : name ∈ stmt.args
      · have hpos : ((0 + stmt.args.indexOf name + 1 : Nat) : Int) > 0 := by omega
        simp only [hm, if_true, hpos, effectiveOrdinal, hn, ne_eq, not_false_eq_true, and_self]
        congr 1
        omega
      · simp [hm, effectiveOrdinal]
  · rw [if_neg hlen]
    have hnil : stmt.args = [] := by
      cases hs : stmt.args with
      | nil => rfl
      | cons a l => rw [hs] at hlen; simp at hlen
    have : ∀ v : NamedValue, ({ v with Ordinal := effectiveOrdinal stmt.args v } : NamedValue)
        = v := by
      intro v
      obtain ⟨name, ord, val⟩ := v
      simp [effectiveOrdinal, hnil]
    simp [this]

theorem encode_resolveOrdinals (stmt : statement) (args : List NamedValue)
    (h : ∀ v ∈ args, (encode v.Value).isSome = true) :
    ∀ v ∈ stmt.resolveOrdinals args, (encode v.Value).isSome = true := by
  rw [resolveOrdinals_map]
  intro v hv
  obtain ⟨w, hw, rfl⟩ := List.mem_map.mp hv
  exact h w hw

theorem positions_freeCalls (ps : List BindParam) :
    describePositions (freeCalls ps) = [] ∧ bindPositions (freeCalls ps) = [] ∧
    allocated (freeCalls ps) = [] ∧ Event.execute ∉ freeCalls ps := by
  induction ps with
  | nil => simp [freeCalls, describePositions, bindPositions, allocated]
  | cons p ps ih =>
    obtain ⟨h1, h2, h3, h4⟩ := ih
    simp only [freeCalls, describePositions_append, bindPositions_append, allocated_append,
      h1, h2, h3]
    cases p.length <;> cases p.buffer <;>
      simp [describePositions, bindPositions, allocated, h4]

theorem positions_mid (mid : List Event)
    (h : mid = [] ∨ mid = [Event.execute] ∨
      mid = [Event.execute, Event.error, Event.clear_error]) :
    describePositions mid = [] ∧ bindPositions mid = [] ∧ allocated mid = [] ∧
    released mid = [] := by
  rcases h with h | h | h <;> subst h <;>
    simp [describePositions, bindPositions, allocated, released]

theorem released_map_free (l : List Nat) : released (l.map Event.free) = l := by
  induction l with
  | nil => rfl
  | cons a l ih => simp [released] at ih ⊢; exact ih

theorem succeeding_bindsSucceed : Foreign.succeeding.bindsSucceed := by
  intro tr i
  exact ⟨by simp [Foreign.succeeding], fun p => by simp [Foreign.succeeding]⟩

/-- With bindable values only and every describe and bind call
succeeding, `exec` binds every input once, in the order given, then
invokes execute once, and returns nil when execute succeeds and what
`lasterr` gives when it fails. -/
theorem exec_binds_all_then_executes (F : Foreign) (hF : F.bindsSucceed) (stmt : statement)
    (rt : Runtime) (args : List NamedValue)
    (hall : ∀ v ∈ args, (encode v.Value).isSome = true) :
    bindPositions (execEvents F stmt rt args) = (stmt.resolveOrdinals args).map cindex ∧
    (execEvents F stmt rt args).count Event.execute = 1 ∧
    (stmt.exec F rt args).err =
      if F.ret (bindLoop F (stmt.resolveOrdinals args) stmt rt).2.2.trace Event.execute = 0
      then (lasterr F "did not exec"
        (call F (bindLoop F (stmt.resolveOrdinals args) stmt rt).2.2 Event.execute).2).1
      else none := by
  have hnext := bindLoop_next_of_ok F hF (stmt.resolveOrdinals args) stmt rt
    (encode_resolveOrdinals stmt args hall)
  obtain ⟨evs, ps, hadd, _, _, hfull⟩ := bindLoop_adds F (stmt.resolveOrdinals args) stmt rt
  obtain ⟨_, f2, _, f4⟩ := positions_freeCalls
    (bindLoop F (stmt.resolveOrdinals args) stmt rt).2.1.params
  have c1 : evs.count Event.execute = 0 := List.count_eq_zero.mpr hadd.noExecute
  have c2 : (freeCalls (bindLoop F (stmt.resolveOrdinals args) stmt rt).2.1.params).count
      Event.execute = 0 := List.count_eq_zero.mpr f4
  by_cases hr : F.ret (bindLoop F (stmt.resolveOrdinals args) stmt rt).2.2.trace
      Event.execute = 0
  · have hev : execEvents F stmt rt args = evs ++ [Event.execute, Event.error, Event.clear_error]
        ++ freeCalls (bindLoop F (stmt.resolveOrdinals args) stmt rt).2.1.params := by
      rw [execEvents, exec_of_next F stmt rt args hnext, if_pos hr]
      simp only []
      rw [hadd.trace]
      simp
    refine ⟨?_, ?_, ?_⟩
    · rw [hev, bindPositions_append, bindPositions_append, f2, (hfull hnext).2]
      simp [bindPositions]
    · rw [hev, List.count_append, List.count_append, c1, c2]
      decide
    · rw [exec_of_next F stmt rt args hnext, if_pos hr, if_pos hr]
  · have hev : execEvents F stmt rt args = evs ++ [Event.execute]
        ++ freeCalls (bindLoop F (stmt.resolveOrdinals args) stmt rt).2.1.params := by
      rw [execEvents, exec_of_next F stmt rt args hnext, if_neg hr]
      simp only []
      rw [hadd.trace]
      simp
    refine ⟨?_, ?_, ?_⟩
    · rw [hev, bindPositions_append, bindPositions_append, f2, (hfull hnext).2]
      simp [bindPositions]
    · rw [hev, List.count_append, List.count_append, c1, c2]
      decide
    · rw [exec_of_next F stmt rt args hnext, if_neg hr, if_neg hr]

/-! ## Properties of the rewriter -/

/-- C1, as stated, does not hold: the text `? :a` already holds a `?`
of its own. `splitNamed` gives `? ?` with the one name `a`, so the first
`?` of the output is the literal one; substituting by position puts the
value there and gives `:a ?`, while substituting the recognised token in
place gives `? :a`. -/
theorem substitution_fails_with_literal_placeholder :
    splitNamed "? :a".toList = ("? ?".toList, ["a".toList]) ∧
    substitutePlaceholders (fun n => param :: n)
        (splitNamed "? :a".toList).1 (splitNamed "? :a".toList).2 = ":a ?".toList ∧
    substituteNamed (fun n => param :: n) "? :a".toList = "? :a".toList ∧
    substitutePlaceholders (fun n => param :: n)
        (splitNamed "? :a".toList).1 (splitNamed "? :a".toList).2
      ≠ substituteNamed (fun n => param :: n) "? :a".toList := by
  decide

/-- C1, amended: for every SQL text `s` that holds no `?` and every
assignment `v` of replacement texts to names, replacing the i-th `?` of
the rewritten text by `v` of the i-th returned name gives the same text
as replacing each recognised `:name` token of `s` in place by `v name`;
with `v n` the marker followed by `n` this text is `s` itself. -/
theorem substitution_agrees (s : List Char) (v : List Char → List Char)
    (h : placeholder ∉ s) :
    substitutePlaceholders v (splitNamed s).1 (splitNamed s).2 = substituteNamed v s ∧
    substitutePlaceholders (fun n => param :: n) (splitNamed s).1 (splitNamed s).2 = s := by
  have hl : ∀ c, Tok.lit c ∈ tokensOf s → c ≠ placeholder := by
    intro c hc hcp
    have := lit_mem_tokText _ hc
    rw [tokText_tokensOf, hcp] at this
    exact h this
  rw [splitNamed_eq]
  refine ⟨?_, ?_⟩
  · rw [substitutePlaceholders_render v _ hl, substituteNamed_eq]
  · rw [substitutePlaceholders_render _ _ hl, render_marker, tokText_tokensOf]

theorem substitution_agrees_witness :
    placeholder ∉ "a = :n\nand b = ':n' or c = :n:m".toList ∧
    substitutePlaceholders (fun n => n ++ n)
        (splitNamed "a = :n\nand b = ':n' or c = :n:m".toList).1
        (splitNamed "a = :n\nand b = ':n' or c = :n:m".toList).2
      = substituteNamed (fun n => n ++ n) "a = :n\nand b = ':n' or c = :n:m".toList :=
  ⟨by decide, (substitution_agrees _ _ (by decide)).1⟩

/-- C2: a single-quoted literal is copied verbatim and contributes no
name. For `p` without a single quote and not ending in a backslash, a
`body` that does not begin with a single quote, does not end in a
backslash and in which every single quote directly follows a backslash,
and any text `t`, rewriting `p ' body ' t` gives the rewriting of `p`,
the literal unchanged, then the rewriting of `t`, and the names of `p`
followed by those of `t`. -/
theorem quoted_literal_verbatim (p body t : List Char)
    (hp : quote ∉ p) (hpe : p.getLast? ≠ some escape)
    (hb0 : body.head? ≠ some quote) (hbe : body.getLast? ≠ some escape)
    (hbq : ∀ i, i < body.length → body[i + 1]? = some quote → body[i]? = some escape) :
    splitNamed (p ++ [quote] ++ body ++ [quote] ++ t)
      = ((splitNamed p).1 ++ [quote] ++ body ++ [quote] ++ (splitNamed t).1,
         (splitNamed p).2 ++ (splitNamed t).2) := by
  have hch : body.Chain' (fun a b => b = quote → a = escape) := by
    refine chain'_of_index _ body (fun i a b ha hb hq => ?_)
    have hi : i < body.length := by
      by_contra hge
      rw [List.getElem?_eq_none (Nat.le_of_not_lt hge)] at ha
      cases ha
    have := hbq i hi (by rw [hb, hq])
    rw [ha] at this
    exact Option.some.inj this
  simp only [splitNamed_eq, tokensOf_quoted_literal p body t hp hpe hb0 hbe hch]
  have e : ∀ (a b : List Tok), a ++ Tok.lit quote :: (body.map Tok.lit ++ Tok.lit quote :: b)
      = a ++ ([Tok.lit quote] ++ (body.map Tok.lit ++ ([Tok.lit quote] ++ b))) := by
    intro a b; simp
  rw [e]
  simp only [render_append, tokNames_append, render_lits, tokNames_lits]
  simp [render, tokNames]

theorem quoted_literal_verbatim_witness :
    (quote ∉ "name = :name and c = ".toList ∧
     "name = :name and c = ".toList.getLast? ≠ some escape ∧
     "o\\'rielly\n:xxx".toList.head? ≠ some quote ∧
     "o\\'rielly\n:xxx".toList.getLast? ≠ some escape ∧
     (∀ i, i < "o\\'rielly\n:xxx".toList.length →
        "o\\'rielly\n:xxx".toList[i + 1]? = some quote →
        "o\\'rielly\n:xxx".toList[i]? = some escape)) ∧
    splitNamed ("name = :name and c = ".toList ++ [quote] ++ "o\\'rielly\n:xxx".toList
        ++ [quote] ++ " and age = :age".toList)
      = ((splitNamed "name = :name and c = ".toList).1 ++ [quote] ++ "o\\'rielly\n:xxx".toList
          ++ [quote] ++ (splitNamed " and age = :age".toList).1,
         (splitNamed "name = :name and c = ".toList).2
          ++ (splitNamed " and age = :age".toList).2) :=
  ⟨by decide,
   quoted_literal_verbatim "name = :name and c = ".toList "o\\'rielly\n:xxx".toList
     " and age = :age".toList (by decide) (by decide) (by decide) (by decide) (by decide)⟩

/-- C3: for `p` without marker and without single quote, a non-empty name
`n` of identifier runes and a text `r` that is empty or begins with a
non-identifier rune, rewriting `p : n r` gives `p`, one placeholder and
the rewriting of `r`, with `n` in front of the names of `r`: the
parameter ends exactly at the first non-identifier rune or at the end of
the input. -/
theorem parameter_bounds (p n r : List Char)
    (hp1 : param ∉ p) (hp2 : quote ∉ p) (hn : n ≠ [])
    (hall : ∀ c ∈ n, isArg c = true) (hr : ∀ d ∈ r.head?, isArg d = false) :
    splitNamed (p ++ [param] ++ n ++ r)
      = (p ++ [placeholder] ++ (splitNamed r).1, n :: (splitNamed r).2) := by
  simp only [splitNamed_eq, tokensOf_param p n r hp1 hp2 hn hall hr]
  have e : ∀ (b : List Tok), p.map Tok.lit ++ Tok.name n :: b
      = p.map Tok.lit ++ ([Tok.name n] ++ b) := by
    intro b; simp
  rw [e]
  simp only [render_append, tokNames_append, render_lits, tokNames_lits]
  simp [render, tokNames]

theorem parameter_bounds_witness :
    (param ∉ ([] : List Char) ∧ quote ∉ ([] : List Char) ∧ "name".toList ≠ [] ∧
     (∀ c ∈ "name".toList, isArg c = true) ∧ (∀ d ∈ ":age".toList.head?, isArg d = false)) ∧
    splitNamed ([] ++ [param] ++ "name".toList ++ ":age".toList)
      = ([] ++ [placeholder] ++ (splitNamed ":age".toList).1,
         "name".toList :: (splitNamed ":age".toList).2) ∧
    splitNamed ":name:age".toList = ("??".toList, ["name".toList, "age".toList]) :=
  ⟨by decide,
   parameter_bounds [] "name".toList ":age".toList (by decide) (by decide) (by decide)
     (by decide) (by decide),
   by decide⟩

/-- C4: a text in which every marker is the last rune or is directly
followed by a rune that is not an ASCII letter, digit or underscore, in
particular a text without marker, is returned unchanged with an empty
name list. -/
theorem no_marker_unchanged (s : List Char)
    (h : ∀ i, i < s.length → s[i]? = some param → ∀ d ∈ s[i + 1]?, isArg d = false) :
    splitNamed s = (s, []) := by
  have h : s.Chain' (fun a b => a = param → isArg b = false) := by
    refine chain'_of_index _ s (fun i a b ha hb hp => ?_)
    have hi : i < s.length := by
      by_contra hge
      rw [List.getElem?_eq_none (Nat.le_of_not_lt hge)] at ha
      cases ha
    exact h i hi (by rw [ha, hp]) b hb
  rw [splitNamed_eq]
  unfold tokensOf
  rw [tokens_no_marker s false zeroRune h, render_lits, tokNames_lits]

theorem no_marker_unchanged_witness :
    (∀ i, i < "select 'it' from k where name = : x or y = :".toList.length →
      "select 'it' from k where name = : x or y = :".toList[i]? = some param →
      ∀ d ∈ "select 'it' from k where name = : x or y = :".toList[i + 1]?,
        isArg d = false) ∧
    splitNamed "select 'it' from k where name = : x or y = :".toList
      = ("select 'it' from k where name = : x or y = :".toList, []) :=
  ⟨by decide, no_marker_unchanged _ (by decide)⟩

/-- C5: for every list of non-empty identifier names, repetitions
allowed, rewriting the text made of a blank and the marked name for each
name in turn gives a blank and a placeholder for each name, and exactly
the list of names: in order of appearance, duplicates kept. -/
theorem names_in_order_with_duplicates (ns : List (List Char))
    (h : ∀ n ∈ ns, n ≠ [] ∧ ∀ c ∈ n, isArg c = true) :
    splitNamed (ns.map (fun n => ' ' :: param :: n)).flatten
      = ((ns.map (fun _ => [' ', placeholder])).flatten, ns) := by
  have ht := tokens_markedNames ns h zeroRune
  rw [splitNamed_eq]
  unfold tokensOf
  rw [markedNames] at ht
  rw [ht]
  clear ht h
  induction ns with
  | nil => rfl
  | cons n ns ih =>
    rw [Prod.mk.injEq] at ih ⊢
    simp only [List.map_cons, List.flatten_cons, render_append, tokNames_append, ih.1, ih.2]
    simp [render, tokNames]

theorem names_in_order_with_duplicates_witness :
    (∀ n ∈ ["name".toList, "age_5".toList, "name".toList],
        n ≠ [] ∧ ∀ c ∈ n, isArg c = true) ∧
    splitNamed
        (["name".toList, "age_5".toList, "name".toList].map
          (fun n => ' ' :: param :: n)).flatten
      = ((["name".toList, "age_5".toList, "name".toList].map
            (fun _ => [' ', placeholder])).flatten,
         ["name".toList, "age_5".toList, "name".toList]) :=
  ⟨by decide, names_in_order_with_duplicates _ (by decide)⟩

/-! ## Properties of exec -/

/-- C6: the resolution step of `exec` gives every input with a non-empty
name that occurs among the statement's parameter names the ordinal one
plus the index of the first occurrence of that name, leaves the ordinal
of every other input as supplied by the caller, and changes no name and
no value; `exec` goes on with the inputs so resolved. -/
theorem ordinals_resolved_to_first_match (F : Foreign) (stmt : statement) (rt : Runtime)
    (args : List NamedValue) :
    stmt.resolveOrdinals args
        = args.map (fun v =>
            if v.Name ≠ [] ∧ v.Name ∈ stmt.args
              then { v with Ordinal := 1 + ((stmt.args.indexOf v.Name : Nat) : Int) }
              else v) ∧
    (stmt.resolveOrdinals args).map (fun v => (v.Name, v.Value))
        = args.map (fun v => (v.Name, v.Value)) ∧
    (stmt.exec F rt args).args = stmt.resolveOrdinals args := by
  refine ⟨?_, ?_, rfl⟩
  · rw [resolveOrdinals_map]
    refine List.map_congr_left (fun v _ => ?_)
    obtain ⟨name, ord, val⟩ := v
    by_cases h : name ≠ [] ∧ name ∈ stmt.args
    · rw [effectiveOrdinal, if_pos h, if_pos h]
    · rw [effectiveOrdinal, if_neg h, if_neg h]
  · rw [resolveOrdinals_map]
    simp [Function.comp_def]

set_option maxRecDepth 20000 in
/-- C7, as stated, does not hold: for the statement of
`TestQueryNamedParam`, whose names are name, age, and the inputs given as
age, name, `exec` describes and binds position 1 first and position 0
second; the positions are not in ascending order. -/
theorem positions_not_ascending :
    describePositions (execEvents Foreign.succeeding personStatement Runtime.initial
        [{ Name := "age".toList, Ordinal := 1, Value := Value.int64 33 },
         { Name := "name".toList, Ordinal := 2,
           Value := Value.string "Edmund Hillary".toList }]) = [1, 0] ∧
    bindPositions (execEvents Foreign.succeeding personStatement Runtime.initial
        [{ Name := "age".toList, Ordinal := 1, Value := Value.int64 33 },
         { Name := "name".toList, Ordinal := 2,
           Value := Value.string "Edmund Hillary".toList }]) = [1, 0] ∧
    ¬ List.Pairwise (fun a b => a < b)
      (describePositions (execEvents Foreign.succeeding personStatement Runtime.initial
        [{ Name := "age".toList, Ordinal := 1, Value := Value.int64 33 },
         { Name := "name".toList, Ordinal := 2,
           Value := Value.string "Edmund Hillary".toList }])) := by
  decide

/-- C7, amended: `exec` passes the parameter positions to the foreign
describe and bind primitives in the order in which the caller supplied
the inputs, each position being the input's effective ordinal minus one
as a 32-bit unsigned number. The positions described are an initial
segment of the inputs' positions in caller order, the positions bound an
initial segment of those described; when all describe and bind calls
succeed and every value is of a bindable kind, both are the whole list. -/
theorem positions_in_caller_order (F : Foreign) (stmt : statement) (rt : Runtime)
    (args : List NamedValue) :
    describePositions (execEvents F stmt rt args) <+: (stmt.resolveOrdinals args).map cindex ∧
    bindPositions (execEvents F stmt rt args) <+: describePositions (execEvents F stmt rt args) ∧
    (F.bindsSucceed → (∀ v ∈ args, (encode v.Value).isSome = true) →
      describePositions (execEvents F stmt rt args) = (stmt.resolveOrdinals args).map cindex ∧
      bindPositions (execEvents F stmt rt args) = (stmt.resolveOrdinals args).map cindex) := by
  obtain ⟨evs, ps, mid, hadd, hev, _, hd, hb, hmid, _⟩ := execEvents_eq F stmt rt args
  obtain ⟨m1, m2, _, _⟩ := positions_mid mid hmid
  obtain ⟨f1, f2, _, _⟩ := positions_freeCalls (stmt.params ++ ps)
  have e1 : describePositions (execEvents F stmt rt args) = describePositions evs := by
    rw [hev, describePositions_append, describePositions_append, m1, f1]; simp
  have e2 : bindPositions (execEvents F stmt rt args) = bindPositions evs := by
    rw [hev, bindPositions_append, bindPositions_append, m2, f2]; simp
  rw [e1, e2]
  refine ⟨hd, hb, fun hF hall => ?_⟩
  have hnext := bindLoop_next_of_ok F hF (stmt.resolveOrdinals args) stmt rt
    (encode_resolveOrdinals stmt args hall)
  obtain ⟨evs2, ps2, hadd2, _, _, hfull⟩ := bindLoop_adds F (stmt.resolveOrdinals args) stmt rt
  have : evs2 = evs := List.append_cancel_left (hadd2.trace.symm.trans hadd.trace)
  subst this
  exact hfull hnext

set_option maxRecDepth 20000 in
theorem positions_in_caller_order_witness :
    (Foreign.succeeding.bindsSucceed ∧
     ∀ v ∈ [({ Name := "age".toList, Ordinal := 1, Value := Value.int64 33 } : NamedValue),
            { Name := "name".toList, Ordinal := 2,
              Value := Value.string "Edmund Hillary".toList }],
       (encode v.Value).isSome = true) ∧
    describePositions (execEvents Foreign.succeeding personStatement Runtime.initial
        [{ Name := "age".toList, Ordinal := 1, Value := Value.int64 33 },
         { Name := "name".toList, Ordinal := 2,
           Value := Value.string "Edmund Hillary".toList }])
      = (personStatement.resolveOrdinals
        [{ Name := "age".toList, Ordinal := 1, Value := Value.int64 33 },
         { Name := "name".toList, Ordinal := 2,
           Value := Value.string "Edmund Hillary".toList }]).map cindex :=
  ⟨⟨succeeding_bindsSucceed, by decide⟩,
   ((positions_in_caller_order Foreign.succeeding personStatement Runtime.initial _).2.2
      succeeding_bindsSucceed (by decide)).1⟩

set_option maxRecDepth 20000 in
/-- C8, at the failing input: with a null first input and an integer
second, and a client library all of whose calls succeed, `exec` returns
nil after binding the null; the second input is neither described nor
bound and the foreign execute is never invoked. -/
theorem null_input_returns_before_execute :
    (personStatement.exec Foreign.succeeding Runtime.initial
        [{ Name := [], Ordinal := 1, Value := Value.null },
         { Name := [], Ordinal := 2, Value := Value.int64 7 }]).err = none ∧
    execEvents Foreign.succeeding personStatement Runtime.initial
        [{ Name := [], Ordinal := 1, Value := Value.null },
         { Name := [], Ordinal := 2, Value := Value.int64 7 }]
      = [Event.describe_bind_param 0,
         Event.bind_param 0 { BindParam.new with is_null := some true }] ∧
    Event.execute ∉ execEvents Foreign.succeeding personStatement Runtime.initial
        [{ Name := [], Ordinal := 1, Value := Value.null },
         { Name := [], Ordinal := 2, Value := Value.int64 7 }] := by
  decide

/-- The bind loop over inputs that hold a value of no bindable kind
after `pre`: it returns at that input at the latest, binds at most the
inputs of `pre`, and with every call succeeding and `pre` bindable it
returns the no-binding error for that input. -/
theorem bindLoop_default (F : Foreign) (x : NamedValue) (post : List NamedValue)
    (henc : encode x.Value = none) (hnn : x.Value ≠ Value.null) (pre : List NamedValue) :
    ∀ (stmt : statement) (rt : Runtime),
      ∃ evs ps e,
        Adds rt stmt (bindLoop F (pre ++ x :: post) stmt rt).2.1
          (bindLoop F (pre ++ x :: post) stmt rt).2.2 evs ps ∧
        (bindLoop F (pre ++ x :: post) stmt rt).1 = Flow.returned e ∧
        (bindPositions evs).length ≤ pre.length ∧
        (F.bindsSucceed → (∀ v ∈ pre, (encode v.Value).isSome = true) →
          e = some (GoError.noBinding (paramIndex x) x.Value.typeName) ∧
          bindPositions evs = pre.map cindex) := by
  induction pre with
  | nil =>
    intro stmt rt
    obtain ⟨e, he⟩ := bindOne_returned_of_default F x stmt rt henc
    obtain ⟨evs, ps, hadd, _, _, _, hb⟩ := bindOne_adds F x stmt rt
    rw [List.nil_append, bindLoop_cons_returned F x post stmt rt e he]
    refine ⟨evs, ps, e, hadd, he, by rw [hb henc hnn]; simp, fun hF _ => ?_⟩
    refine ⟨?_, by rw [hb henc hnn]; rfl⟩
    rw [bindOne_default F x stmt rt (hF rt.trace (cindex x)).1 hnn henc] at he
    simp only [Flow.returned.injEq] at he
    exact he.symm
  | cons v pre ih =>
    intro stmt rt
    obtain ⟨e1, p1, hadd, _, hb1, hnext, _⟩ := bindOne_adds F v stmt rt
    have hlen1 : (bindPositions e1).length ≤ 1 := by
      simpa using hb1.length_le
    rcases flow_cases (bindOne F v stmt rt).1 with hf | ⟨e, hf⟩
    · rw [List.cons_append, bindLoop_cons_next F v _ stmt rt hf]
      obtain ⟨e2, p2, e, hadd2, hret, hlen2, hok⟩ :=
        ih (bindOne F v stmt rt).2.1 (bindOne F v stmt rt).2.2
      refine ⟨e1 ++ e2, p1 ++ p2, e, hadd.trans hadd2, hret, ?_, fun hF hall => ?_⟩
      · rw [bindPositions_append, List.length_append, List.length_cons]; omega
      · obtain ⟨h1, h2⟩ := hok hF (fun w hw => hall w (List.mem_cons_of_mem _ hw))
        refine ⟨h1, ?_⟩
        rw [bindPositions_append, hnext hf, h2]; rfl
    · rw [List.cons_append, bindLoop_cons_returned F v _ stmt rt e hf]
      refine ⟨e1, p1, e, hadd, hf, by rw [List.length_cons]; omega, fun hF hall => ?_⟩
      have := bindOne_next_of_ok F hF v stmt rt (hall v (List.mem_cons_self _ _))
      rw [hf] at this
      cases this

set_option maxRecDepth 20000 in
/-- C9, as stated, does not hold: for one input with ordinal 1 whose
value is of an unsupported type, the error `exec` returns names the
index 0, which is the ordinal minus one, not the effective ordinal 1. -/
theorem unsupported_error_names_index :
    (personStatement.resolveOrdinals
        [{ Name := [], Ordinal := 1, Value := Value.other "chan int" }]).map
        (fun v => v.Ordinal) = [1] ∧
    (personStatement.exec Foreign.succeeding Runtime.initial
        [{ Name := [], Ordinal := 1, Value := Value.other "chan int" }]).err
      = some (GoError.noBinding 0 "chan int") ∧
    noBindingText 0 "chan int"
      = "did not create param at index 0: no binding for value type: chan int" ∧
    (personStatement.exec Foreign.succeeding Runtime.initial
        [{ Name := [], Ordinal := 1, Value := Value.other "chan int" }]).err
      ≠ some (GoError.noBinding 1 "chan int") := by
  decide

/-- C9, amended: when an input holds a value that is not null, boolean,
int64, float64, string, byte slice or timestamp, `exec` never invokes
execute and binds at most the inputs supplied before it. When moreover
the inputs before it are all of bindable kinds and all describe and bind
calls succeed, `exec` fails with the error that names the index of that
input, which is its effective ordinal minus one, and the runtime type
of the value, having bound exactly the inputs before it. -/
theorem unsupported_value_fails (F : Foreign) (stmt : statement) (rt : Runtime)
    (pre post : List NamedValue) (x : NamedValue) (T : String)
    (hx : x.Value = Value.other T) :
    Event.execute ∉ execEvents F stmt rt (pre ++ x :: post) ∧
    (bindPositions (execEvents F stmt rt (pre ++ x :: post))).length ≤ pre.length ∧
    (F.bindsSucceed → (∀ v ∈ pre, (encode v.Value).isSome = true) →
      (stmt.exec F rt (pre ++ x :: post)).err
        = some (GoError.noBinding (wrapInt64 (effectiveOrdinal stmt.args x - 1)) T) ∧
      bindPositions (execEvents F stmt rt (pre ++ x :: post))
        = (stmt.resolveOrdinals pre).map cindex) ∧
    (-2 ^ 63 < effectiveOrdinal stmt.args x → effectiveOrdinal stmt.args x ≤ 2 ^ 63 →
      wrapInt64 (effectiveOrdinal stmt.args x - 1) = effectiveOrdinal stmt.args x - 1) := by
  have hres : stmt.resolveOrdinals (pre ++ x :: post)
      = stmt.resolveOrdinals pre
        ++ { x with Ordinal := effectiveOrdinal stmt.args x } :: stmt.resolveOrdinals post := by
    simp [resolveOrdinals_map]
  have henc : encode ({ x with Ordinal := effectiveOrdinal stmt.args x } : NamedValue).Value
      = none := by simp [hx, encode]
  have hnn : ({ x with Ordinal := effectiveOrdinal stmt.args x } : NamedValue).Value
      ≠ Value.null := by simp [hx]
  obtain ⟨evs, ps, e, hadd, hret, hlen, hok⟩ :=
    bindLoop_default F _ (stmt.resolveOrdinals post) henc hnn (stmt.resolveOrdinals pre) stmt rt
  rw [← hres] at hadd hret
  obtain ⟨f1, f2, f3, f4⟩ := positions_freeCalls
    (bindLoop F (stmt.resolveOrdinals (pre ++ x :: post)) stmt rt).2.1.params
  have hev : execEvents F stmt rt (pre ++ x :: post)
      = evs ++ freeCalls (bindLoop F (stmt.resolveOrdinals (pre ++ x :: post)) stmt rt).2.1.params := by
    rw [execEvents, exec_of_returned F stmt rt _ e hret]
    simp only []
    rw [hadd.trace]
    simp
  have hb : bindPositions (execEvents F stmt rt (pre ++ x :: post)) = bindPositions evs := by
    rw [hev, bindPositions_append, f2]; simp
  have hlenpre : (stmt.resolveOrdinals pre).length = pre.length := by
    simp [resolveOrdinals_map]
  refine ⟨?_, ?_, fun hF hall => ?_, fun h1 h2 => ?_⟩
  · rw [hev]
    intro h
    rcases List.mem_append.mp h with h | h
    · exact hadd.noExecute h
    · exact f4 h
  · rw [hb, ← hlenpre]; exact hlen
  · obtain ⟨he, hbp⟩ := hok hF (encode_resolveOrdinals stmt pre hall)
    refine ⟨?_, by rw [hb, hbp]⟩
    rw [exec_of_returned F stmt rt _ e hret, he]
    simp [paramIndex, hx, Value.typeName]
  · exact wrapInt64_eq _ (by omega) (by omega)

set_option maxRecDepth 20000 in
theorem unsupported_value_fails_witness :
    (({ Name := [], Ordinal := 2, Value := Value.other "chan int" } : NamedValue).Value
        = Value.other "chan int" ∧
     Foreign.succeeding.bindsSucceed ∧
     ∀ v ∈ [({ Name := [], Ordinal := 1, Value := Value.bool true } : NamedValue)],
       (encode v.Value).isSome = true) ∧
    (personStatement.exec Foreign.succeeding Runtime.initial
        ([{ Name := [], Ordinal := 1, Value := Value.bool true }]
          ++ { Name := [], Ordinal := 2, Value := Value.other "chan int" } :: [])).err
      = some (GoError.noBinding
          (wrapInt64 (effectiveOrdinal personStatement.args
            { Name := [], Ordinal := 2, Value := Value.other "chan int" } - 1)) "chan int") :=
  ⟨⟨rfl, succeeding_bindsSucceed, by decide⟩,
   ((unsupported_value_fails Foreign.succeeding personStatement Runtime.initial
      [{ Name := [], Ordinal := 1, Value := Value.bool true }] []
      { Name := [], Ordinal := 2, Value := Value.other "chan int" } "chan int" rfl).2.2.1
      succeeding_bindsSucceed (by decide)).1⟩

/-- C10: when `exec` returns, whatever the outcome, the blocks released
are exactly the blocks allocated during that `exec`, each allocated
block is released exactly once, and the statement tracks no bound
parameter any more. -/
theorem buffers_released_once (F : Foreign) (stmt : statement) (rt : Runtime)
    (args : List NamedValue) (h : stmt.params = []) :
    released (execEvents F stmt rt args) = allocated (execEvents F stmt rt args) ∧
    (allocated (execEvents F stmt rt args)).Nodup ∧
    (∀ b ∈ allocated (execEvents F stmt rt args),
      (released (execEvents F stmt rt args)).count b = 1) ∧
    (stmt.exec F rt args).stmt.params = [] := by
  obtain ⟨evs, ps, mid, hadd, hev, hparams, _, _, hmid, _⟩ := execEvents_eq F stmt rt args
  obtain ⟨_, _, m3, m4⟩ := positions_mid mid hmid
  obtain ⟨_, _, f3, _⟩ := positions_freeCalls (stmt.params ++ ps)
  have hfree : freeCalls (stmt.params ++ ps) = (allocated evs).map Event.free := by
    rw [h, List.nil_append, hadd.frees]
  have ha : allocated (execEvents F stmt rt args) = allocated evs := by
    rw [hev, allocated_append, allocated_append, m3, f3]; simp
  have hr : released (execEvents F stmt rt args) = allocated evs := by
    rw [hev, released_append, released_append, m4, hadd.noFree, hfree, released_map_free]
    simp
  have hnd : (allocated evs).Nodup := by
    rw [hadd.fresh]; exact List.nodup_range' _ _
  rw [ha, hr]
  exact ⟨rfl, hnd, fun b hb => List.count_eq_one_of_mem hnd hb, hparams⟩

set_option maxRecDepth 20000 in
theorem buffers_released_once_witness :
    personStatement.params = [] ∧
    released (execEvents Foreign.succeeding personStatement Runtime.initial
        [{ Name := "age".toList, Ordinal := 1, Value := Value.int64 33 },
         { Name := "name".toList, Ordinal := 2,
           Value := Value.string "Edmund Hillary".toList }])
      = allocated (execEvents Foreign.succeeding personStatement Runtime.initial
        [{ Name := "age".toList, Ordinal := 1, Value := Value.int64 33 },
         { Name := "name".toList, Ordinal := 2,
           Value := Value.string "Edmund Hillary".toList }]) ∧
    allocated (execEvents Foreign.succeeding personStatement Runtime.initial
        [{ Name := "age".toList, Ordinal := 1, Value := Value.int64 33 },
         { Name := "name".toList, Ordinal := 2,
           Value := Value.string "Edmund Hillary".toList }]) = [0, 1, 2, 3] :=
  ⟨rfl, (buffers_released_once Foreign.succeeding personStatement Runtime.initial _ rfl).1,
   by decide⟩

/-! ## Lemmas on Close -/

theorem statement_Close_freed (F : Foreign) (stmt : statement) (rt : Runtime)
    (h : stmt.freed = true) : stmt.Close F rt = (none, stmt, rt) := by
  simp [statement.Close, h]

theorem statement_Close_fresh (F : Foreign) (stmt : statement) (rt : Runtime) (p : Nat)
    (hf : stmt.freed = false) (hp : stmt.ptr = some p) :
    stmt.Close F rt = (none, { stmt with freed := true },
      { rt with trace := rt.trace ++ [Event.free_stmt (some p)] }) := by
  simp [statement.Close, hf, hp, call]

theorem closeTimes_freed (F : Foreign) (n : Nat) :
    ∀ (stmt : statement) (rt : Runtime), stmt.freed = true →
      statement.closeTimes F n stmt rt = (List.replicate n none, stmt, rt) := by
  induction n with
  | zero => intro stmt rt _; rfl
  | succ n ih =>
    intro stmt rt h
    simp [statement.closeTimes, statement_Close_freed F stmt rt h, ih stmt rt h,
      List.replicate_succ]

theorem reset_trace (F : Foreign) (stmt : statement) (rt : Runtime) :
    ∃ tail, (stmt.reset F rt).2.trace = rt.trace ++ Event.reset stmt.ptr :: tail ∧
      (tail = [] ∨ tail = [Event.error, Event.clear_error]) := by
  unfold statement.reset
  by_cases h : F.ret rt.trace (Event.reset stmt.ptr) = 0
  · exact ⟨[Event.error, Event.clear_error], by simp [h], Or.inr rfl⟩
  · exact ⟨[], by simp [h], Or.inl rfl⟩

theorem rows_Close_some (F : Foreign) (r : rows) (stmt : statement) (rt : Runtime)
    (hs : r.stmt = some stmt) :
    r.Close F rt =
      if stmt.closeStatementOnRowsClose then
        (none, { r with stmt := some (stmt.Close F (stmt.reset F rt).2).2.1 },
          (stmt.Close F (stmt.reset F rt).2).2.2)
      else (none, r, (stmt.reset F rt).2) := by
  unfold rows.Close
  rw [hs]

theorem eventsSince_append (rt rt2 : Runtime) (evs : List Event)
    (h : rt2.trace = rt.trace ++ evs) : eventsSince rt rt2 = evs := by
  simp [eventsSince, h]

/-- What a Close on the statement adds: nothing when it is marked freed
or holds no handle, the one free otherwise. -/
theorem statement_Close_adds (F : Foreign) (stmt : statement) (rt : Runtime) :
    ∃ evs, (stmt.Close F rt).2.2.trace = rt.trace ++ evs ∧
      (stmt.Close F rt).2.1.ptr = stmt.ptr ∧
      (stmt.freed = true → (stmt.Close F rt).2.1.freed = true) ∧
      evs.count (Event.free_stmt stmt.ptr) + (if stmt.freed then 1 else 0)
        = (if (stmt.Close F rt).2.1.freed then 1 else 0) := by
  unfold statement.Close
  by_cases hf : stmt.freed = true
  · exact ⟨[], by simp [hf], by simp [hf], by simp [hf], by simp [hf]⟩
  · by_cases hp : stmt.ptr = none
    · exact ⟨[], by simp [hf, hp], by simp [hf, hp], by simp [hf], by simp [hf, hp]⟩
    · exact ⟨[Event.free_stmt stmt.ptr], by simp [hf, hp], by simp [hf, hp], by simp [hf],
        by simp [hf, hp]⟩

theorem rows_Close_adds (F : Foreign) (stmt : statement) (rt : Runtime) :
    ∃ evs s2, (rows.Close F { stmt := some stmt, columns := [], names := [] } rt).2.2.trace
        = rt.trace ++ evs ∧
      (rows.Close F { stmt := some stmt, columns := [], names := [] } rt).2.1.stmt = some s2 ∧
      s2.ptr = stmt.ptr ∧
      evs.count (Event.free_stmt stmt.ptr) + (if stmt.freed then 1 else 0)
        = (if s2.freed then 1 else 0) := by
  obtain ⟨tail, htr, htail⟩ := reset_trace F stmt rt
  have hcount : tail.count (Event.free_stmt stmt.ptr) = 0 := by
    rcases htail with h | h <;> subst h <;> simp
  rw [rows_Close_some F _ stmt rt rfl]
  by_cases hflag : stmt.closeStatementOnRowsClose = true
  · obtain ⟨evs, h1, h2, _, h4⟩ := statement_Close_adds F stmt (stmt.reset F rt).2
    refine ⟨Event.reset stmt.ptr :: tail ++ evs, (stmt.Close F (stmt.reset F rt).2).2.1,
      by simp [hflag, h1, htr], by simp [hflag], by simp [h2], ?_⟩
    rw [← h4]
    simp [List.count_cons, hcount]
  · refine ⟨Event.reset stmt.ptr :: tail, stmt, by simp [hflag, htr], by simp [hflag], rfl, ?_⟩
    simp [List.count_cons, hcount]

/-- Over any sequence of Close calls on a statement and on rows cursors
that reference it, the handle is freed at most once. -/
theorem runCloses_frees_at_most_once (F : Foreign) (ops : List CloseOp) :
    ∀ (stmt : statement) (rt : Runtime),
      ∃ evs, (runCloses F ops stmt rt).2.trace = rt.trace ++ evs ∧
        evs.count (Event.free_stmt stmt.ptr) + (if stmt.freed then 1 else 0) ≤ 1 := by
  induction ops with
  | nil =>
    intro stmt rt
    exact ⟨[], by simp [runCloses], by split <;> simp⟩
  | cons op ops ih =>
    intro stmt rt
    cases op with
    | stmtClose =>
      obtain ⟨e1, h1, h2, _, h4⟩ := statement_Close_adds F stmt rt
      obtain ⟨e2, g1, g2⟩ := ih (stmt.Close F rt).2.1 (stmt.Close F rt).2.2
      refine ⟨e1 ++ e2, by simp [runCloses, g1, h1], ?_⟩
      rw [h2] at g2
      rw [List.count_append]
      omega
    | rowsClose =>
      obtain ⟨e1, s2, h1, hs2, h2, h4⟩ := rows_Close_adds F stmt rt
      have hstep : runCloses F (CloseOp.rowsClose :: ops) stmt rt
          = runCloses F ops s2
              (rows.Close F { stmt := some stmt, columns := [], names := [] } rt).2.2 := by
        simp [runCloses, hs2]
      obtain ⟨e2, g1, g2⟩ := ih s2
        (rows.Close F { stmt := some stmt, columns := [], names := [] } rt).2.2
      refine ⟨e1 ++ e2, by rw [hstep, g1, h1, List.append_assoc], ?_⟩
      rw [h2] at g2
      rw [List.count_append]
      omega

/-! ## Lemmas on the connection -/

theorem lasterr_withValid (F : Foreign) (pfx : String) (rt : Runtime) (b : Bool) :
    lasterr F pfx (rt.withValid b)
      = ((lasterr F pfx rt).1, (lasterr F pfx rt).2.withValid b) := rfl

theorem execImmediate_withValid (F : Foreign) (sql : List Nat) (rt : Runtime) (b : Bool) :
    execImmediate F sql (rt.withValid b)
      = ((execImmediate F sql rt).1, (execImmediate F sql rt).2.withValid b) := by
  unfold execImmediate
  by_cases h : F.ret (rt.trace ++ [Event.alloc rt.nextBlock])
      (Event.execute_immediate rt.con.ptr sql) = 0
  · simp [h, alloc, call, Runtime.withValid, lasterr, cfree]
  · simp [h, alloc, call, Runtime.withValid, cfree]

theorem execDirect_withValid (F : Foreign) (query : List Char) (rt : Runtime) (b : Bool) :
    execDirect F query (rt.withValid b)
      = ((execDirect F query rt).1, (execDirect F query rt).2.withValid b) := by
  unfold execDirect
  cases h : handleOf (F.ret (rt.trace ++ [Event.alloc rt.nextBlock])
      (Event.execute_direct rt.con.ptr (utf8 query))) <;>
    simp [h, alloc, call, Runtime.withValid, lasterr, cfree]

theorem prepare_withValid (F : Foreign) (query : List Char) (rt : Runtime) (b : Bool) :
    prepare F query (rt.withValid b)
      = ((prepare F query rt).1, (prepare F query rt).2.withValid b) := by
  unfold prepare
  by_cases hp : rt.con.ptr = none
  · simp [hp, Runtime.withValid]
  · cases h : handleOf (F.ret (rt.trace ++ [Event.alloc rt.nextBlock])
        (Event.prepare rt.con.ptr (utf8 (splitNamed query).1))) <;>
      simp [hp, h, alloc, call, Runtime.withValid, lasterr, cfree]

theorem option_withValid (F : Foreign) (property : String) (rt : Runtime) (b : Bool) :
    option F property (rt.withValid b)
      = ((option F property rt).1, (option F property rt).2.withValid b) := by
  unfold option
  simp only [alloc, call, cfree, lasterr, Runtime.withValid]
  split
  · rfl
  · split
    · split <;> rfl
    · split
      · rfl
      · split
        · rfl
        · split <;> rfl

theorem setIsolation_withValid (F : Foreign) (level : Int) (rt : Runtime) (b : Bool) :
    setIsolation F level (rt.withValid b)
      = ((setIsolation F level rt).1, (setIsolation F level rt).2.withValid b) := by
  unfold setIsolation
  cases isolationLevels level with
  | none => rfl
  | some isolation =>
    simp only [option_withValid]
    rcases option F "isolation_level" rt with ⟨⟨previous, err⟩, rt1⟩
    cases err with
    | some e => rfl
    | none =>
      simp only [execImmediate_withValid]
      rcases execImmediate F (setIsolationSQL isolation) rt1 with ⟨err2, rt2⟩
      cases err2 <;> rfl

theorem BeginTx_withValid (F : Foreign) (opts : TxOptions) (rt : Runtime) (b : Bool) :
    BeginTx F opts (rt.withValid b)
      = ((BeginTx F opts rt).1, (BeginTx F opts rt).2.withValid b) := by
  unfold BeginTx
  by_cases hro : opts.ReadOnly = true
  · simp [hro]
  · simp only [hro, Bool.false_eq_true, if_false, execImmediate_withValid]
    rcases execImmediate F beginSQL rt with ⟨err, rt1⟩
    cases err with
    | some e => rfl
    | none =>
      simp only [setIsolation_withValid]
      rcases setIsolation F opts.Isolation rt1 with ⟨⟨last, err2⟩, rt2⟩
      cases err2 <;> cases last <;> rfl

theorem execImmediate_trace (F : Foreign) (sql : List Nat) (rt : Runtime) :
    ∃ mid, (execImmediate F sql rt).2.trace
        = rt.trace ++ (Event.alloc rt.nextBlock :: Event.execute_immediate rt.con.ptr sql
            :: (mid ++ [Event.free rt.nextBlock])) ∧
      (mid = [] ∨ mid = [Event.error, Event.clear_error]) := by
  unfold execImmediate
  by_cases h : F.ret (rt.trace ++ [Event.alloc rt.nextBlock])
      (Event.execute_immediate rt.con.ptr sql) = 0
  · exact ⟨[Event.error, Event.clear_error], by simp [h, alloc, call, cfree], Or.inr rfl⟩
  · exact ⟨[], by simp [h, alloc, call, cfree], Or.inl rfl⟩

theorem lasterr_ne_ErrBadConn (F : Foreign) (pfx : String) (rt : Runtime) :
    (lasterr F pfx rt).1 ≠ some GoError.ErrBadConn := by
  unfold lasterr
  simp only []
  split
  · simp
  · split <;> simp

theorem execImmediate_ne_ErrBadConn (F : Foreign) (sql : List Nat) (rt : Runtime) :
    (execImmediate F sql rt).1 ≠ some GoError.ErrBadConn := by
  unfold execImmediate
  simp only []
  split
  · exact lasterr_ne_ErrBadConn F _ _
  · simp

/-! ## Lemmas on the registry -/

/-- Decrementing a positive `uint` does not wrap. -/
theorem uintDec_of_pos (n : Nat) (h0 : 0 < n) (h : n < 2 ^ 64) : uintDec n = n - 1 := by
  unfold uintDec
  rw [if_neg (by omega)]
  exact Nat.mod_eq_of_lt (by omega)

/-- `Close` returns nil whenever the foreign disconnect reports failure. -/
theorem Close_of_disconnect_failed (F : Foreign) (d : Driver) (rt : Runtime)
    (h : F.ret rt.trace (Event.disconnect rt.con.ptr) = 0) :
    (connection.Close F d rt).1 = none := by
  simp [connection.Close, h]

/-- What a `Close` does to the registry, and that the teardown is
invoked exactly when the decremented count is zero. -/
theorem Close_registry (F : Foreign) (d : Driver) (rt : Runtime) :
    ∃ evs, (connection.Close F d rt).2.2.trace = rt.trace ++ evs ∧
      (connection.Close F d rt).2.1
        = (if uintDec d.connections = 0
            then { connections := 0, ptr := none }
            else { connections := uintDec d.connections, ptr := d.ptr }) ∧
      evs.countP Event.isFini = (if uintDec d.connections = 0 then 1 else 0) ∧
      (uintDec d.connections = 0 → Event.fini_ex d.ptr ∈ evs) := by
  unfold connection.Close Driver.connectionClosed
  by_cases hz : uintDec d.connections = 0
  · by_cases hr : F.ret rt.trace (Event.disconnect rt.con.ptr) = 0
    · exact ⟨[Event.disconnect rt.con.ptr, Event.free_connection rt.con.ptr,
          Event.fini_ex d.ptr],
        by simp [hz, hr, call], by simp [hz, hr], by simp [hz, Event.isFini],
        fun _ => by simp⟩
    · exact ⟨[Event.disconnect rt.con.ptr, Event.error, Event.clear_error,
          Event.free_connection rt.con.ptr, Event.fini_ex d.ptr],
        by simp [hz, hr, call, lasterr], by simp [hz, hr], by simp [hz, Event.isFini],
        fun _ => by simp⟩
  · by_cases hr : F.ret rt.trace (Event.disconnect rt.con.ptr) = 0
    · exact ⟨[Event.disconnect rt.con.ptr, Event.free_connection rt.con.ptr],
        by simp [hz, hr, call], by simp [hz, hr], by simp [hz, Event.isFini],
        fun h => absurd h hz⟩
    · exact ⟨[Event.disconnect rt.con.ptr, Event.error, Event.clear_error,
          Event.free_connection rt.con.ptr],
        by simp [hz, hr, call, lasterr], by simp [hz, hr], by simp [hz, Event.isFini],
        fun h => absurd h hz⟩

theorem closeAll_cons (F : Foreign) (c : connection) (cs : List connection) (d : Driver)
    (rt : Runtime) :
    closeAll F (c :: cs) d rt
      = closeAll F cs (connection.Close F d { rt with con := c }).2.1
          (connection.Close F d { rt with con := c }).2.2 := rfl

/-- Closing fewer connections than are counted invokes no teardown. -/
theorem closeAll_above (F : Foreign) (cs : List connection) :
    ∀ (d : Driver) (rt : Runtime), cs.length < d.connections → d.connections < 2 ^ 64 →
      ∃ evs, (closeAll F cs d rt).2.trace = rt.trace ++ evs ∧
        (closeAll F cs d rt).1 = { connections := d.connections - cs.length, ptr := d.ptr } ∧
        evs.countP Event.isFini = 0 := by
  induction cs with
  | nil => intro d rt _ _; exact ⟨[], by simp [closeAll], by simp [closeAll], rfl⟩
  | cons c cs ih =>
    intro d rt hlen hlt
    simp only [List.length_cons] at hlen
    obtain ⟨e1, h1, h2, h3, _⟩ := Close_registry F d { rt with con := c }
    have hm : uintDec d.connections = d.connections - 1 := uintDec_of_pos _ (by omega) hlt
    have hnz : ¬ uintDec d.connections = 0 := by rw [hm]; omega
    rw [if_neg hnz, hm] at h2
    rw [if_neg hnz] at h3
    obtain ⟨e2, g1, g2, g3⟩ := ih (connection.Close F d { rt with con := c }).2.1
      (connection.Close F d { rt with con := c }).2.2
      (by rw [h2]; simp only []; omega) (by rw [h2]; simp only []; omega)
    refine ⟨e1 ++ e2, ?_, ?_, ?_⟩
    · simp only [closeAll]; rw [g1, h1]; simp
    · simp only [closeAll]; rw [g2, h2]; simp only [List.length_cons, Driver.mk.injEq, and_true]
      omega
    · rw [List.countP_append, h3, g3]

/-- Closing as many connections as are counted brings the count to zero
and invokes the teardown once, with the context of the registry. -/
theorem closeAll_exact (F : Foreign) (cs : List connection) :
    ∀ (d : Driver) (rt : Runtime), cs ≠ [] → cs.length = d.connections →
      d.connections < 2 ^ 64 →
      ∃ evs, (closeAll F cs d rt).2.trace = rt.trace ++ evs ∧
        (closeAll F cs d rt).1 = { connections := 0, ptr := none } ∧
        evs.countP Event.isFini = 1 ∧ Event.fini_ex d.ptr ∈ evs := by
  induction cs with
  | nil => intro d rt h; exact absurd rfl h
  | cons c cs ih =>
    intro d rt _ hlen hlt
    simp only [List.length_cons] at hlen
    obtain ⟨e1, h1, h2, h3, h4⟩ := Close_registry F d { rt with con := c }
    cases cs with
    | nil =>
      have hz : uintDec d.connections = 0 := by
        simp only [List.length_nil] at hlen
        rw [uintDec_of_pos _ (by omega) hlt]; omega
      rw [if_pos hz] at h2 h3
      exact ⟨e1, by simp [closeAll, h1], by simp [closeAll, h2], h3, h4 hz⟩
    | cons c2 cs =>
      simp only [List.length_cons] at hlen
      have hm : uintDec d.connections = d.connections - 1 := uintDec_of_pos _ (by omega) hlt
      have hnz : ¬ uintDec d.connections = 0 := by rw [hm]; omega
      rw [if_neg hnz, hm] at h2
      rw [if_neg hnz] at h3
      obtain ⟨e2, g1, g2, g3, g4⟩ := ih (connection.Close F d { rt with con := c }).2.1
        (connection.Close F d { rt with con := c }).2.2 (by simp)
        (by rw [h2]; simp only [List.length_cons]; omega) (by rw [h2]; simp only []; omega)
      rw [h2] at g4
      refine ⟨e1 ++ e2, ?_, ?_, ?_, ?_⟩
      · rw [closeAll_cons, g1, h1]; simp
      · rw [closeAll_cons, g2]
      · rw [List.countP_append, h3, g3]
      · exact List.mem_append_right _ g4

theorem Connect_success (F : Foreign) (hF : F.connectsSucceed) (c : connector) (d : Driver)
    (rt : Runtime) :
    ∃ con, (c.Connect F d rt).1 = (some con, none) ∧
      (c.Connect F d rt).2.1 = { connections := uintInc d.connections, ptr := d.ptr } := by
  unfold connector.Connect connection.connect
  have h1 := (hF rt.trace).1 d.ptr
  have hh : handleOf (F.ret rt.trace (Event.new_connection_ex d.ptr))
      = some (F.ret rt.trace (Event.new_connection_ex d.ptr)).natAbs := by
    simp [handleOf, h1]
  simp only [call, hh, alloc]
  rw [if_neg (by simpa using (hF _).2 _ _)]
  exact ⟨_, rfl, by simp⟩

theorem connectTimes_success (F : Foreign) (hF : F.connectsSucceed) (c : connector) (n : Nat) :
    ∀ (d : Driver) (rt : Runtime), d.connections + n < 2 ^ 64 →
      (∀ x ∈ (connectTimes F c n d rt).1, x.2 = none ∧ x.1 ≠ none) ∧
      (connectTimes F c n d rt).1.length = n ∧
      (connectTimes F c n d rt).2.1 = { connections := d.connections + n, ptr := d.ptr } := by
  induction n with
  | zero => intro d rt _; simp [connectTimes]
  | succ n ih =>
    intro d rt hlt
    obtain ⟨con, h1, h2⟩ := Connect_success F hF c d rt
    have hm : uintInc d.connections = d.connections + 1 := by unfold uintInc; omega
    rw [hm] at h2
    obtain ⟨g1, g2, g3⟩ := ih (c.Connect F d rt).2.1 (c.Connect F d rt).2.2
      (by rw [h2]; simp only []; omega)
    refine ⟨?_, ?_, ?_⟩
    · intro x hx
      simp only [connectTimes, List.mem_cons] at hx
      rcases hx with hx | hx
      · rw [hx, h1]; simp
      · exact g1 x hx
    · simp [connectTimes, g2]
    · simp only [connectTimes]; rw [g3, h2]; simp only [Driver.mk.injEq, and_true]; omega

theorem length_filterMap_of_ne_none {α β : Type} (f : α → Option β) (l : List α)
    (h : ∀ x ∈ l, f x ≠ none) : (l.filterMap f).length = l.length := by
  induction l with
  | nil => rfl
  | cons a l ih =>
    have ha := h a (List.mem_cons_self _ _)
    cases hfa : f a with
    | none => exact absurd hfa ha
    | some b =>
      simp [List.filterMap_cons, hfa, ih (fun x hx => h x (List.mem_cons_of_mem _ hx))]

theorem succeeding_connectsSucceed : Foreign.succeeding.connectsSucceed := by
  intro tr
  exact ⟨fun _ => by simp [Foreign.succeeding], fun _ _ => by simp [Foreign.succeeding]⟩

/-! ## Lemmas on column decoding -/

/-- When the fetched value carries the null marker, `column` returns nil
and leaves the destination slot as it was. -/
theorem column_null_keeps_slot (F : Foreign) (L : GoLib) (r : rows) (stmt : statement)
    (i : Nat) (v : Cell) (rt : Runtime) (hs : r.stmt = some stmt)
    (h0 : F.ret rt.trace (Event.get_column stmt.ptr (i % 2 ^ 32)) ≠ 0)
    (h1 : F.ret rt.trace (Event.get_column stmt.ptr (i % 2 ^ 32)) ≠ -1)
    (he : F.errno rt.trace = none) (hn : (F.column rt.trace).is_null = 1) :
    (r.column F L i v rt).1 = Ret.returned (none, v) := by
  unfold rows.column
  rw [hs]
  simp only [Nat.reducePow] at h0 h1
  simp [call, h0, h1, he, hn]

/-! ## Lemmas on transactions -/

theorem isolationLevels_none {level : Int}
    (h : level ∉ [LevelDefault, LevelReadUncommitted, LevelReadCommitted,
      LevelRepeatableRead, LevelSnapshot, LevelSerializable]) :
    isolationLevels level = none := by
  simp only [List.mem_cons, List.mem_singleton, not_or, List.mem_nil_iff, or_false] at h
  obtain ⟨h0, h1, h2, h3, h4, h5⟩ := h
  simp [isolationLevels, h0, h1, h2, h3, h4, h5]

theorem setIsolation_unsupported (F : Foreign) (level : Int) (rt : Runtime)
    (h : isolationLevels level = none) :
    setIsolation F level rt
      = ((none, some (GoError.errorf (unsupportedIsolationText level))), rt) := by
  simp [setIsolation, h]

theorem restore_trace (F : Foreign) (t : tx) (rt : Runtime) :
    ∃ mid, (t.restoreIsolationLevel F rt).2.trace
        = rt.trace ++ (Event.alloc rt.nextBlock
            :: Event.execute_immediate rt.con.ptr (setIsolationSQL t.lastIsolation)
            :: (mid ++ [Event.free rt.nextBlock])) ∧
      (mid = [] ∨ mid = [Event.error, Event.clear_error]) :=
  execImmediate_trace F (setIsolationSQL t.lastIsolation) rt

theorem count_mid {e : Event} (mid : List Event)
    (h : mid = [] ∨ mid = [Event.error, Event.clear_error])
    (h1 : e ≠ Event.error) (h2 : e ≠ Event.clear_error) : mid.count e = 0 := by
  rcases h with h | h <;> subst h
  · rfl
  · simp [List.count_cons, Ne.symm h1, Ne.symm h2]

/-! ## Properties of Close, of the registry and of transactions -/

/-- C11: for a statement with a non-null handle that has not been
closed, the first Close frees the handle and sets the freed flag; every
Close on a statement marked freed returns success and issues no foreign
call; so any number of Close calls, one or more, all return success and
free the handle exactly once. -/
theorem statement_close_frees_once (F : Foreign) (stmt : statement) (rt : Runtime)
    (p n : Nat) (hp : stmt.ptr = some p) (hf : stmt.freed = false) :
    stmt.Close F rt = (none, { stmt with freed := true },
      { rt with trace := rt.trace ++ [Event.free_stmt (some p)] }) ∧
    (∀ (s : statement) (r : Runtime), s.freed = true → s.Close F r = (none, s, r)) ∧
    statement.closeTimes F (n + 1) stmt rt
      = (List.replicate (n + 1) none, { stmt with freed := true },
         { rt with trace := rt.trace ++ [Event.free_stmt (some p)] }) ∧
    (eventsSince rt (statement.closeTimes F (n + 1) stmt rt).2.2).count
      (Event.free_stmt (some p)) = 1 := by
  have h1 := statement_Close_fresh F stmt rt p hf hp
  have h3 : statement.closeTimes F (n + 1) stmt rt
      = (List.replicate (n + 1) none, { stmt with freed := true },
         { rt with trace := rt.trace ++ [Event.free_stmt (some p)] }) := by
    simp [statement.closeTimes, h1, closeTimes_freed, List.replicate_succ]
  refine ⟨h1, fun s r hs => statement_Close_freed F s r hs, h3, ?_⟩
  rw [h3]
  simp [eventsSince]

theorem statement_close_frees_once_witness :
    (personStatement.ptr = some 1 ∧ personStatement.freed = false) ∧
    (eventsSince Runtime.initial
      (statement.closeTimes Foreign.succeeding (2 + 1) personStatement Runtime.initial).2.2).count
      (Event.free_stmt (some 1)) = 1 :=
  ⟨⟨rfl, rfl⟩,
   (statement_close_frees_once Foreign.succeeding personStatement Runtime.initial 1 2
      rfl rfl).2.2.2⟩

/-- C12: for a rows cursor over a statement that has not been freed
(and holds a handle), Close issues the foreign reset on the statement
first, frees the statement exactly when its flag
`closeStatementOnRowsClose` is set, and returns success; a second Close
returns success and leaves the cursor, and with it the freed flag and
the handle of the statement, as the first Close left them. -/
theorem rows_close_resets_then_frees (F : Foreign) (r : rows) (stmt : statement) (p : Nat)
    (rt : Runtime) (hs : r.stmt = some stmt) (hf : stmt.freed = false)
    (hp : stmt.ptr = some p) :
    (r.Close F rt).1 = none ∧
    (eventsSince rt (r.Close F rt).2.2).head? = some (Event.reset (some p)) ∧
    (eventsSince rt (r.Close F rt).2.2).count (Event.free_stmt (some p))
      = (if stmt.closeStatementOnRowsClose then 1 else 0) ∧
    (r.Close F rt).2.1.stmt = some { stmt with freed := stmt.closeStatementOnRowsClose } ∧
    ((r.Close F rt).2.1.Close F (r.Close F rt).2.2).1 = none ∧
    ((r.Close F rt).2.1.Close F (r.Close F rt).2.2).2.1 = (r.Close F rt).2.1 := by
  obtain ⟨sp, sargs, sparams, flag, freed⟩ := stmt
  simp only at hf hp
  subst hf
  subst hp
  obtain ⟨tail, htr, htail⟩ := reset_trace F ⟨some p, sargs, sparams, flag, false⟩ rt
  simp only at htr
  have hcount : tail.count (Event.free_stmt (some p)) = 0 := by
    rcases htail with h | h <;> subst h <;> simp
  have e1 := rows_Close_some F r _ rt hs
  cases flag
  · simp only [Bool.false_eq_true, if_false] at e1
    have hev : eventsSince rt (statement.reset F ⟨some p, sargs, sparams, false, false⟩ rt).2
        = Event.reset (some p) :: tail := eventsSince_append _ _ _ htr
    have e2 := rows_Close_some F r _
      (statement.reset F ⟨some p, sargs, sparams, false, false⟩ rt).2 hs
    simp only [Bool.false_eq_true, if_false] at e2
    rw [e1]
    simp only []
    rw [e2, hev]
    refine ⟨trivial, rfl, ?_, hs, ?_, ?_⟩
    · simp [List.count_cons, hcount]
    · trivial
    · trivial
  · have hc := statement_Close_fresh F ⟨some p, sargs, sparams, true, false⟩
      (statement.reset F ⟨some p, sargs, sparams, true, false⟩ rt).2 p rfl rfl
    simp only [if_true, hc] at e1
    have hev : eventsSince rt
        { (statement.reset F ⟨some p, sargs, sparams, true, false⟩ rt).2 with
          trace := (statement.reset F ⟨some p, sargs, sparams, true, false⟩ rt).2.trace
            ++ [Event.free_stmt (some p)] }
        = Event.reset (some p) :: (tail ++ [Event.free_stmt (some p)]) := by
      apply eventsSince_append
      simp [htr]
    have e2 := rows_Close_some F
      { r with stmt := some ⟨some p, sargs, sparams, true, true⟩ }
      ⟨some p, sargs, sparams, true, true⟩
      { (statement.reset F ⟨some p, sargs, sparams, true, false⟩ rt).2 with
          trace := (statement.reset F ⟨some p, sargs, sparams, true, false⟩ rt).2.trace
            ++ [Event.free_stmt (some p)] } rfl
    simp only [if_true, statement_Close_freed] at e2
    rw [e1]
    simp only []
    rw [e2, hev]
    refine ⟨trivial, rfl, ?_, ?_, ?_, ?_⟩
    · simp [List.count_cons, hcount]
    · trivial
    · trivial
    · trivial

theorem rows_close_resets_then_frees_witness :
    (({ stmt := some { personStatement with closeStatementOnRowsClose := true },
        columns := [], names := [] } : rows).stmt
        = some { personStatement with closeStatementOnRowsClose := true } ∧
     ({ personStatement with closeStatementOnRowsClose := true } : statement).freed = false ∧
     ({ personStatement with closeStatementOnRowsClose := true } : statement).ptr = some 1) ∧
    (rows.Close Foreign.succeeding
      { stmt := some { personStatement with closeStatementOnRowsClose := true },
        columns := [], names := [] } Runtime.initial).2.1.stmt
      = some { ({ personStatement with closeStatementOnRowsClose := true } : statement) with
          freed := true } :=
  ⟨⟨rfl, rfl, rfl⟩,
   (rows_close_resets_then_frees Foreign.succeeding
      { stmt := some { personStatement with closeStatementOnRowsClose := true },
        columns := [], names := [] }
      { personStatement with closeStatementOnRowsClose := true } 1 Runtime.initial
      rfl rfl rfl).2.2.2.1⟩

/-- C13, at the failing input: two Close calls on a rows cursor whose
statement has `closeStatementOnRowsClose` set. The first resets and frees
the handle; the second invokes the foreign reset on the handle that has
been freed. -/
theorem reset_after_free :
    (runCloses Foreign.succeeding [CloseOp.rowsClose, CloseOp.rowsClose]
        { personStatement with closeStatementOnRowsClose := true } Runtime.initial).2.trace
      = [Event.reset (some 1), Event.free_stmt (some 1), Event.reset (some 1)] ∧
    (runCloses Foreign.succeeding [CloseOp.stmtClose, CloseOp.rowsClose]
        personStatement Runtime.initial).2.trace
      = [Event.free_stmt (some 1), Event.reset (some 1)] := by
  decide

set_option maxRecDepth 20000 in
/-- C14, as stated, does not hold: on a connection whose validity flag
is false, `BeginTx` and `prepare` do not return the bad-connection error
and do invoke foreign primitives on the handle. -/
theorem invalid_connection_not_gated :
    (Runtime.initial.withValid false).con.valid = false ∧
    (BeginTx Foreign.succeeding { Isolation := LevelDefault, ReadOnly := false }
        (Runtime.initial.withValid false)).1.2 ≠ some GoError.ErrBadConn ∧
    Event.execute_immediate (some 1) beginSQL ∈
      (BeginTx Foreign.succeeding { Isolation := LevelDefault, ReadOnly := false }
        (Runtime.initial.withValid false)).2.trace ∧
    (prepare Foreign.succeeding "select 1".toList (Runtime.initial.withValid false)).1.2
      = none ∧
    Event.prepare (some 1) (utf8 "select 1".toList) ∈
      (prepare Foreign.succeeding "select 1".toList (Runtime.initial.withValid false)).2.trace := by
  decide

/-- C14, amended: for a connection whose validity flag is false, `Ping`
and `ResetSession` return the bad-connection error and invoke no foreign
primitive. The flag is consulted nowhere else: `prepare` (behind Prepare
and PrepareContext, and behind ExecContext and QueryContext with
arguments), `execImmediate` (behind ExecContext without arguments),
`execDirect` (behind QueryContext without arguments) and `BeginTx` do
the same whatever the flag; `execImmediate` invokes its primitive on the
handle and never returns the bad-connection error. -/
theorem validity_gates_ping_and_reset (F : Foreign) (rt : Runtime) (query : List Char)
    (sql : List Nat) (opts : TxOptions) (h : rt.con.valid = false) :
    rt.con.Ping = some GoError.ErrBadConn ∧
    ResetSession (some rt.con) = some GoError.ErrBadConn ∧
    (∀ b, prepare F query (rt.withValid b)
      = ((prepare F query rt).1, (prepare F query rt).2.withValid b)) ∧
    (∀ b, execImmediate F sql (rt.withValid b)
      = ((execImmediate F sql rt).1, (execImmediate F sql rt).2.withValid b)) ∧
    (∀ b, execDirect F query (rt.withValid b)
      = ((execDirect F query rt).1, (execDirect F query rt).2.withValid b)) ∧
    (∀ b, BeginTx F opts (rt.withValid b)
      = ((BeginTx F opts rt).1, (BeginTx F opts rt).2.withValid b)) ∧
    Event.execute_immediate rt.con.ptr sql ∈ (execImmediate F sql rt).2.trace ∧
    (execImmediate F sql rt).1 ≠ some GoError.ErrBadConn := by
  refine ⟨by simp [connection.Ping, connection.IsValid, h], by simp [ResetSession, h],
    fun b => prepare_withValid F query rt b, fun b => execImmediate_withValid F sql rt b,
    fun b => execDirect_withValid F query rt b, fun b => BeginTx_withValid F opts rt b, ?_,
    execImmediate_ne_ErrBadConn F sql rt⟩
  obtain ⟨mid, htr, _⟩ := execImmediate_trace F sql rt
  rw [htr]
  simp

theorem validity_gates_ping_and_reset_witness :
    (Runtime.initial.withValid false).con.valid = false ∧
    (Runtime.initial.withValid false).con.Ping = some GoError.ErrBadConn ∧
    ResetSession (some (Runtime.initial.withValid false).con) = some GoError.ErrBadConn :=
  ⟨rfl,
   (validity_gates_ping_and_reset Foreign.succeeding (Runtime.initial.withValid false)
      "select 1".toList beginSQL { Isolation := LevelDefault, ReadOnly := false } rfl).1,
   (validity_gates_ping_and_reset Foreign.succeeding (Runtime.initial.withValid false)
      "select 1".toList beginSQL { Isolation := LevelDefault, ReadOnly := false } rfl).2.1⟩

set_option maxRecDepth 20000 in
/-- C15, at the failing input: the foreign disconnect reports failure
(0) while the error code -308 is pending. `Close` frees the handle,
clears the validity flag and decrements the registry count, but returns
nil: the pending error, which `lasterr` would classify as a
`DriverError`, is not read. With a disconnect that reports success,
`Close` does read and return it. -/
theorem disconnect_failure_not_returned :
    Foreign.failing.ret [] (Event.disconnect (some 1)) = 0 ∧
    (lasterr Foreign.failing "disconnect" Runtime.initial).1
      = some (GoError.DriverError "disconnect" [] (-308)) ∧
    (connection.Close Foreign.failing { connections := 1, ptr := some 9 } Runtime.initial).1
      = none ∧
    (connection.Close Foreign.failing { connections := 1, ptr := some 9 }
        Runtime.initial).2.2.trace
      = [Event.disconnect (some 1), Event.free_connection (some 1), Event.fini_ex (some 9)] ∧
    (connection.Close Foreign.failing { connections := 1, ptr := some 9 }
        Runtime.initial).2.2.con.valid = false ∧
    (connection.Close Foreign.failing { connections := 1, ptr := some 9 } Runtime.initial).2.1
      = { connections := 0, ptr := none } ∧
    (connection.Close Foreign.pending { connections := 1, ptr := some 9 } Runtime.initial).1
      = some (GoError.DriverError "disconnect" [] (-308)) := by
  decide

set_option maxRecDepth 20000 in
/-- C16, at the failing sequence: `OpenConnector`, `Connect`, `Close`,
and a second `Connect` through the same connector. The `Close` tears the
context down, and the second `Connect` asks for its connection handle
with a nil context. -/
theorem connect_after_teardown_uses_nil_context :
    (reconnect Foreign.succeeding "db".toList).2.trace
      = [Event.alloc 0, Event.init_ex, Event.free 0,
         Event.new_connection_ex (some 1),
         Event.alloc 1, Event.connect (some 1) (utf8 "db".toList), Event.free 1,
         Event.disconnect (some 1), Event.error, Event.clear_error,
         Event.free_connection (some 1), Event.fini_ex (some 1),
         Event.new_connection_ex none,
         Event.alloc 2, Event.connect (some 1) (utf8 "db".toList), Event.free 2] ∧
    Event.new_connection_ex none ∈ (reconnect Foreign.succeeding "db".toList).2.trace ∧
    (reconnect Foreign.succeeding "db".toList).1 = { connections := 1, ptr := none } := by
  decide

/-- C17: for every N from 1 up (below 2^64, the range of the counter),
starting from a registry with an initialised context and a count of
zero, N successful Connects bring the count to N, and one Close of each
of the N connections, in any order, leaves the count at zero and the
context uninitialised; the foreign teardown is invoked exactly once, on
that context, and not before the last Close. -/
theorem registry_count_returns_to_zero (F : Foreign) (hF : F.connectsSucceed) (c : connector)
    (d : Driver) (rt : Runtime) (ctx N : Nat) (hN : 1 ≤ N) (hlt : N < 2 ^ 64)
    (hd : d.connections = 0) (hp : d.ptr = some ctx) (order : List connection)
    (hperm : List.Perm order ((connectTimes F c N d rt).1.filterMap (fun x => x.1))) :
    (∀ x ∈ (connectTimes F c N d rt).1, x.2 = none) ∧
    (connectTimes F c N d rt).2.1.connections = N ∧
    (closeAll F order (connectTimes F c N d rt).2.1 (connectTimes F c N d rt).2.2).1
      = { connections := 0, ptr := none } ∧
    (eventsSince (connectTimes F c N d rt).2.2
      (closeAll F order (connectTimes F c N d rt).2.1
        (connectTimes F c N d rt).2.2).2).countP Event.isFini = 1 ∧
    Event.fini_ex (some ctx) ∈ eventsSince (connectTimes F c N d rt).2.2
      (closeAll F order (connectTimes F c N d rt).2.1 (connectTimes F c N d rt).2.2).2 ∧
    (eventsSince (connectTimes F c N d rt).2.2
      (closeAll F order.dropLast (connectTimes F c N d rt).2.1
        (connectTimes F c N d rt).2.2).2).countP Event.isFini = 0 := by
  obtain ⟨h1, h2, h3⟩ := connectTimes_success F hF c N d rt (by rw [hd]; omega)
  rw [hd, Nat.zero_add, hp] at h3
  have hlen : order.length = N := by
    rw [hperm.length_eq, length_filterMap_of_ne_none _ _ (fun x hx => (h1 x hx).2), h2]
  have hne : order ≠ [] := by
    intro h; rw [h] at hlen; simp at hlen; omega
  obtain ⟨e1, a1, a2, a3, a4⟩ := closeAll_exact F order (connectTimes F c N d rt).2.1
    (connectTimes F c N d rt).2.2 hne (by rw [h3]; exact hlen) (by rw [h3]; exact hlt)
  obtain ⟨e2, b1, _, b3⟩ := closeAll_above F order.dropLast (connectTimes F c N d rt).2.1
    (connectTimes F c N d rt).2.2
    (by rw [h3, List.length_dropLast]; simp only []; omega) (by rw [h3]; exact hlt)
  rw [h3] at a4
  refine ⟨fun x hx => (h1 x hx).1, by rw [h3], a2, ?_, ?_, ?_⟩
  · rw [eventsSince_append _ _ _ a1]; exact a3
  · rw [eventsSince_append _ _ _ a1]; exact a4
  · rw [eventsSince_append _ _ _ b1]; exact b3

theorem registry_count_returns_to_zero_witness :
    (Foreign.succeeding.connectsSucceed ∧ 1 ≤ 2 ∧ 2 < 2 ^ 64 ∧
     ({ connections := 0, ptr := some 9 } : Driver).connections = 0 ∧
     ({ connections := 0, ptr := some 9 } : Driver).ptr = some 9) ∧
    (closeAll Foreign.succeeding
      ((connectTimes Foreign.succeeding { name := "db".toList } 2
        { connections := 0, ptr := some 9 } Runtime.initial).1.filterMap (fun x => x.1)).reverse
      (connectTimes Foreign.succeeding { name := "db".toList } 2
        { connections := 0, ptr := some 9 } Runtime.initial).2.1
      (connectTimes Foreign.succeeding { name := "db".toList } 2
        { connections := 0, ptr := some 9 } Runtime.initial).2.2).1
      = { connections := 0, ptr := none } :=
  ⟨⟨succeeding_connectsSucceed, by norm_num, by norm_num, rfl, rfl⟩,
   (registry_count_returns_to_zero Foreign.succeeding succeeding_connectsSucceed
      { name := "db".toList } { connections := 0, ptr := some 9 } Runtime.initial 9 2
      (by norm_num) (by norm_num) rfl rfl _ (List.reverse_perm _)).2.2.1⟩

/-- C18, at the failing input: the destination slot holds the integer 7
(the value of the row before) and the fetched value carries the null
marker. Column decoding returns success and the slot still holds 7, not
nil; this is so for every declared type and whatever the Go library
does. -/
theorem null_column_keeps_previous_value (L : GoLib) (t : NativeType) :
    (rows.column Foreign.nulls L
        { stmt := some personStatement, columns := [{ native_type := t }], names := [] }
        0 (Cell.int64 7) Runtime.initial).1
      = Ret.returned (none, Cell.int64 7) ∧
    Cell.int64 7 ≠ Cell.nil :=
  ⟨column_null_keeps_slot Foreign.nulls L _ personStatement 0 (Cell.int64 7) Runtime.initial
      rfl (by simp [Foreign.nulls]) (by simp [Foreign.nulls]) rfl rfl,
   by decide⟩

set_option maxRecDepth 20000 in
/-- C19, as stated, does not hold: for the level write-committed,
`BeginTx` returns the unsupported-option error and no transaction, but
it has issued BEGIN TRANSACTION to the session before. -/
theorem begin_issued_before_level_check :
    (BeginTx Foreign.succeeding { Isolation := LevelWriteCommitted, ReadOnly := false }
        Runtime.initial).1
      = (none, some (GoError.errorf (unsupportedIsolationText LevelWriteCommitted))) ∧
    unsupportedIsolationText LevelWriteCommitted
      = "unsupported transaction option: isolation level: 3" ∧
    (BeginTx Foreign.succeeding { Isolation := LevelWriteCommitted, ReadOnly := false }
        Runtime.initial).2.trace
      = [Event.alloc 0, Event.execute_immediate (some 1) beginSQL, Event.free 0] ∧
    beginSQL = utf8 "BEGIN TRANSACTION".toList := by
  decide

/-- C19, amended: for a requested isolation level that is not one of
default, read-uncommitted, read-committed, repeatable-read, snapshot or
serializable, `BeginTx` returns no transaction. A read-only request is
refused with nothing issued. Otherwise `BeginTx` issues BEGIN
TRANSACTION and nothing else: no isolation-level read and no
isolation-level set; when BEGIN TRANSACTION succeeds it returns the
unsupported-option error that names the level, and when it fails, what
that failure gives. -/
theorem unsupported_level_only_begins (F : Foreign) (opts : TxOptions) (rt : Runtime)
    (h : opts.Isolation ∉ [LevelDefault, LevelReadUncommitted, LevelReadCommitted,
      LevelRepeatableRead, LevelSnapshot, LevelSerializable]) :
    (BeginTx F opts rt).1.1 = none ∧
    (opts.ReadOnly = true → BeginTx F opts rt
      = ((none, some (GoError.errorf "unsupported transaction option: read only")), rt)) ∧
    (opts.ReadOnly = false → BeginTx F opts rt
      = ((none, some (((execImmediate F beginSQL rt).1).getD
            (GoError.errorf (unsupportedIsolationText opts.Isolation)))),
         (execImmediate F beginSQL rt).2)) ∧
    (opts.ReadOnly = false →
      F.ret (rt.trace ++ [Event.alloc rt.nextBlock])
        (Event.execute_immediate rt.con.ptr beginSQL) ≠ 0 →
      (BeginTx F opts rt).1.2
        = some (GoError.errorf (unsupportedIsolationText opts.Isolation)) ∧
      eventsSince rt (BeginTx F opts rt).2
        = [Event.alloc rt.nextBlock, Event.execute_immediate rt.con.ptr beginSQL,
           Event.free rt.nextBlock]) ∧
    (∀ e ∈ eventsSince rt (BeginTx F opts rt).2,
      (∀ p sql, e ≠ Event.execute_direct p sql) ∧
      (∀ p sql, e = Event.execute_immediate p sql → sql = beginSQL)) := by
  have hnone := isolationLevels_none h
  have hro : opts.ReadOnly = true → BeginTx F opts rt
      = ((none, some (GoError.errorf "unsupported transaction option: read only")), rt) := by
    intro hr; simp [BeginTx, hr]
  have hrw : opts.ReadOnly = false → BeginTx F opts rt
      = ((none, some (((execImmediate F beginSQL rt).1).getD
            (GoError.errorf (unsupportedIsolationText opts.Isolation)))),
         (execImmediate F beginSQL rt).2) := by
    intro hr
    unfold BeginTx
    simp only [hr, Bool.false_eq_true, if_false]
    rcases hx : execImmediate F beginSQL rt with ⟨err, rt1⟩
    cases err with
    | some e => rfl
    | none => simp [setIsolation_unsupported F _ _ hnone]
  obtain ⟨mid, htr, hmid⟩ := execImmediate_trace F beginSQL rt
  refine ⟨?_, hro, hrw, ?_, ?_⟩
  · cases hr : opts.ReadOnly
    · rw [hrw hr]
    · rw [hro hr]
  · intro hr hok
    rw [hrw hr]
    have h1 : (execImmediate F beginSQL rt).1 = none := by
      simp [execImmediate, alloc, call, hok]
    have h2 : (execImmediate F beginSQL rt).2.trace
        = rt.trace ++ [Event.alloc rt.nextBlock, Event.execute_immediate rt.con.ptr beginSQL,
           Event.free rt.nextBlock] := by
      simp [execImmediate, alloc, call, hok, cfree]
    exact ⟨by simp [h1], eventsSince_append _ _ _ h2⟩
  · intro e he
    cases hr : opts.ReadOnly
    · rw [hrw hr] at he
      simp only [] at he
      rw [eventsSince_append _ _ _ htr] at he
      rcases hmid with hm | hm <;> subst hm <;>
        simp only [List.mem_cons, List.nil_append, List.cons_append, List.mem_singleton,
          List.mem_nil_iff, or_false] at he
      · rcases he with he | he | he <;> subst he <;> simp
      · rcases he with he | he | he | he | he <;> subst he <;> simp
    · rw [hro hr] at he
      simp [eventsSince] at he

set_option maxRecDepth 20000 in
theorem unsupported_level_only_begins_witness :
    (LevelLinearizable ∉ [LevelDefault, LevelReadUncommitted, LevelReadCommitted,
      LevelRepeatableRead, LevelSnapshot, LevelSerializable]) ∧
    (BeginTx Foreign.succeeding { Isolation := LevelLinearizable, ReadOnly := false }
      Runtime.initial).1.1 = none :=
  ⟨by decide,
   (unsupported_level_only_begins Foreign.succeeding
      { Isolation := LevelLinearizable, ReadOnly := false } Runtime.initial (by decide)).1⟩

set_option maxRecDepth 20000 in
/-- C20, as stated, does not hold: with a foreign error pending on the
connection, `Rollback` panics with that error; the foreign rollback is
never invoked, and only the deferred restoration runs. -/
theorem rollback_panics_on_pending_error :
    (lasterr Foreign.pending "last err" Runtime.initial).1
      = some (GoError.DriverError "last err" [] (-308)) ∧
    (tx.Rollback Foreign.pending
        { opts := { Isolation := LevelDefault, ReadOnly := false },
          lastIsolation := utf8 "0".toList } Runtime.initial).1
      = Ret.panicked "" (some (GoError.DriverError "last err" [] (-308))) ∧
    (tx.Rollback Foreign.pending
        { opts := { Isolation := LevelDefault, ReadOnly := false },
          lastIsolation := utf8 "0".toList } Runtime.initial).2.trace
      = [Event.error, Event.clear_error, Event.alloc 0,
         Event.execute_immediate (some 1) (setIsolationSQL (utf8 "0".toList)), Event.free 0] ∧
    Event.rollback (some 1) ∉
      (tx.Rollback Foreign.pending
        { opts := { Isolation := LevelDefault, ReadOnly := false },
          lastIsolation := utf8 "0".toList } Runtime.initial).2.trace := by
  decide

/-- C20, amended: `Commit`, in every connection state, invokes the
foreign commit exactly once and first, then attempts exactly once to
restore the recorded isolation level whether or not the commit
succeeded, and returns the commit's own outcome: nil, or after a failure
what `lasterr` gives. `Rollback` does the same with the foreign rollback
when `lasterr` finds no error pending on the connection at entry; when
it finds one, `Rollback` panics with it, the foreign rollback is not
invoked, and the restoration is still attempted once. What the
restoration returns never enters the result. -/
theorem commit_and_rollback_restore_once (F : Foreign) (t : tx) (rt : Runtime) :
    ((t.Commit F rt).1
        = (if F.ret rt.trace (Event.commit rt.con.ptr) = 0
            then (lasterr F "did not commit" (call F rt (Event.commit rt.con.ptr)).2).1
            else none) ∧
      (eventsSince rt (t.Commit F rt).2).head? = some (Event.commit rt.con.ptr) ∧
      (eventsSince rt (t.Commit F rt).2).count (Event.commit rt.con.ptr) = 1 ∧
      (eventsSince rt (t.Commit F rt).2).count
        (Event.execute_immediate rt.con.ptr (setIsolationSQL t.lastIsolation)) = 1) ∧
    ((lasterr F "last err" rt).1 = none →
      (t.Rollback F rt).1
        = Ret.returned
          (if F.ret (lasterr F "last err" rt).2.trace (Event.rollback rt.con.ptr) = 0
            then (lasterr F "did not rollback"
              (call F (lasterr F "last err" rt).2 (Event.rollback rt.con.ptr)).2).1
            else none) ∧
      (eventsSince rt (t.Rollback F rt).2).count (Event.rollback rt.con.ptr) = 1 ∧
      (eventsSince rt (t.Rollback F rt).2).count
        (Event.execute_immediate rt.con.ptr (setIsolationSQL t.lastIsolation)) = 1) ∧
    (∀ e, (lasterr F "last err" rt).1 = some e →
      (t.Rollback F rt).1 = Ret.panicked "" (some e) ∧
      (eventsSince rt (t.Rollback F rt).2).count (Event.rollback rt.con.ptr) = 0 ∧
      (eventsSince rt (t.Rollback F rt).2).count
        (Event.execute_immediate rt.con.ptr (setIsolationSQL t.lastIsolation)) = 1) := by
  refine ⟨?_, ?_, ?_⟩
  · by_cases hc : F.ret rt.trace (Event.commit rt.con.ptr) = 0
    · obtain ⟨mid, htr, hmid⟩ := restore_trace F t
        (lasterr F "did not commit" (call F rt (Event.commit rt.con.ptr)).2).2
      have hrt : (t.Commit F rt).2 = (t.restoreIsolationLevel F
          (lasterr F "did not commit" (call F rt (Event.commit rt.con.ptr)).2).2).2 := by
        simp [tx.Commit, hc]
      have hev := eventsSince_append rt (t.Commit F rt).2
        (Event.commit rt.con.ptr :: Event.error :: Event.clear_error ::
          Event.alloc rt.nextBlock ::
          Event.execute_immediate rt.con.ptr (setIsolationSQL t.lastIsolation) ::
          (mid ++ [Event.free rt.nextBlock]))
        (by rw [hrt, htr]; simp [lasterr, call])
      rw [hev]
      refine ⟨by simp [tx.Commit, hc], rfl, ?_, ?_⟩
      · simp [List.count_cons, count_mid mid hmid]
      · simp [List.count_cons, count_mid mid hmid]
    · obtain ⟨mid, htr, hmid⟩ := restore_trace F t (call F rt (Event.commit rt.con.ptr)).2
      have hrt : (t.Commit F rt).2 = (t.restoreIsolationLevel F
          (call F rt (Event.commit rt.con.ptr)).2).2 := by
        simp [tx.Commit, hc]
      have hev := eventsSince_append rt (t.Commit F rt).2
        (Event.commit rt.con.ptr :: Event.alloc rt.nextBlock ::
          Event.execute_immediate rt.con.ptr (setIsolationSQL t.lastIsolation) ::
          (mid ++ [Event.free rt.nextBlock]))
        (by rw [hrt, htr]; simp [call])
      rw [hev]
      refine ⟨by simp [tx.Commit, hc], rfl, ?_, ?_⟩
      · simp [List.count_cons, count_mid mid hmid]
      · simp [List.count_cons, count_mid mid hmid]
  · intro hp
    by_cases hc : F.ret (lasterr F "last err" rt).2.trace (Event.rollback rt.con.ptr) = 0
    · obtain ⟨mid, htr, hmid⟩ := restore_trace F t
        (lasterr F "did not rollback"
          (call F (lasterr F "last err" rt).2 (Event.rollback rt.con.ptr)).2).2
      have hret : t.Rollback F rt = (Ret.returned (lasterr F "did not rollback"
            (call F (lasterr F "last err" rt).2 (Event.rollback rt.con.ptr)).2).1,
          (t.restoreIsolationLevel F (lasterr F "did not rollback"
            (call F (lasterr F "last err" rt).2 (Event.rollback rt.con.ptr)).2).2).2) := by
        unfold tx.Rollback
        rcases hl : lasterr F "last err" rt with ⟨pending, rt1⟩
        rw [hl] at hp hc
        simp only [] at hp hc
        subst hp
        have hptr : rt1.con.ptr = rt.con.ptr := by
          have : (lasterr F "last err" rt).2.con.ptr = rt.con.ptr := rfl
          rw [hl] at this; exact this
        simp [hptr, hc]
      have hev := eventsSince_append rt (t.Rollback F rt).2
        (Event.error :: Event.clear_error :: Event.rollback rt.con.ptr ::
          Event.error :: Event.clear_error :: Event.alloc rt.nextBlock ::
          Event.execute_immediate rt.con.ptr (setIsolationSQL t.lastIsolation) ::
          (mid ++ [Event.free rt.nextBlock]))
        (by rw [hret]; simp only []; rw [htr]; simp [lasterr, call])
      rw [hev]
      refine ⟨by rw [hret, if_pos hc], ?_, ?_⟩
      · simp [List.count_cons, count_mid mid hmid]
      · simp [List.count_cons, count_mid mid hmid]
    · obtain ⟨mid, htr, hmid⟩ := restore_trace F t
        (call F (lasterr F "last err" rt).2 (Event.rollback rt.con.ptr)).2
      have hret : t.Rollback F rt = (Ret.returned none,
          (t.restoreIsolationLevel F
            (call F (lasterr F "last err" rt).2 (Event.rollback rt.con.ptr)).2).2) := by
        unfold tx.Rollback
        rcases hl : lasterr F "last err" rt with ⟨pending, rt1⟩
        rw [hl] at hp hc
        simp only [] at hp hc
        subst hp
        have hptr : rt1.con.ptr = rt.con.ptr := by
          have : (lasterr F "last err" rt).2.con.ptr = rt.con.ptr := rfl
          rw [hl] at this; exact this
        simp [hptr, hc]
      have hev := eventsSince_append rt (t.Rollback F rt).2
        (Event.error :: Event.clear_error :: Event.rollback rt.con.ptr ::
          Event.alloc rt.nextBlock ::
          Event.execute_immediate rt.con.ptr (setIsolationSQL t.lastIsolation) ::
          (mid ++ [Event.free rt.nextBlock]))
        (by rw [hret]; simp only []; rw [htr]; simp [lasterr, call])
      rw [hev]
      refine ⟨by rw [hret, if_neg hc], ?_, ?_⟩
      · simp [List.count_cons, count_mid mid hmid]
      · simp [List.count_cons, count_mid mid hmid]
  · intro e hp
    obtain ⟨mid, htr, hmid⟩ := restore_trace F t (lasterr F "last err" rt).2
    have hret : t.Rollback F rt = (Ret.panicked "" (some e),
        (t.restoreIsolationLevel F (lasterr F "last err" rt).2).2) := by
      unfold tx.Rollback
      rcases hl : lasterr F "last err" rt with ⟨pending, rt1⟩
      rw [hl] at hp
      simp only [] at hp
      subst hp
      rfl
    have hev := eventsSince_append rt (t.Rollback F rt).2
      (Event.error :: Event.clear_error :: Event.alloc rt.nextBlock ::
        Event.execute_immediate rt.con.ptr (setIsolationSQL t.lastIsolation) ::
        (mid ++ [Event.free rt.nextBlock]))
      (by rw [hret]; simp only []; rw [htr]; simp [lasterr, call])
    rw [hev]
    refine ⟨by rw [hret], ?_, ?_⟩
    · simp [List.count_cons, count_mid mid hmid]
    · simp [List.count_cons, count_mid mid hmid]

set_option maxRecDepth 20000 in
theorem commit_and_rollback_restore_once_witness :
    ((lasterr Foreign.healthy "last err" Runtime.initial).1 = none ∧
     (tx.Rollback Foreign.healthy
        { opts := { Isolation := LevelDefault, ReadOnly := false },
          lastIsolation := utf8 "0".toList } Runtime.initial).1
      = Ret.returned
        (if Foreign.healthy.ret (lasterr Foreign.healthy "last err" Runtime.initial).2.trace
            (Event.rollback Runtime.initial.con.ptr) = 0
          then (lasterr Foreign.healthy "did not rollback"
            (call Foreign.healthy (lasterr Foreign.healthy "last err" Runtime.initial).2
              (Event.rollback Runtime.initial.con.ptr)).2).1
          else none)) ∧
    ((lasterr Foreign.failing "last err" Runtime.initial).1
      = some (GoError.DriverError "last err" [] (-308)) ∧
     (tx.Rollback Foreign.failing
        { opts := { Isolation := LevelDefault, ReadOnly := false },
          lastIsolation := utf8 "0".toList } Runtime.initial).1
      = Ret.panicked "" (some (GoError.DriverError "last err" [] (-308)))) :=
  ⟨⟨by decide,
    ((commit_and_rollback_restore_once Foreign.healthy
      { opts := { Isolation := LevelDefault, ReadOnly := false },
        lastIsolation := utf8 "0".toList } Runtime.initial).2.1 (by decide)).1⟩,
   ⟨by decide,
    ((commit_and_rollback_restore_once Foreign.failing
      { opts := { Isolation := LevelDefault, ReadOnly := false },
        lastIsolation := utf8 "0".toList } Runtime.initial).2.2 _ (by decide)).1⟩⟩

/-! ## Lemmas on the time texts, on fetch and on queryInt -/

/-- Both layouts end in the time-only text; the full one is longer. -/
theorem formatDateTime_length (t : GoTime) :
    (formatTime t).length < (formatDateTime t).length := by
  unfold formatDateTime
  simp only [List.length_append, List.length_cons, List.length_nil]
  omega

/-- With the error code 100 pending, `lasterr` returns `io.EOF`. -/
theorem lasterr_EOF (F : Foreign) (pfx : String) (rt : Runtime)
    (h : F.ret rt.trace Event.error = 100) : (lasterr F pfx rt).1 = some GoError.EOF := by
  simp [lasterr, call, h, DriverErrorCodeEOF]

/-- With an error code other than 0 and 100 pending, `lasterr` returns a
`DriverError` that carries the code. -/
theorem lasterr_DriverError (F : Foreign) (pfx : String) (rt : Runtime) (c : Int)
    (h : F.ret rt.trace Event.error = c) (h0 : c ≠ 0) (h100 : c ≠ 100) :
    (lasterr F pfx rt).1
      = some (GoError.DriverError pfx
          ((F.errbuf rt.trace rt.con.errbuf).takeWhile (fun b => b != 0)) c) := by
  simp [lasterr, call, h, DriverErrorCodeEOF, h0, h100]

/-- Reading four bytes gives the number held by the whole buffer modulo
`2 ^ 32`, when the buffer has at least four bytes. -/
theorem readUnsigned_four (buf : List Nat) (h : 4 ≤ buf.length) :
    readUnsigned 4 buf = leNat buf % 2 ^ 32 := by
  match buf, h with
  | b0 :: b1 :: b2 :: b3 :: rest, _ =>
    simp only [readUnsigned, List.take_succ_cons, List.take_zero, leNat]
    omega

/-- On the path on which every call succeeds, `queryInt` returns the
number held by the first four bytes of the column: the number held by
the buffer modulo `2 ^ 32`. -/
theorem queryInt_value (F : Foreign) (c : connection) (query : List Char) (rt : Runtime)
    (s : Nat) (buf : List Nat)
    (hp : c.ptr ≠ none)
    (h1 : handleOf (F.ret (rt.trace ++ [Event.alloc rt.nextBlock])
      (Event.execute_direct c.ptr (utf8 query))) = some s)
    (h2 : F.ret (rt.trace ++ [Event.alloc rt.nextBlock,
      Event.execute_direct c.ptr (utf8 query)]) (Event.fetch_absolute (some s) 1) ≠ 0)
    (h3 : F.ret (rt.trace ++ [Event.alloc rt.nextBlock,
      Event.execute_direct c.ptr (utf8 query), Event.fetch_absolute (some s) 1])
      (Event.get_column (some s) 0) ≠ 0)
    (hb : (F.column (rt.trace ++ [Event.alloc rt.nextBlock,
      Event.execute_direct c.ptr (utf8 query), Event.fetch_absolute (some s) 1])).buffer
      = some buf)
    (hl : 4 ≤ (goStringN buf (F.column (rt.trace ++ [Event.alloc rt.nextBlock,
      Event.execute_direct c.ptr (utf8 query), Event.fetch_absolute (some s) 1])).length).length) :
    (queryInt F (some c) query rt).1
      = Ret.returned (((leNat (goStringN buf (F.column (rt.trace ++ [Event.alloc rt.nextBlock,
          Event.execute_direct c.ptr (utf8 query),
          Event.fetch_absolute (some s) 1])).length) % 2 ^ 32 : Nat) : Int), none) := by
  unfold queryInt
  simp only [call, alloc]
  rw [if_neg (by simpa using hp)]
  simp only [List.append_assoc, List.cons_append, List.nil_append] at h1 h2 h3 hb hl ⊢
  rw [h1]
  simp only []
  rw [if_neg (by simpa using h2), if_neg (by simpa using h3), hb]
  simp only [Option.getD_some]
  rw [if_neg (by omega), readUnsigned_four _ hl]

/-! ## Lemmas on awaitFunc -/

/-- The function value of `execImmediateContext`, run to its end, is
`execImmediate`. -/
theorem execImmediateTask_run (F : Foreign) (sql : List Nat) (rt : Runtime) :
    (execImmediateTask F sql).run rt = execImmediate F sql rt := by
  unfold execImmediateTask execImmediate
  simp only [Task.run, call, alloc]
  split <;> simp_all [Task.run, cfree]

theorem Await_steps_append (F : Foreign) (run : Task) (a b : List Actor) :
    ∀ s : Await, Await.steps F run (a ++ b) s = Await.steps F run b (Await.steps F run a s) := by
  induction a with
  | nil => intro s; rfl
  | cons x a ih => intro s; exact ih _

theorem Await_Inv_start (ctx : Context) (rt : Runtime) : (Await.start ctx rt).Inv := by
  simp [Await.Inv, Await.start, Routine.isIdle]

/-- Every move keeps the invariant. -/
theorem Await_Inv_step (F : Foreign) (run : Task) (a : Actor) (s : Await) (h : s.Inv) :
    (s.step F run a).Inv := by
  obtain ⟨pc, routine, ctx, rt, invoked, cancels⟩ := s
  cases a with
  | cancelCtx e =>
    simp only [Await.step]
    split
    · rename_i hc
      simp only [Bool.and_eq_true, Option.isNone_iff_eq_none] at hc
      cases pc <;> simp_all [Await.Inv]
    · exact h
  | goroutine =>
    simp only [Await.step]
    split
    · cases pc <;> simp_all [Await.Inv, Routine.live, Routine.isIdle, Routine.isFinished]
    · cases pc <;> simp_all [Await.Inv, Routine.live, Routine.isIdle, Routine.isFinished]
    · exact h
  | caller preferDone =>
    cases pc with
    | entry =>
      simp only [Await.step]
      split
      · simp_all [Await.Inv, Routine.live, Routine.isIdle]
        cases routine <;> simp_all [Routine.live, Routine.isIdle]
      · simp_all [Await.Inv]
    | checkErr =>
      simp only [Await.step]
      split
      · simp_all [Await.Inv]
        cases routine <;> simp_all [Routine.live, Routine.isIdle]
      · simp_all [Await.Inv]
    | spawn => simp_all [Await.step, Await.Inv, Routine.live]
    | select =>
      simp only [Await.step]
      split
      · simp_all [Await.Inv, Routine.live]
      · split
        · simp_all [Await.Inv, Routine.live]
        · simp_all [Await.Inv, Routine.live]
      · simp_all [Await.Inv]
      · exact h
    | cancel => simp_all [Await.step, Await.Inv]
    | drain =>
      simp only [Await.step]
      split
      · simp_all [Await.Inv, Routine.live, Routine.isFinished]
      · exact h
    | returned e => exact h

/-- Every state of a call of `awaitFunc` has the invariant. -/
theorem Await_Inv_steps (F : Foreign) (run : Task) (sched : List Actor) :
    ∀ s : Await, s.Inv → (Await.steps F run sched s).Inv := by
  induction sched with
  | nil => intro s h; exact h
  | cons a rest ih => intro s h; exact ih _ (Await_Inv_step F run a s h)

/-- A goroutine inside `run()` reaches its send when it is given enough
moves; the runtime is then the one `run` leaves. -/
theorem goroutine_reaches_send (F : Foreign) (run : Task) (t : Task) :
    ∀ s : Await, s.routine = Routine.running t →
      Await.steps F run (List.replicate (t.steps s.rt + 1) Actor.goroutine) s
        = { s with routine := Routine.sending (t.run s.rt).1, rt := (t.run s.rt).2 } := by
  induction t with
  | ret err =>
    intro s hs
    simp only [Task.steps, Task.run, List.replicate, Await.steps, Await.step, hs]
  | step act next ih =>
    intro s hs
    have := ih s.rt { s with routine := Routine.running (next s.rt), rt := act s.rt } rfl
    simp only [Task.steps, Task.run]
    rw [List.replicate_succ]
    simp only [Await.steps, Await.step, hs]
    exact this

/-- From every state with the invariant the caller returns when the
goroutine and the caller are given enough moves. -/
theorem Await_progress (F : Foreign) (run : Task) (s : Await) (h : s.Inv) :
    ∃ more, (Await.steps F run more s).pc.isReturned = true := by
  -- from the receive `<-done` and from the select
  have hdrain : ∀ s : Await, s.pc = Pc.drain → s.routine.live = true →
      ∃ more, (Await.steps F run more s).pc.isReturned = true := by
    intro s hpc hl
    obtain ⟨pc, routine, ctx, rt, invoked, cancels⟩ := s
    simp only at hpc
    subst hpc
    cases routine with
    | idle => simp [Routine.live] at hl
    | finished => simp [Routine.live] at hl
    | sending e =>
      exact ⟨[Actor.caller true], by simp [Await.steps, Await.step, Pc.isReturned]⟩
    | running t =>
      refine ⟨List.replicate (t.steps rt + 1) Actor.goroutine ++ [Actor.caller true], ?_⟩
      rw [Await_steps_append, goroutine_reaches_send F run t
        ⟨Pc.drain, Routine.running t, ctx, rt, invoked, cancels⟩ rfl]
      simp [Await.steps, Await.step, Pc.isReturned]
  have hselect : ∀ s : Await, s.pc = Pc.select → s.routine.live = true →
      ∃ more, (Await.steps F run more s).pc.isReturned = true := by
    intro s hpc hl
    obtain ⟨pc, routine, ctx, rt, invoked, cancels⟩ := s
    simp only at hpc
    subst hpc
    cases routine with
    | idle => simp [Routine.live] at hl
    | finished => simp [Routine.live] at hl
    | sending e =>
      refine ⟨[Actor.caller true], ?_⟩
      cases hc : ctx.err <;> simp [Await.steps, Await.step, Pc.isReturned, hc]
    | running t =>
      refine ⟨List.replicate (t.steps rt + 1) Actor.goroutine ++ [Actor.caller true], ?_⟩
      rw [Await_steps_append, goroutine_reaches_send F run t
        ⟨Pc.select, Routine.running t, ctx, rt, invoked, cancels⟩ rfl]
      cases hc : ctx.err <;> simp [Await.steps, Await.step, Pc.isReturned, hc]
  obtain ⟨pc, routine, ctx, rt, invoked, cancels⟩ := s
  cases pc with
  | returned e => exact ⟨[], rfl⟩
  | drain => exact hdrain _ rfl h.1
  | select => exact hselect _ rfl h.1
  | cancel =>
    obtain ⟨more, hm⟩ := hdrain (Await.step F run (Actor.caller true)
      ⟨Pc.cancel, routine, ctx, rt, invoked, cancels⟩) rfl h.1
    exact ⟨Actor.caller true :: more, hm⟩
  | spawn =>
    obtain ⟨more, hm⟩ := hselect (Await.step F run (Actor.caller true)
      ⟨Pc.spawn, routine, ctx, rt, invoked, cancels⟩) rfl rfl
    exact ⟨Actor.caller true :: more, hm⟩
  | checkErr =>
    cases hc : ctx.err with
    | some e =>
      exact ⟨[Actor.caller true], by simp [Await.steps, Await.step, Pc.isReturned, hc]⟩
    | none =>
      obtain ⟨more, hm⟩ := hselect (Await.step F run (Actor.caller true)
        (Await.step F run (Actor.caller true)
          ⟨Pc.checkErr, routine, ctx, rt, invoked, cancels⟩))
        (by simp [Await.step, hc]) (by simp [Await.step, hc, Routine.live])
      exact ⟨Actor.caller true :: Actor.caller true :: more, hm⟩
  | entry =>
    cases hd : ctx.cancellable with
    | false =>
      exact ⟨[Actor.caller true], by simp [Await.steps, Await.step, Pc.isReturned, hd]⟩
    | true =>
      cases hc : ctx.err with
      | some e =>
        exact ⟨[Actor.caller true, Actor.caller true],
          by simp [Await.steps, Await.step, Pc.isReturned, hc, hd]⟩
      | none =>
        obtain ⟨more, hm⟩ := hselect (Await.step F run (Actor.caller true)
          (Await.step F run (Actor.caller true) (Await.step F run (Actor.caller true)
            ⟨Pc.entry, routine, ctx, rt, invoked, cancels⟩)))
          (by simp [Await.step, hc, hd]) (by simp [Await.step, hc, hd, Routine.live])
        exact ⟨Actor.caller true :: Actor.caller true :: Actor.caller true :: more, hm⟩

/-- After the return, with no goroutine started and a context that
cannot change any more, no move changes the state. -/
theorem Await_steps_returned (F : Foreign) (run : Task) (sched : List Actor) :
    ∀ s : Await, s.pc.isReturned = true → s.routine.isIdle = true →
      (s.ctx.cancellable = false ∨ s.ctx.err.isSome = true) →
      Await.steps F run sched s = s := by
  induction sched with
  | nil => intro s _ _ _; rfl
  | cons a rest ih =>
    intro s hp hr hc
    have hstep : s.step F run a = s := by
      obtain ⟨pc, routine, ctx, rt, invoked, cancels⟩ := s
      cases pc <;> simp [Pc.isReturned] at hp
      cases routine <;> simp [Routine.isIdle] at hr
      cases a with
      | caller b => rfl
      | goroutine => rfl
      | cancelCtx e =>
        simp only [Await.step]
        rw [if_neg]
        simp only at hc
        rcases hc with hc | hc
        · simp [hc]
        · cases he : ctx.err <;> simp_all
    simp only [Await.steps]
    rw [hstep]
    exact ih s hp hr hc

/-- With a context that can never be cancelled, the first move of the
caller runs `run` to its end and returns its result. -/
theorem Await_steps_sync (F : Foreign) (run : Task) (sched : List Actor) :
    ∀ s : Await, s.pc = Pc.entry → s.routine.isIdle = true → s.ctx.cancellable = false →
      Await.steps F run sched s
        = if sched.any Actor.isCaller then
            { s with pc := Pc.returned (run.run s.rt).1, rt := (run.run s.rt).2,
                     invoked := s.invoked + 1 }
          else s := by
  induction sched with
  | nil => intro s _ _ _; rfl
  | cons a rest ih =>
    intro s hp hr hc
    obtain ⟨pc, routine, ctx, rt, invoked, cancels⟩ := s
    simp only at hp hr hc
    subst hp
    cases routine <;> simp [Routine.isIdle] at hr
    cases a with
    | caller b =>
      simp only [Await.steps, Await.step, hc, List.any_cons, Actor.isCaller, Bool.true_or,
        if_true, Bool.not_false]
      exact Await_steps_returned F run rest _ rfl rfl (Or.inl hc)
    | goroutine =>
      simp only [Await.steps, Await.step, List.any_cons, Actor.isCaller, Bool.false_or]
      exact ih _ rfl rfl hc
    | cancelCtx e =>
      simp only [Await.steps, Await.step, hc, List.any_cons, Actor.isCaller, Bool.false_or,
        Bool.false_and]
      exact ih _ rfl rfl hc

/-- With a context that is cancelled or expired at the entry, the first
move of the caller finds the channel, the second returns the error of
the context; nothing else happens. -/
theorem Await_steps_cancelled (F : Foreign) (run : Task) (e : GoError) (sched : List Actor) :
    ∀ s : Await, s.routine.isIdle = true → s.ctx.cancellable = true → s.ctx.err = some e →
      (s.pc = Pc.entry →
        Await.steps F run sched s
          = { s with pc := match sched.countP Actor.isCaller with
                | 0 => Pc.entry
                | 1 => Pc.checkErr
                | _ => Pc.returned (some e) }) ∧
      (s.pc = Pc.checkErr →
        Await.steps F run sched s
          = { s with pc := match sched.countP Actor.isCaller with
                | 0 => Pc.checkErr
                | _ => Pc.returned (some e) }) := by
  induction sched with
  | nil => intro s _ _ _; exact ⟨fun h => by simp [Await.steps, ← h], fun h => by simp [Await.steps, ← h]⟩
  | cons a rest ih =>
    intro s hr hc he
    obtain ⟨pc, routine, ctx, rt, invoked, cancels⟩ := s
    simp only at hr hc he
    cases routine <;> simp [Routine.isIdle] at hr
    have hnone : (ctx.cancellable && ctx.err.isNone) = false := by simp [he]
    constructor
    · intro hp
      simp only at hp
      subst hp
      cases a with
      | caller b =>
        simp only [Await.steps, Await.step, hc, Bool.not_true, Bool.false_eq_true, if_false]
        rw [(ih ⟨Pc.checkErr, Routine.idle, ctx, rt, invoked, cancels⟩ rfl hc he).2 rfl]
        simp only [List.countP_cons, Actor.isCaller, if_true]
        cases List.countP Actor.isCaller rest <;> rfl
      | goroutine =>
        simp only [Await.steps, Await.step]
        rw [(ih ⟨Pc.entry, Routine.idle, ctx, rt, invoked, cancels⟩ rfl hc he).1 rfl]
        simp [List.countP_cons, Actor.isCaller]
      | cancelCtx x =>
        simp only [Await.steps, Await.step, hnone, Bool.false_eq_true, if_false]
        rw [(ih ⟨Pc.entry, Routine.idle, ctx, rt, invoked, cancels⟩ rfl hc he).1 rfl]
        simp [List.countP_cons, Actor.isCaller]
    · intro hp
      simp only at hp
      subst hp
      cases a with
      | caller b =>
        simp only [Await.steps, Await.step, he]
        rw [Await_steps_returned F run rest
          ⟨Pc.returned (some e), Routine.idle, ctx, rt, invoked, cancels⟩ rfl rfl
          (Or.inr (by simp [he]))]
        simp [List.countP_cons, Actor.isCaller]
      | goroutine =>
        simp only [Await.steps, Await.step]
        rw [(ih ⟨Pc.checkErr, Routine.idle, ctx, rt, invoked, cancels⟩ rfl hc he).2 rfl]
        simp [List.countP_cons, Actor.isCaller]
      | cancelCtx x =>
        simp only [Await.steps, Await.step, hnone, Bool.false_eq_true, if_false]
        rw [(ih ⟨Pc.checkErr, Routine.idle, ctx, rt, invoked, cancels⟩ rfl hc he).2 rfl]
        simp [List.countP_cons, Actor.isCaller]

/-! ## Further lemmas on the rewriter -/

/-- The placeholders of a rewritten text are one for each name when no
rune copied verbatim is a placeholder. -/
theorem count_placeholder_render (toks : List Tok)
    (h : ∀ c, Tok.lit c ∈ toks → c ≠ placeholder) :
    (render (fun _ => [placeholder]) toks).count placeholder = (tokNames toks).length := by
  induction toks with
  | nil => rfl
  | cons t ts ih =>
    have ih2 := ih (fun c hc => h c (List.mem_cons_of_mem _ hc))
    cases t with
    | lit c =>
      have hc : c ≠ placeholder := h c (List.mem_cons_self _ _)
      simp only [render, tokNames]
      rw [List.count_cons_of_ne (Ne.symm hc)]
      exact ih2
    | name n =>
      simp only [render, tokNames, List.singleton_append, List.count_cons_self,
        List.length_cons]
      rw [ih2]

/-- The rune a rewritten text starts with is no rune of a name when the
text rewritten starts with none. -/
theorem headD_render_isArg (q : Bool) (p : Char) (s : List Char)
    (h : isArg (s.headD zeroRune) = false) :
    isArg ((render (fun _ => [placeholder]) (tokens q p s)).headD zeroRune) = false := by
  cases s with
  | nil => rw [tokens_nil]; exact isArg_zeroRune
  | cons c rest =>
    simp only [List.headD_cons] at h
    rw [tokens_cons]
    by_cases hq : (if c == quote && p != escape then !q else q) = true
    · rw [if_pos hq]
      simp only [render, List.headD_cons]
      exact h
    · rw [if_neg hq]
      by_cases hp : (c == param && isArg (rest.headD zeroRune)) = true
      · rw [if_pos hp]
        simp only [render, List.singleton_append, List.headD_cons]
        decide
      · rw [if_neg hp]
        simp only [render, List.headD_cons]
        exact h

/-- Rewriting a rewritten text finds no name: every rune is copied. -/
theorem tokens_render (n : Nat) :
    ∀ (s : List Char) (q : Bool) (p p2 : Char), s.length ≤ n →
      (p != escape) = (p2 != escape) →
      tokens q p2 (render (fun _ => [placeholder]) (tokens q p s))
        = (render (fun _ => [placeholder]) (tokens q p s)).map Tok.lit := by
  induction n with
  | zero =>
    intro s q p p2 h _
    have : s = [] := List.length_eq_zero.mp (Nat.le_zero.mp h)
    subst this
    simp [tokens_nil, render]
  | succ n ih =>
    intro s q p p2 h hpp
    cases s with
    | nil => simp [tokens_nil, render]
    | cons c rest =>
      have hlen : rest.length ≤ n := by simpa using h
      rw [tokens_cons]
      by_cases hq : (if c == quote && p != escape then !q else q) = true
      · rw [if_pos hq]
        simp only [render, List.map_cons]
        rw [tokens_cons, ← hpp, if_pos hq]
        rw [ih rest _ c c hlen rfl]
      · rw [if_neg hq]
        have hq2 : (if c == quote && p != escape then !q else q) = false := by
          simpa using hq
        by_cases hp : (c == param && isArg (rest.headD zeroRune)) = true
        · rw [if_pos hp]
          have hc : c = param := by
            simp only [Bool.and_eq_true, beq_iff_eq] at hp; exact hp.1
          have hhead : isArg (rest.headD zeroRune) = true := by
            simp only [Bool.and_eq_true] at hp; exact hp.2
          have hlen3 : (rest.dropWhile isArg).length ≤ n :=
            Nat.le_trans (List.dropWhile_sublist (l := rest) isArg).length_le hlen
          have hpq : (param == quote) = false := by decide
          have hqq : q = false := by
            rw [hc] at hq2
            simpa [hpq] using hq2
          subst hqq
          have hlast : isArg ((rest.takeWhile isArg).getLastD zeroRune) = true :=
            isArg_getLastD (takeWhile_ne_nil_of_head hhead)
              (fun x hx => List.mem_takeWhile_imp hx)
          have hesc : (((rest.takeWhile isArg).getLastD zeroRune) != escape)
              = (placeholder != escape) := by
            have h1 := isArg_ne_escape hlast
            have h2 : (placeholder != escape) = true := by decide
            rw [h2]
            simpa using h1
          have hpp2 : (placeholder == param) = false := by decide
          simp only [render, List.singleton_append, List.map_cons]
          rw [tokens_lit p2 placeholder
            (render (fun _ => [placeholder])
              (tokens false ((rest.takeWhile isArg).getLastD zeroRune) (rest.dropWhile isArg)))
            (by decide) (by rw [hpp2]; rfl)]
          rw [ih _ false _ placeholder hlen3 hesc]
        · rw [if_neg hp]
          have hp2 : (c == param && isArg (rest.headD zeroRune)) = false := by simpa using hp
          simp only [render, List.map_cons]
          rw [tokens_cons, ← hpp, if_neg hq]
          have hnext : (c == param && isArg ((render (fun _ => [placeholder])
              (tokens false c rest)).headD zeroRune)) = false := by
            by_cases hcp : (c == param) = true
            · have hr : isArg (rest.headD zeroRune) = false := by simpa [hcp] using hp2
              rw [headD_render_isArg _ _ _ hr]
              simp
            · simp only [Bool.not_eq_true] at hcp
              simp [hcp]
          rw [if_neg (by simpa using hnext)]
          rw [ih rest false c c hlen rfl]

/-- Only whether the rune before a text is a backslash matters to its
quoted regions. -/
theorem quotedRunes_prior_congr (q : Bool) (p1 p2 : Char) (s : List Char)
    (h : (p1 != escape) = (p2 != escape)) : quotedRunes q p1 s = quotedRunes q p2 s := by
  cases s with
  | nil => rfl
  | cons c rest => simp only [quotedRunes, h]

/-- Outside quotes the runes of a name belong to no quoted region. -/
theorem quotedRunes_name (n : List Char) (hall : ∀ x ∈ n, isArg x = true) :
    ∀ (p : Char) (r : List Char),
      quotedRunes false p (n ++ r) = quotedRunes false (n.getLastD p) r := by
  induction n with
  | nil => intro p r; rfl
  | cons x n ih =>
    intro p r
    have hx : isArg x = true := hall x (List.mem_cons_self _ _)
    have hxq : (x == quote) = false := by simpa using isArg_ne_quote hx
    simp only [List.cons_append, quotedRunes, hxq, Bool.false_and, Bool.false_eq_true,
      if_false]
    show quotedRunes false x (n ++ r) = _
    rw [ih (fun y hy => hall y (List.mem_cons_of_mem _ hy))]
    cases n with
    | nil => rfl
    | cons y n => rfl

/-- The quoted regions of a rewritten text are those of the text. -/
theorem quotedRunes_render (n : Nat) :
    ∀ (s : List Char) (q : Bool) (p p2 : Char), s.length ≤ n →
      (p != escape) = (p2 != escape) →
      quotedRunes q p2 (render (fun _ => [placeholder]) (tokens q p s)) = quotedRunes q p s := by
  induction n with
  | zero =>
    intro s q p p2 h _
    have : s = [] := List.length_eq_zero.mp (Nat.le_zero.mp h)
    subst this
    simp [tokens_nil, render, quotedRunes]
  | succ n ih =>
    intro s q p p2 h hpp
    cases s with
    | nil => simp [tokens_nil, render, quotedRunes]
    | cons c rest =>
      have hlen : rest.length ≤ n := by simpa using h
      rw [tokens_cons]
      by_cases hq : (if c == quote && p != escape then !q else q) = true
      · rw [if_pos hq]
        simp only [render, quotedRunes]
        rw [← hpp, if_pos hq, if_pos hq, ih rest _ c c hlen rfl]
      · rw [if_neg hq]
        have hq2 : (if c == quote && p != escape then !q else q) = false := by
          simpa using hq
        by_cases hp : (c == param && isArg (rest.headD zeroRune)) = true
        · rw [if_pos hp]
          have hc : c = param := by
            simp only [Bool.and_eq_true, beq_iff_eq] at hp; exact hp.1
          have hhead : isArg (rest.headD zeroRune) = true := by
            simp only [Bool.and_eq_true] at hp; exact hp.2
          have hlen3 : (rest.dropWhile isArg).length ≤ n :=
            Nat.le_trans (List.dropWhile_sublist (l := rest) isArg).length_le hlen
          have hpq : (param == quote) = false := by decide
          have hph : (placeholder == quote) = false := by decide
          have hqq : q = false := by
            rw [hc] at hq2
            simpa [hpq] using hq2
          subst hqq
          subst hc
          have hne := takeWhile_ne_nil_of_head hhead
          have hlast : isArg ((rest.takeWhile isArg).getLastD zeroRune) = true :=
            isArg_getLastD hne (fun x hx => List.mem_takeWhile_imp hx)
          have hesc : (((rest.takeWhile isArg).getLastD zeroRune) != escape)
              = (placeholder != escape) := by
            have h1 := isArg_ne_escape hlast
            have h2 : (placeholder != escape) = true := by decide
            rw [h2]
            simpa using h1
          simp only [render, List.singleton_append]
          rw [quotedRunes, quotedRunes]
          simp only [hph, hpq, Bool.false_and, Bool.false_eq_true, if_false]
          rw [ih _ false _ placeholder hlen3 hesc]
          conv_rhs => rw [← List.takeWhile_append_dropWhile isArg rest]
          rw [quotedRunes_name _ (fun x hx => List.mem_takeWhile_imp hx)]
          rw [getLastD_of_ne_nil _ param zeroRune hne]
        · rw [if_neg hp]
          simp only [render, quotedRunes]
          rw [← hpp, if_neg hq, if_neg hq, hq2, ih rest false c c hlen rfl]

/-- What `isArg` accepts: an ASCII digit, letter or underscore. -/
theorem isArg_ascii {c : Char} (h : isArg c = true) :
    (c.isAlphanum = true ∨ c = '_') ∧ c.toNat < 128 ∧ c.isWhitespace = false ∧
    c ≠ param ∧ c ≠ quote ∧ c ≠ escape ∧ c ≠ placeholder := by
  have hn : (48 ≤ c.toNat ∧ c.toNat ≤ 57) ∨ (65 ≤ c.toNat ∧ c.toNat ≤ 90) ∨
      (97 ≤ c.toNat ∧ c.toNat ≤ 122) ∨ c.toNat = 95 := by
    simp only [isArg, Bool.or_eq_true, Bool.and_eq_true, decide_eq_true_eq, beq_iff_eq,
      ge_iff_le, Char.le_def] at h
    rcases h with ((h | h) | h) | h
    · exact Or.inl h
    · exact Or.inr (Or.inl h)
    · exact Or.inr (Or.inr (Or.inl h))
    · exact Or.inr (Or.inr (Or.inr (by rw [h]; rfl)))
  refine ⟨?_, by omega, ?_, ?_, ?_, ?_, ?_⟩
  · by_cases hu : c = '_'
    · exact Or.inr hu
    · left
      have h95 : c.toNat ≠ 95 := by
        intro h9
        apply hu
        apply Char.ext
        apply UInt32.ext
        exact h9
      simp only [Char.isAlphanum, Char.isAlpha, Char.isUpper, Char.isLower, Char.isDigit,
        Bool.or_eq_true, Bool.and_eq_true, decide_eq_true_eq, ge_iff_le, UInt32.le_def]
      rcases hn with h | h | h | h
      · right; exact ⟨h.1, h.2⟩
      · left; left; exact ⟨h.1, h.2⟩
      · left; right; exact ⟨h.1, h.2⟩
      · exact absurd h h95
  · simp only [Char.isWhitespace, Bool.or_eq_false_iff, beq_eq_false_iff_ne, ne_eq]
    refine ⟨⟨⟨?_, ?_⟩, ?_⟩, ?_⟩ <;>
      (rw [decide_eq_false_iff_not]; intro hc; rw [hc] at hn; revert hn; decide)
  · intro hc; rw [hc] at hn; revert hn; decide
  · intro hc; rw [hc] at hn; revert hn; decide
  · intro hc; rw [hc] at hn; revert hn; decide
  · intro hc; rw [hc] at hn; revert hn; decide

/-! ## Properties of the time texts, of fetch, of queryInt and of awaitFunc, and further
properties of the rewriter -/

set_option maxRecDepth 20000 in
/-- C21, at the failing input: the timestamps of the zero date at
00:00:01 with 123456789 and with 100000000 nanoseconds. Both are encoded
as the text 00:00:01.1, so whatever the decoding of that text gives, it
is not the nanoseconds of both: the text of `timeToString` keeps one
fractional digit only. -/
theorem nanoseconds_lost_in_time_text :
    timeToString { year := 0, month := 1, day := 1, hour := 0, minute := 0, second := 1,
                   nanosecond := 123456789 } = "00:00:01.1".toList ∧
    timeToString { year := 0, month := 1, day := 1, hour := 0, minute := 0, second := 1,
                   nanosecond := 100000000 } = "00:00:01.1".toList ∧
    ∀ decode : List Char → Option GoTime,
      (decode (timeToString { year := 0, month := 1, day := 1, hour := 0, minute := 0,
                              second := 1, nanosecond := 123456789 })).map GoTime.nanosecond
        ≠ some 123456789 ∨
      (decode (timeToString { year := 0, month := 1, day := 1, hour := 0, minute := 0,
                              second := 1, nanosecond := 100000000 })).map GoTime.nanosecond
        ≠ some 100000000 := by
  have h1 : timeToString ⟨0, 1, 1, 0, 0, 1, 123456789⟩ = "00:00:01.1".toList := by decide
  have h2 : timeToString ⟨0, 1, 1, 0, 0, 1, 100000000⟩ = "00:00:01.1".toList := by decide
  refine ⟨h1, h2, ?_⟩
  intro decode
  rw [h1, h2]
  cases decode "00:00:01.1".toList with
  | none => exact Or.inl (by simp)
  | some d =>
    by_cases hd : d.nanosecond = 123456789
    · exact Or.inr (by simp [hd])
    · exact Or.inl (by simpa using hd)

set_option maxRecDepth 20000 in
/-- C22, as stated, does not hold: at midnight of the zero date
`timeToString` gives the time-only text 00:00:00, not the full timestamp
text. -/
theorem zero_date_midnight_is_time_only :
    timeToString { year := 0, month := 1, day := 1, hour := 0, minute := 0, second := 0,
                   nanosecond := 0 } = "00:00:00".toList ∧
    formatDateTime { year := 0, month := 1, day := 1, hour := 0, minute := 0, second := 0,
                     nanosecond := 0 } = "0000-01-01 00:00:00".toList ∧
    timeToString { year := 0, month := 1, day := 1, hour := 0, minute := 0, second := 0,
                   nanosecond := 0 }
      ≠ formatDateTime { year := 0, month := 1, day := 1, hour := 0, minute := 0, second := 0,
                         nanosecond := 0 } := by
  decide

/-- C22, amended: `timeToString t` is the time-only text exactly when
the calendar date of `t` is the zero date (year 0, month 1, day 1),
whatever the time of day; for every other date it is the full timestamp
text, which is the date, a blank and the time-only text. The two texts
are never equal. -/
theorem time_only_exactly_on_zero_date (t : GoTime) :
    (timeToString t = formatTime t ↔ (t.year = 0 ∧ t.month = 1 ∧ t.day = 1)) ∧
    (timeToString t = formatDateTime t ↔ ¬ (t.year = 0 ∧ t.month = 1 ∧ t.day = 1)) ∧
    formatDateTime t
      = appendInt t.year 4 ++ ['-'] ++ padDigits t.month 2 ++ ['-'] ++ padDigits t.day 2
          ++ [' '] ++ formatTime t := by
  have hne : formatTime t ≠ formatDateTime t := by
    intro h
    have := formatDateTime_length t
    rw [← h] at this
    exact absurd this (lt_irrefl _)
  by_cases hz : t.year = 0 ∧ t.month = 1 ∧ t.day = 1
  · have ht : timeToString t = formatTime t := by
      unfold timeToString
      simp [hz.1, hz.2.1, hz.2.2]
    refine ⟨⟨fun _ => hz, fun _ => ht⟩, ⟨fun h => ?_, fun h => absurd hz h⟩, rfl⟩
    rw [ht] at h
    exact absurd h hne
  · have ht : timeToString t = formatDateTime t := by
      unfold timeToString
      split
      · rename_i h
        simp only [Bool.and_eq_true, beq_iff_eq] at h
        exact absurd ⟨h.1.1, h.1.2, h.2⟩ hz
      · rfl
    refine ⟨⟨fun h => ?_, fun h => absurd h hz⟩, ⟨fun _ => hz, fun _ => ht⟩, rfl⟩
    rw [ht] at h
    exact absurd h.symm hne

theorem time_only_exactly_on_zero_date_witness :
    timeToString { year := 0, month := 1, day := 1, hour := 13, minute := 5, second := 0,
                   nanosecond := 0 }
      = formatTime { year := 0, month := 1, day := 1, hour := 13, minute := 5, second := 0,
                     nanosecond := 0 } :=
  (time_only_exactly_on_zero_date _).1.2 ⟨rfl, rfl, rfl⟩

/-- C23: with the error code 100 pending on the connection, `lasterr`
returns `io.EOF` for every prefix and message, and so do `fetch` (with a
live or a finished context) and `NextResultSet` after a failed call; a
failed fetch under a live context that leaves another non-zero code `c`
returns a `DriverError` carrying `c`. -/
theorem end_of_data_code_gives_EOF (F : Foreign) (r : rows) (stmt : statement) (rt : Runtime)
    (ctxErr : Option GoError) (hs : r.stmt = some stmt) :
    (∀ (pfx : String) (rt0 : Runtime), F.ret rt0.trace Event.error = 100 →
      (lasterr F pfx rt0).1 = some GoError.EOF) ∧
    (F.ret rt.trace (Event.fetch_next stmt.ptr) ≠ 1 →
      F.ret (rt.trace ++ [Event.fetch_next stmt.ptr]) Event.error = 100 →
      (r.fetch F ctxErr rt).1 = Ret.returned (some GoError.EOF)) ∧
    (F.ret rt.trace (Event.get_next_result stmt.ptr) ≠ 1 →
      F.ret (rt.trace ++ [Event.get_next_result stmt.ptr]) Event.error = 100 →
      (r.NextResultSet F rt).1 = Ret.returned (some GoError.EOF)) ∧
    (∀ c : Int, F.ret rt.trace (Event.fetch_next stmt.ptr) ≠ 1 →
      F.ret (rt.trace ++ [Event.fetch_next stmt.ptr]) Event.error = c → c ≠ 0 → c ≠ 100 →
      (r.fetch F none rt).1
        = Ret.returned (some (GoError.DriverError "did not fetch next"
            ((F.errbuf (rt.trace ++ [Event.fetch_next stmt.ptr]) rt.con.errbuf).takeWhile
              (fun b => b != 0)) c))) := by
  refine ⟨fun pfx rt0 h => lasterr_EOF F pfx rt0 h, ?_, ?_, ?_⟩
  · intro hf hc
    unfold rows.fetch
    rw [hs]
    simp only [call]
    rw [if_neg (by simpa using hf)]
    cases ctxErr with
    | some e => rfl
    | none =>
      have := lasterr_EOF F "did not fetch next"
        { rt with trace := rt.trace ++ [Event.fetch_next stmt.ptr] } hc
      simp [this]
  · intro hf hc
    unfold rows.NextResultSet
    rw [hs]
    simp only [call]
    rw [if_neg (by simpa using hf)]
    have := lasterr_EOF F "did not advance to next result set:"
      { rt with trace := rt.trace ++ [Event.get_next_result stmt.ptr] } hc
    simp [this]
  · intro c hf hc h0 h100
    unfold rows.fetch
    rw [hs]
    simp only [call]
    rw [if_neg (by simpa using hf)]
    have := lasterr_DriverError F "did not fetch next"
      { rt with trace := rt.trace ++ [Event.fetch_next stmt.ptr] } c hc h0 h100
    simp [this, h100]

set_option maxRecDepth 20000 in
theorem end_of_data_code_gives_EOF_witness :
    (({ stmt := some personStatement, columns := [], names := [] } : rows).stmt
        = some personStatement ∧
      Foreign.exhausted.ret Runtime.initial.trace (Event.fetch_next personStatement.ptr) ≠ 1 ∧
      Foreign.exhausted.ret (Runtime.initial.trace ++ [Event.fetch_next personStatement.ptr])
        Event.error = 100) ∧
    (rows.fetch Foreign.exhausted { stmt := some personStatement, columns := [], names := [] }
      none Runtime.initial).1 = Ret.returned (some GoError.EOF) :=
  ⟨⟨rfl, by decide, by decide⟩,
   (end_of_data_code_gives_EOF Foreign.exhausted
      { stmt := some personStatement, columns := [], names := [] } personStatement
      Runtime.initial none rfl).2.1 (by decide) (by decide)⟩

set_option maxRecDepth 20000 in
/-- C24, at the failing input: the first column of the follow-up query
holds `2 ^ 32` as eight bytes in little-endian order. `queryInt`, and so
`LastInsertId` and `RowsAffected`, return 0: only the first four bytes
are read. -/
theorem queryInt_reads_four_bytes :
    (Foreign.wide.column []).buffer = some [0, 0, 0, 0, 1, 0, 0, 0] ∧
    leNat [0, 0, 0, 0, 1, 0, 0, 0] = 2 ^ 32 ∧
    (queryInt Foreign.wide (some Runtime.initial.con) "select @@identity".toList
      Runtime.initial).1 = Ret.returned (0, none) ∧
    (result.LastInsertId Foreign.wide { stmt := none, con := some Runtime.initial.con }
      Runtime.initial).1 = Ret.returned (0, none) ∧
    (result.RowsAffected Foreign.wide { stmt := none, con := some Runtime.initial.con }
      Runtime.initial).1 = Ret.returned (0, none) := by
  decide

/-- C25: in every state a call of `awaitFunc` can reach, under every
schedule of caller, goroutine and cancellation: when the caller has
returned, the goroutine is not live (never started, or past its send, so
the wrapped call has returned); `con.cancel()` has been called at most
once; while the caller waits in `<-done` it has been called exactly
once; and when the caller has returned after the cancellation won, the
goroutine is past its send, `run` was invoked once, and the value
returned is the error of the finished context whatever the goroutine
sent. From every such state the caller does return once the goroutine
and the caller are given enough moves. -/
theorem await_drains_before_return (F : Foreign) (run : Task) (sched : List Actor)
    (ctx : Context) (rt : Runtime) :
    (∀ e, (awaitFunc F run sched ctx rt).pc = Pc.returned e →
      (awaitFunc F run sched ctx rt).routine.live = false) ∧
    (awaitFunc F run sched ctx rt).cancels ≤ 1 ∧
    ((awaitFunc F run sched ctx rt).pc = Pc.drain →
      (awaitFunc F run sched ctx rt).cancels = 1 ∧
      (awaitFunc F run sched ctx rt).routine.live = true) ∧
    (∀ e, (awaitFunc F run sched ctx rt).pc = Pc.returned e →
      (awaitFunc F run sched ctx rt).cancels = 1 →
      (awaitFunc F run sched ctx rt).routine.isFinished = true ∧
      (awaitFunc F run sched ctx rt).invoked = 1 ∧
      e = (awaitFunc F run sched ctx rt).ctx.err ∧
      (awaitFunc F run sched ctx rt).ctx.err.isSome = true) ∧
    (∃ more, (awaitFunc F run (sched ++ more) ctx rt).pc.isReturned = true) := by
  have hinv := Await_Inv_steps F run sched _ (Await_Inv_start ctx rt)
  have hprog : ∃ more, (awaitFunc F run (sched ++ more) ctx rt).pc.isReturned = true := by
    obtain ⟨more, hm⟩ := Await_progress F run _ hinv
    exact ⟨more, by unfold awaitFunc; rw [Await_steps_append]; exact hm⟩
  refine ⟨?_, ?_, ?_, ?_, hprog⟩ <;> clear hprog <;> unfold awaitFunc <;>
    generalize Await.steps F run sched (Await.start ctx rt) = s at hinv
  · intro e he
    unfold Await.Inv at hinv
    rw [he] at hinv
    exact hinv.1
  · unfold Await.Inv at hinv
    split at hinv <;> omega
  · intro hd
    unfold Await.Inv at hinv
    rw [hd] at hinv
    exact ⟨hinv.2.1, hinv.1⟩
  · intro e he hc
    unfold Await.Inv at hinv
    rw [he] at hinv
    obtain ⟨h1, h2, h3, h4⟩ := hinv.2.2.2 hc
    exact ⟨h1, h4, h2, h3⟩

set_option maxRecDepth 20000 in
theorem await_drains_before_return_witness :
    ((execImmediateContext Foreign.succeeding beginSQL cancelledSchedule
        { cancellable := true, err := none } Runtime.initial).pc
        = Pc.returned (some Canceled) ∧
      (execImmediateContext Foreign.succeeding beginSQL cancelledSchedule
        { cancellable := true, err := none } Runtime.initial).cancels = 1) ∧
    (execImmediateContext Foreign.succeeding beginSQL cancelledSchedule
        { cancellable := true, err := none } Runtime.initial).routine.isFinished = true ∧
    (execImmediateContext Foreign.succeeding beginSQL cancelledSchedule
        { cancellable := true, err := none } Runtime.initial).rt.trace
      = [Event.alloc 0, Event.cancel (some 1), Event.execute_immediate (some 1) beginSQL,
         Event.free 0] :=
  ⟨⟨by decide, by decide⟩,
   ((await_drains_before_return Foreign.succeeding
      (execImmediateTask Foreign.succeeding beginSQL) cancelledSchedule
      { cancellable := true, err := none } Runtime.initial).2.2.2.1
        (some Canceled) (by decide) (by decide)).1,
   by decide⟩

/-- C26: for every SQL text `s` that holds no `?`, the rewritten text
holds exactly as many `?` as names are returned, and replacing the i-th
of them by the marker followed by the i-th name gives `s` back. -/
theorem reinserting_names_restores_text (s : List Char) (h : placeholder ∉ s) :
    (splitNamed s).1.count placeholder = (splitNamed s).2.length ∧
    substitutePlaceholders (fun n => param :: n) (splitNamed s).1 (splitNamed s).2 = s := by
  have hl : ∀ c, Tok.lit c ∈ tokensOf s → c ≠ placeholder := by
    intro c hc hcp
    have := lit_mem_tokText _ hc
    rw [tokText_tokensOf, hcp] at this
    exact h this
  rw [splitNamed_eq]
  exact ⟨count_placeholder_render _ hl,
    by rw [substitutePlaceholders_render _ _ hl, render_marker, tokText_tokensOf]⟩

set_option maxRecDepth 20000 in
theorem reinserting_names_restores_text_witness :
    placeholder ∉ "a = :n and b = ':n' or c = :n:m".toList ∧
    (splitNamed "a = :n and b = ':n' or c = :n:m".toList).1.count placeholder = 3 ∧
    substitutePlaceholders (fun n => param :: n)
        (splitNamed "a = :n and b = ':n' or c = :n:m".toList).1
        (splitNamed "a = :n and b = ':n' or c = :n:m".toList).2
      = "a = :n and b = ':n' or c = :n:m".toList :=
  ⟨by decide, by decide, (reinserting_names_restores_text _ (by decide)).2⟩

/-- C27: rewriting is idempotent. For every text `s`, rewriting the
rewritten text leaves it as it is and returns no name, and the quoted
regions of the rewritten text are those of `s`. -/
theorem rewriting_is_idempotent (s : List Char) :
    splitNamed (splitNamed s).1 = ((splitNamed s).1, []) ∧
    quotedRunes false zeroRune (splitNamed s).1 = quotedRunes false zeroRune s := by
  have h1 : tokensOf (splitNamed s).1 = (splitNamed s).1.map Tok.lit := by
    rw [splitNamed_eq]
    exact tokens_render s.length s false zeroRune zeroRune (Nat.le_refl _) rfl
  refine ⟨?_, ?_⟩
  · rw [splitNamed_eq (splitNamed s).1, h1, render_lits, tokNames_lits]
  · rw [splitNamed_eq]
    exact quotedRunes_render s.length s false zeroRune zeroRune (Nat.le_refl _) rfl

/-- C28: every name returned by `splitNamed` is non-empty and consists
only of ASCII letters, digits and underscores; it holds no marker, no
quote, no backslash, no placeholder, no whitespace and no rune beyond
ASCII. -/
theorem names_are_identifiers (s : List Char) :
    ∀ name ∈ (splitNamed s).2, name ≠ [] ∧
      ∀ c ∈ name, isArg c = true ∧ (c.isAlphanum = true ∨ c = '_') ∧ c.toNat < 128 ∧
        c.isWhitespace = false ∧ c ≠ param ∧ c ≠ quote ∧ c ≠ escape ∧ c ≠ placeholder := by
  intro name hname
  rw [splitNamed_eq] at hname
  obtain ⟨hne, hall⟩ :=
    tokNames_tokens_valid s.length s false zeroRune (Nat.le_refl _) name hname
  exact ⟨hne, fun c hc => ⟨hall c hc, isArg_ascii (hall c hc)⟩⟩

set_option maxRecDepth 20000 in
theorem names_are_identifiers_witness :
    "n".toList ∈ (splitNamed "a = :n".toList).2 ∧ "n".toList ≠ [] :=
  ⟨by decide, (names_are_identifiers "a = :n".toList "n".toList (by decide)).1⟩

/-- C29: under every schedule. With a context that can never be
cancelled, nothing happens before the first move of the caller, and from
that move on `awaitFunc` has returned exactly the result of the wrapped
call, which was invoked once, in the calling path (no goroutine is
started), and has left the runtime as the call run on its own leaves it.
With a cancellable context that is already cancelled or expired at the
entry, the wrapped call is never invoked, `con.cancel()` is not called,
the runtime is untouched, and from the second move of the caller on
`awaitFunc` has returned the error of the context. -/
theorem await_without_race (F : Foreign) (run : Task) (sched : List Actor) (rt : Runtime) :
    (∀ ctx : Context, ctx.cancellable = false →
      (sched.any Actor.isCaller = false →
        awaitFunc F run sched ctx rt = Await.start ctx rt) ∧
      (sched.any Actor.isCaller = true →
        (awaitFunc F run sched ctx rt).pc = Pc.returned (run.run rt).1 ∧
        (awaitFunc F run sched ctx rt).rt = (run.run rt).2 ∧
        (awaitFunc F run sched ctx rt).invoked = 1 ∧
        (awaitFunc F run sched ctx rt).cancels = 0 ∧
        (awaitFunc F run sched ctx rt).routine.isIdle = true)) ∧
    (∀ (ctx : Context) (e : GoError), ctx.cancellable = true → ctx.err = some e →
      (awaitFunc F run sched ctx rt).invoked = 0 ∧
      (awaitFunc F run sched ctx rt).cancels = 0 ∧
      (awaitFunc F run sched ctx rt).rt = rt ∧
      (awaitFunc F run sched ctx rt).routine.isIdle = true ∧
      (∀ x, (awaitFunc F run sched ctx rt).pc = Pc.returned x → x = some e) ∧
      (2 ≤ sched.countP Actor.isCaller →
        (awaitFunc F run sched ctx rt).pc = Pc.returned (some e))) := by
  constructor
  · intro ctx hc
    have h := Await_steps_sync F run sched (Await.start ctx rt) rfl rfl hc
    constructor
    · intro hn
      unfold awaitFunc
      rw [h, hn]
      rfl
    · intro hn
      unfold awaitFunc
      rw [h, hn]
      exact ⟨rfl, rfl, rfl, rfl, rfl⟩
  · intro ctx e hc he
    have h := (Await_steps_cancelled F run e sched (Await.start ctx rt) rfl hc he).1 rfl
    unfold awaitFunc
    rw [h]
    refine ⟨rfl, rfl, rfl, rfl, ?_, ?_⟩
    · intro x hx
      simp only at hx
      split at hx
      · exact absurd hx (by simp [Await.start])
      · exact absurd hx (by simp)
      · exact (Pc.returned.inj hx).symm
    · intro h2
      simp only
      split
      · rename_i h0; omega
      · rename_i h1; omega
      · rfl

set_option maxRecDepth 20000 in
theorem await_without_race_witness :
    (({ cancellable := false, err := none } : Context).cancellable = false ∧
      [Actor.goroutine, Actor.caller true].any Actor.isCaller = true) ∧
    (execImmediateContext Foreign.succeeding beginSQL [Actor.goroutine, Actor.caller true]
        { cancellable := false, err := none } Runtime.initial).pc
      = Pc.returned (execImmediate Foreign.succeeding beginSQL Runtime.initial).1 :=
  ⟨⟨rfl, by decide⟩,
   ((await_without_race Foreign.succeeding (execImmediateTask Foreign.succeeding beginSQL)
      [Actor.goroutine, Actor.caller true] Runtime.initial).1
        { cancellable := false, err := none } rfl).2 (by decide) |>.1⟩

end SqlAnywhere
